import Mathlib

/-!
# bot_mcp: the signed request gateway of `pkg/bybitapi`

A shallow embedding of `src/pkg/bybitapi/client.go` (`generateSignature`,
`sendRequest`) together with the Go standard-library routines those two
functions call (`sort.Strings`, `strconv.FormatInt`, `crypto/hmac` over
`crypto/sha256`, `encoding/hex`, `net/url`, `encoding/json`).

Go strings are byte sequences, so a Go `string` is a `List Byte` here; a Go
`map[string]string` is a list of entries with pairwise distinct keys, the list
order standing for one of the iteration orders the runtime may pick. What
`sendRequest` takes from outside the program (the clock, the validation done by
`http.NewRequest`, the transport) is an explicit `Env`; its result is an
`Outcome`: the requests handed to the transport and the returned pair.
-/

namespace BybitMcp

/-! ## Bytes and Go strings -/

/-- A byte. -/
abbrev Byte := Fin 256

/-- A Go `string` (also `[]byte`): a finite sequence of bytes. -/
abbrev GoString := List Byte

/-- The byte with value `n % 256`. -/
def byteOfNat (n : Nat) : Byte := ⟨n % 256, Nat.mod_lt n (by decide)⟩

/-- UTF-8 encoding of one character, as the Go compiler stores string literals. -/
def utf8Char (c : Char) : List Byte :=
  let n := c.toNat
  if n < 0x80 then [byteOfNat n]
  else if n < 0x800 then [byteOfNat (0xC0 + n / 64), byteOfNat (0x80 + n % 64)]
  else if n < 0x10000 then
    [byteOfNat (0xE0 + n / 4096), byteOfNat (0x80 + n / 64 % 64), byteOfNat (0x80 + n % 64)]
  else
    [byteOfNat (0xF0 + n / 262144), byteOfNat (0x80 + n / 4096 % 64),
     byteOfNat (0x80 + n / 64 % 64), byteOfNat (0x80 + n % 64)]

/-- A Go string literal: the UTF-8 bytes of the text. -/
def str (s : String) : GoString := s.toList.flatMap utf8Char

/-- Go's `<` on strings: byte-wise lexicographic comparison. -/
def strLess : GoString → GoString → Bool
  | [], [] => false
  | [], _ :: _ => true
  | _ :: _, [] => false
  | a :: as, b :: bs => if a < b then true else if b < a then false else strLess as bs

/-- Go's `<=` on strings. -/
def strLe (a b : GoString) : Bool := !strLess b a

/-- The result of `sort.Strings`: the keys rearranged in ascending byte-wise order. -/
def sortStrings (keys : List GoString) : List GoString :=
  List.insertionSort (fun a b => strLe a b = true) keys

/-! ## `strconv.FormatInt(_, 10)` -/

/-- The ASCII digit of `d % 10`. -/
def digitByte (d : Nat) : Byte := byteOfNat (48 + d % 10)

/-- Decimal digits of `n`, most significant first, pushed in front of `acc`. -/
def formatNatAux : Nat → Nat → List Byte → List Byte
  | 0, _, acc => acc
  | fuel + 1, n, acc =>
    if n / 10 = 0 then digitByte n :: acc
    else formatNatAux fuel (n / 10) (digitByte n :: acc)

/-- Decimal rendering of a natural number (`"0"` for zero, no leading zeros). -/
def formatNat (n : Nat) : GoString := formatNatAux (n + 1) n []

/-- Rendering by `strconv.FormatInt(i, 10)`: a minus sign for negatives, then the magnitude. -/
def formatInt (i : Int) : GoString :=
  if i < 0 then byteOfNat 45 :: formatNat i.natAbs else formatNat i.natAbs

/-! ## `crypto/sha256` (FIPS 180-4) over 32-bit words held in `Nat` -/

/-- Reduction to a 32-bit word. -/
def w32 (x : Nat) : Nat := x % 2 ^ 32

/-- Rotate a 32-bit word right by `n` bits. -/
def rotr32 (x n : Nat) : Nat := w32 ((x >>> n) ||| (x <<< (32 - n)))

/-- The sixty-four round constants. -/
def sha256K : List Nat :=
  [0x428a2f98, 0x71374491, 0xb5c0fbcf, 0xe9b5dba5, 0x3956c25b, 0x59f111f1, 0x923f82a4, 0xab1c5ed5,
   0xd807aa98, 0x12835b01, 0x243185be, 0x550c7dc3, 0x72be5d74, 0x80deb1fe, 0x9bdc06a7, 0xc19bf174,
   0xe49b69c1, 0xefbe4786, 0x0fc19dc6, 0x240ca1cc, 0x2de92c6f, 0x4a7484aa, 0x5cb0a9dc, 0x76f988da,
   0x983e5152, 0xa831c66d, 0xb00327c8, 0xbf597fc7, 0xc6e00bf3, 0xd5a79147, 0x06ca6351, 0x14292967,
   0x27b70a85, 0x2e1b2138, 0x4d2c6dfc, 0x53380d13, 0x650a7354, 0x766a0abb, 0x81c2c92e, 0x92722c85,
   0xa2bfe8a1, 0xa81a664b, 0xc24b8b70, 0xc76c51a3, 0xd192e819, 0xd6990624, 0xf40e3585, 0x106aa070,
   0x19a4c116, 0x1e376c08, 0x2748774c, 0x34b0bcb5, 0x391c0cb3, 0x4ed8aa4a, 0x5b9cca4f, 0x682e6ff3,
   0x748f82ee, 0x78a5636f, 0x84c87814, 0x8cc70208, 0x90befffa, 0xa4506ceb, 0xbef9a3f7, 0xc67178f2]

/-- The eight working words of SHA-256. -/
structure Sha256State where
  a : Nat
  b : Nat
  c : Nat
  d : Nat
  e : Nat
  f : Nat
  g : Nat
  h : Nat
deriving DecidableEq, Repr

/-- The initial hash value. -/
def sha256Init : Sha256State :=
  ⟨0x6a09e667, 0xbb67ae85, 0x3c6ef372, 0xa54ff53a, 0x510e527f, 0x9b05688c, 0x1f83d9ab, 0x5be0cd19⟩

/-- Big-endian 32-bit word from four bytes. -/
def beWord (b0 b1 b2 b3 : Nat) : Nat := b0 * 2 ^ 24 + b1 * 2 ^ 16 + b2 * 2 ^ 8 + b3

/-- The sixteen message words of a 64-byte block. -/
def blockWords : List Nat → List Nat
  | b0 :: b1 :: b2 :: b3 :: rest => beWord b0 b1 b2 b3 :: blockWords rest
  | _ => []

/-- One step of the message schedule: append `W[t]` to the words `W[0..t-1]`. -/
def scheduleStep (w : List Nat) : List Nat :=
  let t := w.length
  let w2 := w.getD (t - 2) 0
  let w7 := w.getD (t - 7) 0
  let w15 := w.getD (t - 15) 0
  let w16 := w.getD (t - 16) 0
  let s0 := (rotr32 w15 7) ^^^ (rotr32 w15 18) ^^^ (w15 >>> 3)
  let s1 := (rotr32 w2 17) ^^^ (rotr32 w2 19) ^^^ (w2 >>> 10)
  w ++ [w32 (s1 + w7 + s0 + w16)]

/-- The sixty-four schedule words of a block. -/
def schedule (block : List Nat) : List Nat :=
  Nat.iterate scheduleStep 48 (blockWords block)

/-- One compression round with round constant `k` and schedule word `w`. -/
def sha256Round (s : Sha256State) (k w : Nat) : Sha256State :=
  let bigS1 := (rotr32 s.e 6) ^^^ (rotr32 s.e 11) ^^^ (rotr32 s.e 25)
  let ch := (s.e &&& s.f) ^^^ ((s.e ^^^ 0xffffffff) &&& s.g)
  let t1 := w32 (s.h + bigS1 + ch + k + w)
  let bigS0 := (rotr32 s.a 2) ^^^ (rotr32 s.a 13) ^^^ (rotr32 s.a 22)
  let maj := (s.a &&& s.b) ^^^ (s.a &&& s.c) ^^^ (s.b &&& s.c)
  let t2 := w32 (bigS0 + maj)
  ⟨w32 (t1 + t2), s.a, s.b, s.c, w32 (s.d + t1), s.e, s.f, s.g⟩

/-- Compression of one 64-byte block into the running hash. -/
def sha256Block (s : Sha256State) (block : List Nat) : Sha256State :=
  let r := (List.zip sha256K (schedule block)).foldl (fun st kw => sha256Round st kw.1 kw.2) s
  ⟨w32 (s.a + r.a), w32 (s.b + r.b), w32 (s.c + r.c), w32 (s.d + r.d),
   w32 (s.e + r.e), w32 (s.f + r.f), w32 (s.g + r.g), w32 (s.h + r.h)⟩

/-- Compression of the first `n` 64-byte blocks of `bytes`. -/
def sha256Blocks : Nat → Sha256State → List Nat → Sha256State
  | 0, s, _ => s
  | n + 1, s, bytes => sha256Blocks n (sha256Block s (bytes.take 64)) (bytes.drop 64)

/-- Big-endian bytes of a 64-bit length. -/
def be64 (n : Nat) : List Nat :=
  [n / 2 ^ 56 % 256, n / 2 ^ 48 % 256, n / 2 ^ 40 % 256, n / 2 ^ 32 % 256,
   n / 2 ^ 24 % 256, n / 2 ^ 16 % 256, n / 2 ^ 8 % 256, n % 256]

/-- Message padding: `0x80`, zeros up to 56 mod 64, then the bit length. -/
def sha256Pad (msg : List Nat) : List Nat :=
  let len := msg.length
  msg ++ [0x80] ++ List.replicate ((119 - len % 64) % 64) 0 ++ be64 (len * 8 % 2 ^ 64)

/-- Big-endian bytes of a 32-bit word. -/
def be32 (w : Nat) : List Byte :=
  [byteOfNat (w / 2 ^ 24), byteOfNat (w / 2 ^ 16), byteOfNat (w / 2 ^ 8), byteOfNat w]

/-- The 32-byte SHA-256 digest (`sha256.Sum256`). -/
def sha256 (msg : List Byte) : List Byte :=
  let padded := sha256Pad (msg.map Fin.val)
  let s := sha256Blocks (padded.length / 64) sha256Init padded
  be32 s.a ++ be32 s.b ++ be32 s.c ++ be32 s.d ++ be32 s.e ++ be32 s.f ++ be32 s.g ++ be32 s.h

/-! ## `crypto/hmac` (RFC 2104) with SHA-256, and `encoding/hex` -/

/-- The 64-byte block key: keys longer than a block are hashed, then zero padding. -/
def hmacBlockKey (key : List Byte) : List Byte :=
  let k := if key.length > 64 then sha256 key else key
  k ++ List.replicate (64 - k.length) 0

/-- Byte-wise xor of every byte with `pad`. -/
def xorPad (pad : Nat) (key : List Byte) : List Byte :=
  key.map (fun b => byteOfNat (b.val ^^^ pad))

/-- The digest `hmac.New(sha256.New, key)` yields after `Write(msg)` and `Sum(nil)`. -/
def hmacSha256 (key msg : List Byte) : List Byte :=
  let k := hmacBlockKey key
  sha256 (xorPad 0x5c k ++ sha256 (xorPad 0x36 k ++ msg))

/-- The lowercase digit table of `encoding/hex`. -/
def hextable : List Byte := str "0123456789abcdef"

/-- The rendering `hex.EncodeToString` gives: two lowercase digits per byte. -/
def hexEncode (bs : List Byte) : GoString :=
  bs.flatMap (fun v => [hextable.getD (v.val / 16) 0, hextable.getD (v.val % 16) 0])

/-! ## The parameter set and the client -/

/-- A Go `map[string]string`: entries with pairwise distinct keys, listed in one of the
orders a `range` loop may visit them; `isNil` tells the nil map from an empty one. -/
structure ParamSet where
  entries : List (GoString × GoString)
  isNil : Bool
  nodup : (entries.map Prod.fst).Nodup
  nil_empty : isNil = true → entries = []

/-- The map index expression `params[k]`: the value stored under `k`, or `""`. -/
def ParamSet.get (p : ParamSet) (k : GoString) : GoString := (p.entries.lookup k).getD []

/-- The builtin `len(params)`. -/
def ParamSet.len (p : ParamSet) : Nat := p.entries.length

/-- The fields of `bybitapi.Client` that requests are computed from. -/
structure Client where
  BaseURL : GoString
  APIKey : GoString
  APISecret : GoString
  Debug : Bool
deriving DecidableEq

/-- The constant `BaseURL`. -/
def BaseURL : GoString := str "https://api.bybit.com"

/-- The constant `APIVersion`. -/
def APIVersion : GoString := str "v5"

/-- The constructor `NewClient`. -/
def NewClient (apiKey apiSecret : GoString) : Client :=
  { BaseURL := BaseURL, APIKey := apiKey, APISecret := apiSecret, Debug := false }

/-- The keys gathered by `for k := range params { keys = append(keys, k) }`. -/
def rangeKeys (params : ParamSet) : List GoString :=
  params.entries.foldl (fun keys e => keys ++ [e.1]) []

/-- The contents of the `queryString` builder of `generateSignature` when the loop over
the sorted keys is done: the byte string handed to the HMAC. -/
def signingString (c : Client) (params : ParamSet) (timestamp : Int) : GoString :=
  (sortStrings (rangeKeys params)).foldl (fun qs k => qs ++ k ++ params.get k)
    (formatInt timestamp ++ c.APIKey)

/-- The method `Client.generateSignature`. -/
def generateSignature (c : Client) (params : ParamSet) (timestamp : Int) : GoString :=
  hexEncode (hmacSha256 c.APISecret (signingString c params timestamp))

/-! ## Readers used to state what the renderings denote -/

/-- The number a string of ASCII decimal digits denotes. -/
def decimalValue (s : List Byte) : Nat := s.foldl (fun acc d => 10 * acc + (d.val - 48)) 0

/-- The integer a decimal rendering denotes (`strconv.ParseInt(_, 10, 64)` on such input). -/
def parseInt : List Byte → Int
  | [] => 0
  | b :: rest => if b.val = 45 then -((decimalValue rest : Nat) : Int)
    else ((decimalValue (b :: rest) : Nat) : Int)

/-- The value of one lowercase hexadecimal digit. -/
def hexDigitValue (b : Byte) : Nat := if b.val < 58 then b.val - 48 else b.val - 87

/-- The inverse of `hexEncode` (`hex.DecodeString` on lowercase input). -/
def hexDecode : List Byte → List Byte
  | hi :: lo :: rest => byteOfNat (16 * hexDigitValue hi + hexDigitValue lo) :: hexDecode rest
  | _ => []

/-- The map literal `map[string]string{k: v}`. -/
def ParamSet.single (k v : GoString) : ParamSet :=
  { entries := [(k, v)], isNil := false, nodup := by simp, nil_empty := by simp }

/-! ## Concrete inputs used in the witnesses -/

/-- A client with key `"key"` and secret `"secret"`. -/
def demoClient : Client := NewClient (str "key") (str "secret")

/-- The map `{"symbol": "BTCUSDT", "category": "spot"}`, visited symbol first. -/
def demoParams : ParamSet :=
  { entries := [(str "symbol", str "BTCUSDT"), (str "category", str "spot")], isNil := false,
    nodup := by decide, nil_empty := by decide }

/-- The same map, visited category first. -/
def demoParamsSwapped : ParamSet :=
  { entries := [(str "category", str "spot"), (str "symbol", str "BTCUSDT")], isNil := false,
    nodup := by decide, nil_empty := by decide }

/-- The map `{"symbol": "ETHUSDT", "category": "spot"}`: `demoParams` with one value changed. -/
def demoParamsChanged : ParamSet :=
  { entries := [(str "symbol", str "ETHUSDT"), (str "category", str "spot")], isNil := false,
    nodup := by decide, nil_empty := by decide }

/-- The empty, non-nil map `map[string]string{}`. -/
def emptyParams : ParamSet :=
  { entries := [], isNil := false, nodup := by decide, nil_empty := by decide }

/-- The nil map. -/
def nilParams : ParamSet :=
  { entries := [], isNil := true, nodup := by decide, nil_empty := by decide }

/-! ## `net/url`: query escaping and `url.Values` -/

/-- The byte of an ASCII character. -/
def ch (c : Char) : Byte := byteOfNat c.toNat

/-- The test `shouldEscape(c, encodeQueryComponent)`: everything is escaped except
ASCII letters, digits and `-`, `_`, `.`, `~`. -/
def shouldEscape (c : Byte) : Bool :=
  !((97 ≤ c.val && c.val ≤ 122) || (65 ≤ c.val && c.val ≤ 90) || (48 ≤ c.val && c.val ≤ 57)
    || c == ch '-' || c == ch '_' || c == ch '.' || c == ch '~')

/-- The uppercase digit table of `net/url`. -/
def upperhex : List Byte := str "0123456789ABCDEF"

/-- What `url.QueryEscape` writes for one byte. -/
def queryEscapeByte (c : Byte) : List Byte :=
  if c = ch ' ' then [ch '+']
  else if shouldEscape c then [ch '%', upperhex.getD (c.val / 16) 0, upperhex.getD (c.val % 16) 0]
  else [c]

/-- The function `url.QueryEscape`. -/
def queryEscape (s : GoString) : GoString := s.flatMap queryEscapeByte

/-- A `url.Values`: keys with their value lists. -/
abbrev Values := List (GoString × List GoString)

/-- The method `Values.Add`: append `value` to the values of `key`. -/
def Values.add : Values → GoString → GoString → Values
  | [], key, value => [(key, [value])]
  | (k, vs) :: rest, key, value =>
    if k = key then (k, vs ++ [value]) :: rest else (k, vs) :: Values.add rest key value

/-- The method `Values.Encode`: keys in ascending order, each value written as
`key=value` with both sides escaped, an `&` before every pair but the first. -/
def Values.encode (v : Values) : GoString :=
  (sortStrings (v.map Prod.fst)).foldl
    (fun buf k =>
      ((v.lookup k).getD []).foldl
        (fun buf value =>
          (if buf.length > 0 then buf ++ [ch '&'] else buf)
            ++ queryEscape k ++ [ch '='] ++ queryEscape value)
        buf)
    []

/-- The `queryParams` of `sendRequest`: every entry of `params` added to an empty `url.Values`. -/
def queryParams (params : ParamSet) : Values :=
  params.entries.foldl (fun q e => Values.add q e.1 e.2) []

/-! ## `unicode/utf8` and `encoding/json` -/

/-- The constant `utf8.RuneError`. -/
def RuneError : Nat := 0xFFFD

/-- Whether `b` lies in `lo..hi`. -/
def inRange (b : Byte) (lo hi : Nat) : Bool := lo ≤ b.val && b.val ≤ hi

/-- The function `utf8.DecodeRuneInString`: the first rune and its width in bytes, or
`(RuneError, 1)` when the bytes are not the UTF-8 encoding of a rune. The masks and shifts
of the source are written as remainders and multiplications. -/
def decodeRune : List Byte → Nat × Nat
  | [] => (RuneError, 0)
  | s0 :: rest =>
    if s0.val < 0x80 then (s0.val, 1)
    else if s0.val < 0xC2 then (RuneError, 1)
    else if s0.val < 0xE0 then
      match rest with
      | s1 :: _ =>
        if inRange s1 0x80 0xBF then (s0.val % 32 * 64 + s1.val % 64, 2) else (RuneError, 1)
      | _ => (RuneError, 1)
    else if s0.val < 0xF0 then
      match rest with
      | s1 :: s2 :: _ =>
        let lo := if s0.val = 0xE0 then 0xA0 else 0x80
        let hi := if s0.val = 0xED then 0x9F else 0xBF
        if inRange s1 lo hi && inRange s2 0x80 0xBF then
          (s0.val % 16 * 4096 + s1.val % 64 * 64 + s2.val % 64, 3)
        else (RuneError, 1)
      | _ => (RuneError, 1)
    else if s0.val < 0xF5 then
      match rest with
      | s1 :: s2 :: s3 :: _ =>
        let lo := if s0.val = 0xF0 then 0x90 else 0x80
        let hi := if s0.val = 0xF4 then 0x8F else 0xBF
        if inRange s1 lo hi && inRange s2 0x80 0xBF && inRange s3 0x80 0xBF then
          (s0.val % 8 * 262144 + s1.val % 64 * 4096 + s2.val % 64 * 64 + s3.val % 64, 4)
        else (RuneError, 1)
      | _ => (RuneError, 1)
    else (RuneError, 1)

/-- The scan of `utf8.ValidString` over at most `fuel` runes. -/
def validUTF8Loop : Nat → List Byte → Bool
  | _, [] => true
  | 0, _ :: _ => false
  | fuel + 1, s0 :: rest =>
    let r := decodeRune (s0 :: rest)
    if r.1 = RuneError ∧ r.2 = 1 then false
    else validUTF8Loop fuel ((s0 :: rest).drop r.2)

/-- The function `utf8.ValidString`. -/
def validUTF8 (s : GoString) : Bool := validUTF8Loop s.length s

/-- The table `htmlSafeSet`: printable ASCII except the double quote, the backslash and
`<`, `>`, `&`. -/
def htmlSafe (b : Byte) : Bool :=
  0x20 ≤ b.val && b.val < 0x80 && b.val != 34 && b.val != 92
    && b != ch '<' && b != ch '>' && b != ch '&'

/-- What `appendString` writes for an ASCII byte outside `htmlSafeSet` (Go 1.22 and later;
earlier releases write `\u0008` and `\u000c` for backspace and form feed, which read back
the same). -/
def jsonEscapeByte (b : Byte) : List Byte :=
  if b.val = 92 ∨ b.val = 34 then [92, b]
  else if b.val = 8 then [92, ch 'b']
  else if b.val = 12 then [92, ch 'f']
  else if b.val = 10 then [92, ch 'n']
  else if b.val = 13 then [92, ch 'r']
  else if b.val = 9 then [92, ch 't']
  else [92, ch 'u', ch '0', ch '0', hextable.getD (b.val / 16) 0, hextable.getD (b.val % 16) 0]

/-- The loop of `appendString` (with `escapeHTML` set) from position `i` on, `src` being the
bytes from `i`; safe bytes and well-formed runes are copied, the rest is escaped. -/
def appendStringLoop : Nat → List Byte → List Byte
  | _, [] => []
  | 0, _ :: _ => []
  | fuel + 1, b :: rest =>
    if b.val < 0x80 then
      (if htmlSafe b then [b] else jsonEscapeByte b) ++ appendStringLoop fuel rest
    else
      let r := decodeRune (b :: rest)
      if r.1 = RuneError ∧ r.2 = 1 then
        str "\\ufffd" ++ appendStringLoop fuel rest
      else if r.1 = 0x2028 ∨ r.1 = 0x2029 then
        str "\\u202" ++ [hextable.getD (r.1 % 16) 0]
          ++ appendStringLoop fuel ((b :: rest).drop r.2)
      else
        (b :: rest).take r.2 ++ appendStringLoop fuel ((b :: rest).drop r.2)

/-- The JSON string literal `appendString` writes for `src`. -/
def appendString (src : GoString) : List Byte :=
  [34] ++ appendStringLoop src.length src ++ [34]

/-- The entries of a map ordered by key, as the map encoder of `encoding/json` visits them. -/
def sortedEntries (p : ParamSet) : List (GoString × GoString) :=
  (sortStrings (p.entries.map Prod.fst)).map (fun k => (k, p.get k))

/-- The members written by the map encoder from index `i` on: a comma before every member
but the first, then `key:value`. -/
def encodeMembers : Nat → List (GoString × GoString) → List Byte
  | _, [] => []
  | i, kv :: rest =>
    (if i > 0 then [ch ','] else []) ++ appendString kv.1 ++ [ch ':'] ++ appendString kv.2
      ++ encodeMembers (i + 1) rest

/-- The bytes `json.Marshal(params)` returns for a `map[string]string`; the call cannot fail
for this type. -/
def jsonMarshal (params : ParamSet) : List Byte :=
  if params.isNil then str "null"
  else [ch '{'] ++ encodeMembers 0 (sortedEntries params) ++ [ch '}']

/-! ## `net/http`: headers, requests and the transport -/

/-- The test `validHeaderFieldByte`: the token characters of RFC 7230. -/
def validHeaderFieldByte (c : Byte) : Bool :=
  (97 ≤ c.val && c.val ≤ 122) || (65 ≤ c.val && c.val ≤ 90) || (48 ≤ c.val && c.val ≤ 57)
    || c.val == 33 || (35 ≤ c.val && c.val ≤ 39) || c.val == 42 || c.val == 43
    || c.val == 45 || c.val == 46 || c.val == 94 || c.val == 95 || c.val == 96
    || c.val == 124 || c.val == 126

/-- The case rewriting of `CanonicalMIMEHeaderKey`: upper case at the start and after every
`-`, lower case elsewhere. -/
def canonicalCase : Bool → List Byte → List Byte
  | _, [] => []
  | upper, c :: rest =>
    let c2 : Byte :=
      if upper && (97 ≤ c.val && c.val ≤ 122) then byteOfNat (c.val - 32)
      else if !upper && (65 ≤ c.val && c.val ≤ 90) then byteOfNat (c.val + 32)
      else c
    c2 :: canonicalCase (c2 == ch '-') rest

/-- The function `textproto.CanonicalMIMEHeaderKey`: names holding a space or a byte that is
no token character are left unchanged. -/
def canonicalMIMEHeaderKey (key : GoString) : GoString :=
  if key.all validHeaderFieldByte then canonicalCase true key else key

/-- An `http.Header` with single values, as `Header.Set` leaves it. -/
abbrev Header := List (GoString × GoString)

/-- The method `Header.Set`: the value stored under the canonical form of `key` is replaced. -/
def Header.set (h : Header) (key value : GoString) : Header :=
  let k := canonicalMIMEHeaderKey key
  h.filter (fun e => e.1 != k) ++ [(k, value)]

/-- The value stored under the canonical form of `key`, if there is one. -/
def Header.get (h : Header) (key : GoString) : Option GoString :=
  h.lookup (canonicalMIMEHeaderKey key)

/-- A Go `error`, identified by its text. -/
structure GoError where
  text : GoString
deriving DecidableEq

/-- The parts of an `*http.Request` that `sendRequest` fixes: method, the URL string given
to `http.NewRequest`, the body (`none` for the nil body) and the headers. -/
structure Request where
  method : GoString
  url : GoString
  body : Option (List Byte)
  header : Header
deriving DecidableEq

/-- What `c.HTTPClient.Do(req)` followed by `ioutil.ReadAll(resp.Body)` yields. -/
inductive TransportResult where
  | failed (err : GoError)
  | unreadable (status : Int) (err : GoError)
  | response (status : Int) (body : List Byte)
deriving DecidableEq

/-- Everything `sendRequest` takes from outside the program: the clock, the validation done
by `http.NewRequest` on a method and a URL (`none` when it accepts them), and the transport. -/
structure Env where
  now : Int
  newRequestErr : GoString → GoString → Option GoError
  roundTrip : Request → TransportResult

/-- The observable behaviour of one `sendRequest` call: the requests handed to
`HTTPClient.Do`, in order, and the returned pair `([]byte, error)`. -/
structure Outcome where
  sent : List Request
  body : Option (List Byte)
  err : Option GoError
deriving DecidableEq

/-- The function `http.NewRequest` on the parts modelled: an empty method means `GET`. -/
def newRequest (env : Env) (method url : GoString) (body : Option (List Byte)) :
    Except GoError Request :=
  match env.newRequestErr method url with
  | some e => Except.error e
  | none =>
    Except.ok { method := if method = [] then str "GET" else method, url := url, body := body,
                header := [] }

/-- The URL `fmt.Sprintf("%s/%s/%s", c.BaseURL, APIVersion, endpoint)`. -/
def apiURL (c : Client) (endpoint : GoString) : GoString :=
  c.BaseURL ++ str "/" ++ APIVersion ++ str "/" ++ endpoint

/-- The first half of `sendRequest` (lines 85 to 117): the request before authentication. -/
def buildRequest (env : Env) (c : Client) (method endpoint : GoString) (params : ParamSet) :
    Except GoError Request :=
  if method = str "GET" then
    let url :=
      if params.len > 0 then apiURL c endpoint ++ str "?" ++ (queryParams params).encode
      else apiURL c endpoint
    newRequest env method url none
  else
    match newRequest env method (apiURL c endpoint) (some (jsonMarshal params)) with
    | Except.error e => Except.error e
    | Except.ok req =>
      Except.ok { req with header := req.header.set (str "Content-Type") (str "application/json") }

/-- The authentication step of `sendRequest` (lines 119 to 127). -/
def addAuth (env : Env) (c : Client) (params : ParamSet) (auth : Bool) (req : Request) :
    Request :=
  if auth then
    let timestamp := env.now
    let signature := generateSignature c params timestamp
    { req with header :=
        ((req.header.set (str "X-BAPI-API-KEY") c.APIKey).set
          (str "X-BAPI-TIMESTAMP") (formatInt timestamp)).set (str "X-BAPI-SIGN") signature }
  else req

/-- The error `fmt.Errorf("API错误: %s, 状态码: %d", string(body), resp.StatusCode)`. -/
def statusError (body : List Byte) (status : Int) : GoError :=
  { text := str "API错误: " ++ body ++ str ", 状态码: " ++ formatInt status }

/-- The method `Client.sendRequest`. -/
def sendRequest (env : Env) (c : Client) (method endpoint : GoString) (params : ParamSet)
    (auth : Bool) : Outcome :=
  match buildRequest env c method endpoint params with
  | Except.error e => { sent := [], body := none, err := some e }
  | Except.ok req0 =>
    let req := addAuth env c params auth req0
    match env.roundTrip req with
    | TransportResult.failed e => { sent := [req], body := none, err := some e }
    | TransportResult.unreadable _ e => { sent := [req], body := none, err := some e }
    | TransportResult.response status body =>
      if status ≠ 200 then { sent := [req], body := none, err := some (statusError body status) }
      else { sent := [req], body := some body, err := none }

/-- An environment whose clock shows `now`, whose `http.NewRequest` accepts everything and
whose transport answers every request with `status` and `body`. -/
def fixedEnv (now status : Int) (body : List Byte) : Env :=
  { now := now, newRequestErr := fun _ _ => none,
    roundTrip := fun _ => TransportResult.response status body }

/-! ## Reading a URL query back (`url.ParseQuery`) -/

/-- The value of a hexadecimal digit of either case (`unhex` of `net/url`), if it is one. -/
def unhex (b : Byte) : Option Nat :=
  if 48 ≤ b.val ∧ b.val ≤ 57 then some (b.val - 48)
  else if 97 ≤ b.val ∧ b.val ≤ 102 then some (b.val - 87)
  else if 65 ≤ b.val ∧ b.val ≤ 70 then some (b.val - 55)
  else none

/-- The function `url.QueryUnescape`: `+` is a space, `%XX` a byte, the rest is itself;
`none` for a malformed escape. -/
def queryUnescape : List Byte → Option (List Byte)
  | [] => some []
  | c :: rest =>
    if c = ch '%' then
      match rest with
      | h :: l :: rest2 =>
        match unhex h, unhex l, queryUnescape rest2 with
        | some x, some y, some s => some (byteOfNat (16 * x + y) :: s)
        | _, _, _ => none
      | _ => none
    else
      match queryUnescape rest with
      | some s => some ((if c = ch '+' then ch ' ' else c) :: s)
      | none => none

/-- The function `strings.Cut` for a one-byte separator: the text before the first `sep` and
the text after it. -/
def cut (sep : Byte) : List Byte → List Byte × List Byte
  | [] => ([], [])
  | c :: rest => if c = sep then ([], rest) else ((cut sep rest).1.cons c, (cut sep rest).2)

/-- The pairs of the segments of a query, in order: empty segments are skipped, a segment
with a semicolon or a malformed escape is an error. -/
def parseSegments : List (List Byte) → Option (List (GoString × GoString))
  | [] => some []
  | seg :: segs =>
    if seg = [] then parseSegments segs
    else if ch ';' ∈ seg then none
    else
      match queryUnescape (cut (ch '=') seg).1, queryUnescape (cut (ch '=') seg).2,
          parseSegments segs with
      | some k, some v, some ps => some ((k, v) :: ps)
      | _, _, _ => none

/-- The key/value pairs `url.ParseQuery` reads from a query string, in the order written. -/
def parseQuery (query : GoString) : Option (List (GoString × GoString)) :=
  parseSegments (query.splitOn (ch '&'))

/-- The text `key=value` of one query pair, both sides escaped. -/
def pairText (e : GoString × GoString) : GoString :=
  queryEscape e.1 ++ ch '=' :: queryEscape e.2

/-- The number of pairs of a decoded query or object whose key is `k`. -/
def occurrences (k : GoString) (pairs : List (GoString × GoString)) : Nat :=
  (pairs.filter (fun e => decide (e.1 = k))).length

/-! ## Reading a JSON object of strings back (RFC 8259) -/

/-- The function `utf8.AppendRune`: the UTF-8 bytes of a rune, those of `RuneError` for a
surrogate half or a value above `0x10FFFF`. -/
def utf8Encode (r : Nat) : List Byte :=
  if r < 0x80 then [byteOfNat r]
  else if r < 0x800 then [byteOfNat (0xC0 + r / 64), byteOfNat (0x80 + r % 64)]
  else if (0xD800 ≤ r ∧ r ≤ 0xDFFF) ∨ 0x10FFFF < r then [0xEF, 0xBF, 0xBD]
  else if r < 0x10000 then
    [byteOfNat (0xE0 + r / 4096), byteOfNat (0x80 + r / 64 % 64), byteOfNat (0x80 + r % 64)]
  else
    [byteOfNat (0xF0 + r / 262144), byteOfNat (0x80 + r / 4096 % 64),
     byteOfNat (0x80 + r / 64 % 64), byteOfNat (0x80 + r % 64)]

/-- The number written by four hexadecimal digits, if they are digits. -/
def hex4 (a b c d : Byte) : Option Nat :=
  match unhex a, unhex b, unhex c, unhex d with
  | some x, some y, some z, some w => some (4096 * x + 256 * y + 16 * z + w)
  | _, _, _, _ => none

/-- The byte a two-character escape stands for. -/
def simpleEscape (e : Byte) : Option Byte :=
  if e.val = 34 ∨ e.val = 92 ∨ e = ch '/' then some e
  else if e = ch 'b' then some 8
  else if e = ch 'f' then some 12
  else if e = ch 'n' then some 10
  else if e = ch 'r' then some 13
  else if e = ch 't' then some 9
  else none

/-- The rune of a `\uXXXX` escape whose four digits gave `r`, and the input left: a high
surrogate followed by an escaped low surrogate is one rune, a lone surrogate is `RuneError`. -/
def readUnicode (r : Nat) (rest : List Byte) : Nat × List Byte :=
  if 0xD800 ≤ r ∧ r ≤ 0xDBFF then
    match rest with
    | b0 :: b1 :: a :: b :: c :: d :: rest2 =>
      if b0.val = 92 ∧ b1 = ch 'u' then
        match hex4 a b c d with
        | some r2 =>
          if 0xDC00 ≤ r2 ∧ r2 ≤ 0xDFFF then
            (0x10000 + (r - 0xD800) * 1024 + (r2 - 0xDC00), rest2)
          else (RuneError, rest)
        | none => (RuneError, rest)
      else (RuneError, rest)
    | _ => (RuneError, rest)
  else (r, rest)

/-- The bytes an escape stands for, read after its backslash, and the input left. -/
def readEscape : List Byte → Option (List Byte × List Byte)
  | [] => none
  | e :: rest =>
    if e = ch 'u' then
      match rest with
      | a :: b :: c :: d :: rest2 =>
        match hex4 a b c d with
        | some r => some (utf8Encode (readUnicode r rest2).1, (readUnicode r rest2).2)
        | none => none
      | _ => none
    else
      match simpleEscape e with
      | some x => some ([x], rest)
      | none => none

/-- The contents of a JSON string read after its opening quote, and the input left after
the closing quote; `none` for a control byte, a malformed escape or a missing quote. -/
def parseStringBody : Nat → List Byte → Option (List Byte × List Byte)
  | 0, _ => none
  | _ + 1, [] => none
  | fuel + 1, b :: rest =>
    if b.val = 34 then some ([], rest)
    else if b.val = 92 then
      match readEscape rest with
      | some (bytes, rest2) =>
        match parseStringBody fuel rest2 with
        | some (s, rest3) => some (bytes ++ s, rest3)
        | none => none
      | none => none
    else if b.val < 0x20 then none
    else
      match parseStringBody fuel rest with
      | some (s, rest3) => some (b :: s, rest3)
      | none => none

/-- A JSON string at the head of the input: its contents and the input left. -/
def parseString : List Byte → Option (List Byte × List Byte)
  | [] => none
  | b :: rest => if b.val = 34 then parseStringBody rest.length rest else none

/-- JSON whitespace is skipped. -/
def skipSpace : List Byte → List Byte
  | [] => []
  | b :: rest =>
    if b.val = 32 ∨ b.val = 9 ∨ b.val = 10 ∨ b.val = 13 then skipSpace rest else b :: rest

/-- One member `"key" : "value"` at the head of the input, and the input left. -/
def parseMember (s : List Byte) : Option ((GoString × GoString) × List Byte) :=
  match parseString s with
  | none => none
  | some (k, r1) =>
    match skipSpace r1 with
    | [] => none
    | b :: r2 =>
      if b = ch ':' then
        match parseString (skipSpace r2) with
        | some (v, r3) => some ((k, v), r3)
        | none => none
      else none

/-- The members of an object from the first one up to the closing brace, which must end
the input. -/
def parseMembers : Nat → List Byte → Option (List (GoString × GoString))
  | 0, _ => none
  | fuel + 1, s =>
    match parseMember s with
    | none => none
    | some (kv, r) =>
      match skipSpace r with
      | [] => none
      | b :: r2 =>
        if b = ch ',' then
          match parseMembers fuel (skipSpace r2) with
          | some kvs => some (kv :: kvs)
          | none => none
        else if b = ch '}' then (if skipSpace r2 = [] then some [kv] else none)
        else none

/-- The members, in the order written, of a JSON text that is an object whose values are all
strings; `none` for every other text. -/
def jsonDecodeObject (s : List Byte) : Option (List (GoString × GoString)) :=
  match skipSpace s with
  | [] => none
  | b :: r =>
    if b = ch '{' then
      match skipSpace r with
      | [] => none
      | b2 :: r2 =>
        if b2 = ch '}' then (if skipSpace r2 = [] then some [] else none)
        else parseMembers s.length (b2 :: r2)
    else none

/-- Whether every key and every value of the map is valid UTF-8. -/
def ParamSet.validUTF8 (p : ParamSet) : Bool :=
  p.entries.all (fun e => BybitMcp.validUTF8 e.1 && BybitMcp.validUTF8 e.2)

/-! ## `pkg/errors` -/

/-- The constant `Success`. -/
def Success : Int := 0

/-- The constant `ErrUnknown`. -/
def ErrUnknown : Int := 10000

/-- The constant `ErrInvalidParameter`. -/
def ErrInvalidParameter : Int := 10001

/-- The constant `ErrInvalidSignature`. -/
def ErrInvalidSignature : Int := 10002

/-- The constant `ErrAuthFailed`. -/
def ErrAuthFailed : Int := 10003

/-- The constant `ErrRateLimitExceeded`. -/
def ErrRateLimitExceeded : Int := 10004

/-- The constant `ErrPermissionDenied`. -/
def ErrPermissionDenied : Int := 10005

/-- The constant `ErrServerError`. -/
def ErrServerError : Int := 10006

/-- The constant `ErrServiceUnavailable`. -/
def ErrServiceUnavailable : Int := 10007

/-- The constant `ErrAPIRequestFailed`. -/
def ErrAPIRequestFailed : Int := 20001

/-- The constant `ErrAPIResponseInvalid`. -/
def ErrAPIResponseInvalid : Int := 20002

/-- The constant `ErrAPITimeout`. -/
def ErrAPITimeout : Int := 20003

/-- The constant `ErrOrderFailed`. -/
def ErrOrderFailed : Int := 30001

/-- The constant `ErrOrderCancelFailed`. -/
def ErrOrderCancelFailed : Int := 30002

/-- The constant `ErrPositionNotFound`. -/
def ErrPositionNotFound : Int := 30003

/-- The constant `ErrInsufficientBalance`. -/
def ErrInsufficientBalance : Int := 30004

/-- The struct `errors.Error`: code, message and the wrapped error (`none` for nil). -/
structure Error where
  Code : Int
  Message : GoString
  Cause : Option GoError
deriving DecidableEq

/-- The constructor `errors.New`. -/
def New (code : Int) (message : GoString) : Error :=
  { Code := code, Message := message, Cause := none }

/-- The constructor `errors.Wrap`. -/
def Wrap (code : Int) (message : GoString) (err : GoError) : Error :=
  { Code := code, Message := message, Cause := some err }

/-- The method `(*Error).Error`: `[code] message`, followed by `: cause` when there is one. -/
def Error.text (e : Error) : GoString :=
  match e.Cause with
  | some cause =>
    str "[" ++ formatInt e.Code ++ str "] " ++ e.Message ++ str ": " ++ cause.text
  | none => str "[" ++ formatInt e.Code ++ str "] " ++ e.Message

/-- The function `FromHTTPResponse`; `none` is the nil `*Error`. -/
def FromHTTPResponse (statusCode : Int) (body : GoString) : Option Error :=
  if statusCode = 200 then none
  else if statusCode = 400 then some (New ErrInvalidParameter (str "无效请求: " ++ body))
  else if statusCode = 401 then some (New ErrAuthFailed (str "认证失败"))
  else if statusCode = 403 then some (New ErrPermissionDenied (str "权限不足"))
  else if statusCode = 429 then some (New ErrRateLimitExceeded (str "超过频率限制"))
  else if statusCode = 500 then some (New ErrServerError (str "服务器错误"))
  else if statusCode = 503 then some (New ErrServiceUnavailable (str "服务不可用"))
  else some (New ErrUnknown (str "未知错误: " ++ formatInt statusCode ++ str " - " ++ body))

/-- The code chosen by the `switch` of `FromBybitAPIError`. -/
def bybitErrorCode (retCode : Int) : Int :=
  if retCode ≥ 10001 ∧ retCode ≤ 10003 then ErrInvalidParameter
  else if retCode = 10004 then ErrInvalidSignature
  else if retCode = 10005 then ErrAuthFailed
  else if retCode = 10006 ∨ retCode = 10007 then ErrPermissionDenied
  else if retCode = 10010 then ErrRateLimitExceeded
  else if retCode ≥ 20001 ∧ retCode ≤ 20044 then ErrOrderFailed
  else if retCode ≥ 30000 ∧ retCode ≤ 30099 then ErrInsufficientBalance
  else if retCode ≥ 110001 ∧ retCode ≤ 110999 then ErrAPIRequestFailed
  else ErrUnknown

/-- The function `FromBybitAPIError`; `none` is the nil `*Error`. -/
def FromBybitAPIError (retCode : Int) (retMsg : GoString) : Option Error :=
  if retCode = 0 then none
  else some (New (bybitErrorCode retCode)
    (str "Bybit API错误: [" ++ formatInt retCode ++ str "] " ++ retMsg))

/-- The ten kinds of the specification's `ErrorKind` enumeration, as error codes:
InvalidParameter, InvalidSignature, AuthFailed, RateLimited, PermissionDenied, ServerError,
ServiceUnavailable, RequestFailed, ResponseInvalid, Unknown. -/
def errorKinds : List Int :=
  [ErrInvalidParameter, ErrInvalidSignature, ErrAuthFailed, ErrRateLimitExceeded,
   ErrPermissionDenied, ErrServerError, ErrServiceUnavailable, ErrAPIRequestFailed,
   ErrAPIResponseInvalid, ErrUnknown]

/-- The vendor code written in a message of `FromBybitAPIError`: the decimal number between
the first `[` bracket, which ends the fixed prefix, and the first `]` after it. -/
def vendorCodeOf (message : GoString) : Int :=
  parseInt ((message.drop (str "Bybit API错误: [").length).takeWhile (fun b => b != ch ']'))

/-! ## The resource methods of `bybitapi.Client` -/

/-- The entries of a map after the assignment `m[k] = v`: the value under `k` is replaced,
or the pair is added. -/
def setEntry (k v : GoString) : List (GoString × GoString) → List (GoString × GoString)
  | [] => [(k, v)]
  | (k0, v0) :: rest => if k0 = k then (k0, v) :: rest else (k0, v0) :: setEntry k v rest

/-- The map after the assignment `params[k] = v`. -/
def ParamSet.set (p : ParamSet) (k v : GoString) : ParamSet :=
  { entries := setEntry k v p.entries
    isNil := false
    nodup := by
      have keys : ∀ l : List (GoString × GoString),
          (setEntry k v l).map Prod.fst =
            if k ∈ l.map Prod.fst then l.map Prod.fst else l.map Prod.fst ++ [k] := by
        intro l
        induction l with
        | nil => simp [setEntry]
        | cons e es ih =>
          obtain ⟨k0, v0⟩ := e
          by_cases h0 : k0 = k
          · simp [setEntry, h0]
          · have h1 : ¬ k = k0 := fun h => h0 h.symm
            by_cases hm : k ∈ es.map Prod.fst
            · simp only [setEntry, h0, if_false, List.map_cons, ih, hm, if_true,
                List.mem_cons, or_true]
            · simp only [setEntry, h0, if_false, List.map_cons, ih, hm, List.mem_cons, h1,
                or_self, List.cons_append]
      rw [keys]
      split
      · exact p.nodup
      · rename_i hk
        exact List.Nodup.append p.nodup (List.nodup_singleton k)
          (by
            intro x hx hx2
            rw [List.mem_singleton.mp hx2] at hx
            exact hk hx)
    nil_empty := by simp }

/-- A map literal `map[string]string{k1: v1, ...}`: the pairs stored one after the other
into a new map. -/
def mapLiteral (pairs : List (GoString × GoString)) : ParamSet :=
  pairs.foldl (fun m e => m.set e.1 e.2) emptyParams

/-- The parameters built by `Client.GetKline`. -/
def GetKlineParams (category symbol interval : GoString) (limit : Int) : ParamSet :=
  let params := mapLiteral
    [(str "category", category), (str "symbol", symbol), (str "interval", interval)]
  if limit > 0 then params.set (str "limit") (formatInt limit) else params

/-- The method `Client.GetKline`. -/
def GetKline (env : Env) (c : Client) (category symbol interval : GoString) (limit : Int) :
    Outcome :=
  sendRequest env c (str "GET") (str "market/kline")
    (GetKlineParams category symbol interval limit) false

/-- The parameters built by `Client.GetOrderbook`. -/
def GetOrderbookParams (category symbol : GoString) (limit : Int) : ParamSet :=
  let params := mapLiteral [(str "category", category), (str "symbol", symbol)]
  if limit > 0 then params.set (str "limit") (formatInt limit) else params

/-- The method `Client.GetOrderbook`. -/
def GetOrderbook (env : Env) (c : Client) (category symbol : GoString) (limit : Int) :
    Outcome :=
  sendRequest env c (str "GET") (str "market/orderbook")
    (GetOrderbookParams category symbol limit) false

/-- The parameters built by `Client.GetTickers`. -/
def GetTickersParams (category symbol : GoString) : ParamSet :=
  let params := mapLiteral [(str "category", category)]
  if symbol ≠ [] then params.set (str "symbol") symbol else params

/-- The method `Client.GetTickers`. -/
def GetTickers (env : Env) (c : Client) (category symbol : GoString) : Outcome :=
  sendRequest env c (str "GET") (str "market/tickers") (GetTickersParams category symbol) false

/-- The parameters built by `Client.CancelOrder`. -/
def CancelOrderParams (category symbol orderId : GoString) : ParamSet :=
  let params := mapLiteral [(str "category", category), (str "symbol", symbol)]
  if orderId ≠ [] then params.set (str "orderId") orderId else params

/-- The method `Client.CancelOrder`. -/
def CancelOrder (env : Env) (c : Client) (category symbol orderId : GoString) : Outcome :=
  sendRequest env c (str "POST") (str "order/cancel")
    (CancelOrderParams category symbol orderId) true

/-- The parameters built by `Client.GetOrders`. -/
def GetOrdersParams (category symbol : GoString) (limit : Int) : ParamSet :=
  let params := mapLiteral [(str "category", category)]
  let params := if symbol ≠ [] then params.set (str "symbol") symbol else params
  if limit > 0 then params.set (str "limit") (formatInt limit) else params

/-- The method `Client.GetOrders`. -/
def GetOrders (env : Env) (c : Client) (category symbol : GoString) (limit : Int) : Outcome :=
  sendRequest env c (str "GET") (str "order/history")
    (GetOrdersParams category symbol limit) true

/-- The parameters built by `Client.GetPositions`. -/
def GetPositionsParams (category symbol : GoString) : ParamSet :=
  let params := mapLiteral [(str "category", category)]
  if symbol ≠ [] then params.set (str "symbol") symbol else params

/-- The method `Client.GetPositions`. -/
def GetPositions (env : Env) (c : Client) (category symbol : GoString) : Outcome :=
  sendRequest env c (str "GET") (str "position/list") (GetPositionsParams category symbol) true

/-- The parameters built by `Client.GetWalletBalance`. -/
def GetWalletBalanceParams (accountType coin : GoString) : ParamSet :=
  let params := mapLiteral [(str "accountType", accountType)]
  if coin ≠ [] then params.set (str "coin") coin else params

/-- The method `Client.GetWalletBalance`. -/
def GetWalletBalance (env : Env) (c : Client) (accountType coin : GoString) : Outcome :=
  sendRequest env c (str "GET") (str "account/wallet-balance")
    (GetWalletBalanceParams accountType coin) true

/-- The parameters built by `Client.GetAssetInfo`. -/
def GetAssetInfoParams (accountType : GoString) : ParamSet :=
  let params := mapLiteral []
  if accountType ≠ [] then params.set (str "accountType") accountType else params

/-- The method `Client.GetAssetInfo`. -/
def GetAssetInfo (env : Env) (c : Client) (accountType : GoString) : Outcome :=
  sendRequest env c (str "GET") (str "asset/transfer/query-asset-info")
    (GetAssetInfoParams accountType) true

/-! ## `encoding/json`: values of type `interface{}` and JSON texts -/

/-- A JSON value. It serves as the syntax tree of a JSON text (members in the order written)
and as the Go value of type `interface{}` the decoder builds from it: `nil`, a `bool`, a
`float64` (kept as a JSON number literal that denotes it), a `string`, a `[]interface{}` or a
`map[string]interface{}`, the latter listed by ascending key. -/
inductive JValue where
  | null
  | bool (b : Bool)
  | number (lit : GoString)
  | str (s : GoString)
  | array (items : List JValue)
  | object (members : List (GoString × JValue))

mutual
/-- Equality of JSON values is decidable. -/
def JValue.decEq : (a b : JValue) → Decidable (a = b)
  | .null, .null => isTrue rfl
  | .bool a, .bool b =>
    if h : a = b then isTrue (by rw [h]) else isFalse (by intro e; cases e; exact h rfl)
  | .number a, .number b =>
    if h : a = b then isTrue (by rw [h]) else isFalse (by intro e; cases e; exact h rfl)
  | .str a, .str b =>
    if h : a = b then isTrue (by rw [h]) else isFalse (by intro e; cases e; exact h rfl)
  | .array a, .array b =>
    match JValue.decEqList a b with
    | isTrue h => isTrue (by rw [h])
    | isFalse h => isFalse (by intro e; cases e; exact h rfl)
  | .object a, .object b =>
    match JValue.decEqMembers a b with
    | isTrue h => isTrue (by rw [h])
    | isFalse h => isFalse (by intro e; cases e; exact h rfl)
  | .null, .bool _ | .null, .number _ | .null, .str _ | .null, .array _ | .null, .object _
  | .bool _, .null | .bool _, .number _ | .bool _, .str _ | .bool _, .array _
  | .bool _, .object _
  | .number _, .null | .number _, .bool _ | .number _, .str _ | .number _, .array _
  | .number _, .object _
  | .str _, .null | .str _, .bool _ | .str _, .number _ | .str _, .array _ | .str _, .object _
  | .array _, .null | .array _, .bool _ | .array _, .number _ | .array _, .str _
  | .array _, .object _
  | .object _, .null | .object _, .bool _ | .object _, .number _ | .object _, .str _
  | .object _, .array _ =>
    isFalse (by intro e; cases e)
/-- Equality of lists of JSON values is decidable. -/
def JValue.decEqList : (a b : List JValue) → Decidable (a = b)
  | [], [] => isTrue rfl
  | [], _ :: _ => isFalse (by intro e; cases e)
  | _ :: _, [] => isFalse (by intro e; cases e)
  | x :: xs, y :: ys =>
    match JValue.decEq x y, JValue.decEqList xs ys with
    | isTrue h1, isTrue h2 => isTrue (by rw [h1, h2])
    | isFalse h1, _ => isFalse (by intro e; cases e; exact h1 rfl)
    | _, isFalse h2 => isFalse (by intro e; cases e; exact h2 rfl)
/-- Equality of member lists is decidable. -/
def JValue.decEqMembers : (a b : List (GoString × JValue)) → Decidable (a = b)
  | [], [] => isTrue rfl
  | [], _ :: _ => isFalse (by intro e; cases e)
  | _ :: _, [] => isFalse (by intro e; cases e)
  | (k1, x) :: xs, (k2, y) :: ys =>
    if hk : k1 = k2 then
      match JValue.decEq x y, JValue.decEqMembers xs ys with
      | isTrue h1, isTrue h2 => isTrue (by rw [hk, h1, h2])
      | isFalse h1, _ => isFalse (by intro e; cases e; exact h1 rfl)
      | _, isFalse h2 => isFalse (by intro e; cases e; exact h2 rfl)
    else isFalse (by intro e; cases e; exact hk rfl)
end

instance : DecidableEq JValue := JValue.decEq

/-- The struct `model.Response`; a nil `Result` or `RetExtInfo` is `JValue.null`. -/
structure Response where
  RetCode : Int
  RetMsg : GoString
  Result : JValue
  RetExtInfo : JValue
  Time : Int
deriving DecidableEq

/-- The zero value of `model.Response`. -/
def zeroResponse : Response :=
  { RetCode := 0, RetMsg := [], Result := JValue.null, RetExtInfo := JValue.null, Time := 0 }

/-- Whether a byte is an ASCII decimal digit. -/
def isDigit (b : Byte) : Bool := 48 ≤ b.val && b.val ≤ 57

/-- The fraction of a number literal at the head of the input, empty when there is none: a
point must be followed by a digit. -/
def scanFraction : List Byte → Option (List Byte × List Byte)
  | [] => some ([], [])
  | b :: rest =>
    if b = ch '.' then
      (if (rest.span isDigit).1 = [] then none
       else some (b :: (rest.span isDigit).1, (rest.span isDigit).2))
    else some ([], b :: rest)

/-- The optional sign of an exponent. -/
def scanSign : List Byte → List Byte × List Byte
  | [] => ([], [])
  | c :: rest => if c = ch '+' ∨ c = ch '-' then ([c], rest) else ([], c :: rest)

/-- The exponent of a number literal at the head of the input, empty when there is none:
`e` or `E`, an optional sign and at least one digit. -/
def scanExponent : List Byte → Option (List Byte × List Byte)
  | [] => some ([], [])
  | b :: rest =>
    if b = ch 'e' ∨ b = ch 'E' then
      (if ((scanSign rest).2.span isDigit).1 = [] then none
       else some (b :: ((scanSign rest).1 ++ ((scanSign rest).2.span isDigit).1),
                  ((scanSign rest).2.span isDigit).2))
    else some ([], b :: rest)

/-- The digits of the integer part at the head of the input: a single `0`, or a non-zero
digit followed by digits. -/
def scanInteger : List Byte → Option (List Byte × List Byte)
  | [] => none
  | d :: rest =>
    if isDigit d then
      (if d = ch '0' then some ([d], rest)
       else some (d :: (rest.span isDigit).1, (rest.span isDigit).2))
    else none

/-- The JSON number literal at the head of the input (RFC 8259, as the scanner of
`encoding/json` accepts it) and the input left. -/
def scanNumber (s : List Byte) : Option (List Byte × List Byte) :=
  let signed : List Byte × List Byte :=
    match s with
    | [] => ([], [])
    | b :: rest => if b = ch '-' then ([b], rest) else ([], b :: rest)
  match scanInteger signed.2 with
  | none => none
  | some (int, s2) =>
    match scanFraction s2 with
    | none => none
    | some (frac, s3) =>
      match scanExponent s3 with
      | none => none
      | some (ex, s4) => some (signed.1 ++ int ++ frac ++ ex, s4)

/-- The loop of `unquote` of `encoding/json` after the opening quote: escapes are resolved,
bytes that are not valid UTF-8 become U+FFFD, well-formed runes are written again; `none`
for what the scanner rejects (a control byte, a malformed escape, a missing quote). -/
def unquoteLoop : Nat → List Byte → Option (List Byte × List Byte)
  | 0, _ => none
  | _ + 1, [] => none
  | fuel + 1, b :: rest =>
    if b.val = 34 then some ([], rest)
    else if b.val = 92 then
      match readEscape rest with
      | some (bytes, rest2) =>
        match unquoteLoop fuel rest2 with
        | some (s, rest3) => some (bytes ++ s, rest3)
        | none => none
      | none => none
    else if b.val < 0x20 then none
    else if b.val < 0x80 then
      match unquoteLoop fuel rest with
      | some (s, rest3) => some (b :: s, rest3)
      | none => none
    else
      match unquoteLoop fuel ((b :: rest).drop (decodeRune (b :: rest)).2) with
      | some (s, rest3) => some (utf8Encode (decodeRune (b :: rest)).1 ++ s, rest3)
      | none => none

/-- A JSON string at the head of the input, decoded as `encoding/json` does, and the input
left. -/
def unquote : List Byte → Option (List Byte × List Byte)
  | [] => none
  | b :: rest => if b.val = 34 then unquoteLoop rest.length rest else none

/-- The constant `maxNestingDepth` of the scanner of `encoding/json`. -/
def maxNestingDepth : Nat := 10000

mutual
/-- The JSON value at the head of the input (no leading white space) and the input left;
`depth` is the number of further array or object levels the scanner still allows, `fuel`
bounds the number of nested calls. -/
def parseValue : Nat → Nat → List Byte → Option (JValue × List Byte)
  | 0, _, _ => none
  | _ + 1, _, [] => none
  | fuel + 1, depth, b :: rest =>
    if b.val = 34 then
      match unquote (b :: rest) with
      | some (s, r) => some (JValue.str s, r)
      | none => none
    else if b = ch '{' then
      match depth with
      | 0 => none
      | d + 1 =>
        match skipSpace rest with
        | [] => none
        | c :: r =>
          if c = ch '}' then some (JValue.object [], r)
          else
            match parseFields fuel d (c :: r) with
            | some (ms, r2) => some (JValue.object ms, r2)
            | none => none
    else if b = ch '[' then
      match depth with
      | 0 => none
      | d + 1 =>
        match skipSpace rest with
        | [] => none
        | c :: r =>
          if c = ch ']' then some (JValue.array [], r)
          else
            match parseItems fuel d (c :: r) with
            | some (items, r2) => some (JValue.array items, r2)
            | none => none
    else if (b :: rest).take 4 = str "true" then some (JValue.bool true, (b :: rest).drop 4)
    else if (b :: rest).take 5 = str "false" then some (JValue.bool false, (b :: rest).drop 5)
    else if (b :: rest).take 4 = str "null" then some (JValue.null, (b :: rest).drop 4)
    else
      match scanNumber (b :: rest) with
      | some (lit, r) => some (JValue.number lit, r)
      | none => none
/-- The items of an array from the head of the input (at an item) up to the closing
bracket, and the input left after the bracket. -/
def parseItems : Nat → Nat → List Byte → Option (List JValue × List Byte)
  | 0, _, _ => none
  | fuel + 1, depth, s =>
    match parseValue fuel depth s with
    | none => none
    | some (v, r) =>
      match skipSpace r with
      | [] => none
      | c :: r2 =>
        if c = ch ',' then
          match parseItems fuel depth (skipSpace r2) with
          | some (items, r3) => some (v :: items, r3)
          | none => none
        else if c = ch ']' then some ([v], r2)
        else none
/-- The members of an object from the head of the input (at a key) up to the closing brace,
and the input left after the brace. -/
def parseFields : Nat → Nat → List Byte → Option (List (GoString × JValue) × List Byte)
  | 0, _, _ => none
  | fuel + 1, depth, s =>
    match unquote s with
    | none => none
    | some (k, r) =>
      match skipSpace r with
      | [] => none
      | c :: r1 =>
        if c = ch ':' then
          match parseValue fuel depth (skipSpace r1) with
          | none => none
          | some (v, r2) =>
            match skipSpace r2 with
            | [] => none
            | c2 :: r3 =>
              if c2 = ch ',' then
                match parseFields fuel depth (skipSpace r3) with
                | some (ms, r4) => some ((k, v) :: ms, r4)
                | none => none
              else if c2 = ch '}' then some ([(k, v)], r3)
              else none
        else none
end

/-- The syntax tree of a JSON text, `none` when `checkValid` of `encoding/json` rejects the
text: one value, white space around it, nesting of at most `maxNestingDepth` levels. -/
def parseJSON (data : List Byte) : Option JValue :=
  match parseValue (data.length + 1) maxNestingDepth (skipSpace data) with
  | some (v, rest) => if skipSpace rest = [] then some v else none
  | none => none

/-! ## `json.Unmarshal` into `model.Response` and `json.Marshal` of it -/

/-- The digits of a literal before the first byte that satisfies `stop`, and what follows
that byte. -/
def splitAt (stop : Byte → Bool) : List Byte → List Byte × List Byte
  | [] => ([], [])
  | b :: rest =>
    if stop b then ([], rest) else (b :: (splitAt stop rest).1, (splitAt stop rest).2)

/-- Whether `strconv.ParseFloat(lit, 64)` accepts a JSON number literal without a range
error: the number it writes is below `2^1024 - 2^970` in absolute value, so that it rounds to
a finite `float64`. -/
def floatInRange (lit : List Byte) : Bool :=
  let unsigned := match lit with
    | [] => []
    | b :: rest => if b = ch '-' then rest else b :: rest
  let mantissa := (splitAt (fun b => b == ch 'e' || b == ch 'E') unsigned).1
  let exponent := (splitAt (fun b => b == ch 'e' || b == ch 'E') unsigned).2
  let intDigits := (splitAt (fun b => b == ch '.') mantissa).1
  let fracDigits := (splitAt (fun b => b == ch '.') mantissa).2
  let expValue : Int := match exponent with
    | [] => 0
    | b :: rest =>
      if b = ch '-' then -((decimalValue rest : Nat) : Int)
      else if b = ch '+' then ((decimalValue rest : Nat) : Int)
      else ((decimalValue (b :: rest) : Nat) : Int)
  let digits := decimalValue (intDigits ++ fracDigits)
  let scale : Int := expValue - (fracDigits.length : Int)
  let bound : Nat := 2 ^ 1024 - 2 ^ 970
  if scale ≥ 0 then decide (digits * 10 ^ scale.toNat < bound)
  else decide (digits < bound * 10 ^ (-scale).toNat)

/-- The integer `strconv.ParseInt(lit, 10, 64)` reads from a JSON number literal: the
literal must have neither fraction nor exponent and fit into 64 bits. -/
def parseIntLit (lit : List Byte) : Option Int :=
  let neg := match lit with
    | [] => false
    | b :: _ => b == ch '-'
  let digits := if neg then lit.drop 1 else lit
  if digits ≠ [] ∧ digits.all isDigit then
    (if neg then
      (if decimalValue digits ≤ 2 ^ 63 then some (-((decimalValue digits : Nat) : Int)) else none)
     else
      (if decimalValue digits < 2 ^ 63 then some ((decimalValue digits : Nat) : Int) else none))
  else none

mutual
/-- Whether every number literal of a syntax tree is in the range of `float64`. -/
def JValue.floatsInRange : JValue → Bool
  | .number lit => floatInRange lit
  | .array items => JValue.floatsInRangeList items
  | .object ms => JValue.floatsInRangeMembers ms
  | _ => true
/-- The same for the items of an array. -/
def JValue.floatsInRangeList : List JValue → Bool
  | [] => true
  | x :: xs => x.floatsInRange && JValue.floatsInRangeList xs
/-- The same for the members of an object. -/
def JValue.floatsInRangeMembers : List (GoString × JValue) → Bool
  | [] => true
  | (_, v) :: ms => v.floatsInRange && JValue.floatsInRangeMembers ms
end

/-- The map after `m[k] = v`, the map being listed by ascending key. -/
def insertMember (k : GoString) (v : JValue) :
    List (GoString × JValue) → List (GoString × JValue)
  | [] => [(k, v)]
  | (k0, v0) :: rest =>
    if k = k0 then (k, v) :: rest
    else if strLess k k0 then (k, v) :: (k0, v0) :: rest
    else (k0, v0) :: insertMember k v rest

mutual
/-- The Go value the decoder stores into an `interface{}` for a syntax tree: an object
becomes the map its members are stored into one after the other, a later member with the
same key replacing the earlier one. -/
def JValue.toGo : JValue → JValue
  | .array items => JValue.array (JValue.toGoList items)
  | .object ms => JValue.object (JValue.toGoMembers ms [])
  | .null => JValue.null
  | .bool b => JValue.bool b
  | .number lit => JValue.number lit
  | .str s => JValue.str s
/-- The same for the items of an array. -/
def JValue.toGoList : List JValue → List JValue
  | [] => []
  | x :: xs => x.toGo :: JValue.toGoList xs
/-- The members of an object stored into the map `acc`. -/
def JValue.toGoMembers : List (GoString × JValue) → List (GoString × JValue) →
    List (GoString × JValue)
  | [], acc => acc
  | (k, v) :: ms, acc => JValue.toGoMembers ms (insertMember k v.toGo acc)
end

/-- The exported fields of `model.Response`. -/
inductive Field where
  | retCode
  | retMsg
  | result
  | retExtInfo
  | time
deriving DecidableEq

/-- The JSON name of a field, from its struct tag. -/
def Field.name : Field → GoString
  | .retCode => str "retCode"
  | .retMsg => str "retMsg"
  | .result => str "result"
  | .retExtInfo => str "retExtInfo"
  | .time => str "time"

/-- The case folding under which the decoder compares an object key with a field name:
ASCII letters become upper case, and so do the two other letters that fold to an ASCII
letter, U+017F (long s) and U+212A (Kelvin sign); folding of further letters cannot make a
key equal to a name made of ASCII letters and is left out. The first argument counts the
bytes still to skip of a letter already folded. -/
def foldName : Nat → List Byte → List Byte
  | _, [] => []
  | skip + 1, _ :: rest => foldName skip rest
  | 0, b :: rest =>
    if 97 ≤ b.val ∧ b.val ≤ 122 then byteOfNat (b.val - 32) :: foldName 0 rest
    else if (b :: rest).take 2 = [0xC5, 0xBF] then ch 'S' :: foldName 1 rest
    else if (b :: rest).take 3 = [0xE2, 0x84, 0xAA] then ch 'K' :: foldName 2 rest
    else b :: foldName 0 rest

/-- The field of `model.Response` an object key decodes into, if any. -/
def fieldOf (key : GoString) : Option Field :=
  [Field.retCode, Field.retMsg, Field.result, Field.retExtInfo, Field.time].find?
    (fun f => foldName 0 key = foldName 0 f.name)

/-- The failures of `json.Unmarshal`: a `SyntaxError` (the text is not valid JSON), or an
`UnmarshalTypeError` with the description of the JSON value and the field it was meant for. -/
inductive JsonError where
  | invalid
  | mismatch (value : GoString) (field : GoString)
deriving DecidableEq

/-- The description of a JSON value in an `UnmarshalTypeError`. -/
def JValue.kind : JValue → GoString
  | .null => BybitMcp.str "null"
  | .bool _ => BybitMcp.str "bool"
  | .number _ => BybitMcp.str "number"
  | .str _ => BybitMcp.str "string"
  | .array _ => BybitMcp.str "array"
  | .object _ => BybitMcp.str "object"

/-- Equality of results is decidable when equality of errors and of values is. -/
instance exceptDecidableEq {ε α : Type} [DecidableEq ε] [DecidableEq α] :
    DecidableEq (Except ε α)
  | Except.ok a, Except.ok b =>
    if h : a = b then isTrue (by rw [h]) else isFalse (by intro e; cases e; exact h rfl)
  | Except.error a, Except.error b =>
    if h : a = b then isTrue (by rw [h]) else isFalse (by intro e; cases e; exact h rfl)
  | Except.ok _, Except.error _ => isFalse (by intro e; cases e)
  | Except.error _, Except.ok _ => isFalse (by intro e; cases e)

/-- Decoding a JSON value into an `int` or `int64` field holding `cur`: `null` leaves the
field as it is, an integer literal within 64 bits is stored, the rest is a type error. -/
def decodeInt (field : GoString) (v : JValue) (cur : Int) : Except JsonError Int :=
  match v with
  | .null => Except.ok cur
  | .number lit =>
    match parseIntLit lit with
    | some n => Except.ok n
    | none => Except.error (JsonError.mismatch (str "number " ++ lit) field)
  | other => Except.error (JsonError.mismatch other.kind field)

/-- Decoding a JSON value into a `string` field holding `cur`. -/
def decodeString (field : GoString) (v : JValue) (cur : GoString) : Except JsonError GoString :=
  match v with
  | .null => Except.ok cur
  | .str s => Except.ok s
  | other => Except.error (JsonError.mismatch other.kind field)

/-- Decoding a JSON value into an `interface{}` field: every number must be in the range
of `float64`. -/
def decodeInterface (field : GoString) (v : JValue) : Except JsonError JValue :=
  if v.floatsInRange then Except.ok v.toGo
  else Except.error (JsonError.mismatch (str "number") field)

/-- Decoding one member of the envelope object into the response decoded so far; a key
that names no field is skipped. -/
def decodeMember (r : Response) (key : GoString) (v : JValue) : Except JsonError Response :=
  match fieldOf key with
  | none => Except.ok r
  | some Field.retCode =>
    match decodeInt (str "retCode") v r.RetCode with
    | Except.ok n => Except.ok { r with RetCode := n }
    | Except.error e => Except.error e
  | some Field.retMsg =>
    match decodeString (str "retMsg") v r.RetMsg with
    | Except.ok s => Except.ok { r with RetMsg := s }
    | Except.error e => Except.error e
  | some Field.result =>
    match decodeInterface (str "result") v with
    | Except.ok x => Except.ok { r with Result := x }
    | Except.error e => Except.error e
  | some Field.retExtInfo =>
    match decodeInterface (str "retExtInfo") v with
    | Except.ok x => Except.ok { r with RetExtInfo := x }
    | Except.error e => Except.error e
  | some Field.time =>
    match decodeInt (str "time") v r.Time with
    | Except.ok n => Except.ok { r with Time := n }
    | Except.error e => Except.error e

/-- Decoding the members of the envelope object in the order written; the first type error
is the error of the whole call. -/
def decodeMembers : Response → List (GoString × JValue) → Except JsonError Response
  | r, [] => Except.ok r
  | r, (k, v) :: ms =>
    match decodeMember r k v with
    | Except.ok r2 => decodeMembers r2 ms
    | Except.error e => Except.error e

/-- Decoding a syntax tree into a zero `model.Response`: `null` changes nothing, an object
is decoded member by member, anything else is a type error. -/
def decodeResponse : JValue → Except JsonError Response
  | .null => Except.ok zeroResponse
  | .object ms => decodeMembers zeroResponse ms
  | other => Except.error (JsonError.mismatch other.kind [])

/-- The call `json.Unmarshal(data, &response)` on a zero `response`: the error, or the
response decoded. -/
def Unmarshal (data : List Byte) : Except JsonError Response :=
  match parseJSON data with
  | none => Except.error JsonError.invalid
  | some v => decodeResponse v

/-! ## `strconv`: `ParseFloat` and the shortest `FormatFloat` for `float64` -/

/-- A finite `float64`: the sign and the magnitude `mant * 2 ^ exp`, where `mant < 2 ^ 53`,
and `2 ^ 52 ≤ mant` unless `exp = -1074` (zero and the subnormal numbers). -/
structure Float64 where
  neg : Bool
  mant : Nat
  exp : Int
deriving DecidableEq

/-- The decimal a JSON number literal writes: whether it has a minus sign, and the natural
number `digits` and the power of ten `scale` with magnitude `digits * 10 ^ scale`. -/
def decimalOf (lit : List Byte) : Bool × Nat × Int :=
  let neg := match lit with
    | [] => false
    | b :: _ => b == ch '-'
  let unsigned := if neg then lit.drop 1 else lit
  let mantissa := (splitAt (fun b => b == ch 'e' || b == ch 'E') unsigned).1
  let exponent := (splitAt (fun b => b == ch 'e' || b == ch 'E') unsigned).2
  let intDigits := (splitAt (fun b => b == ch '.') mantissa).1
  let fracDigits := (splitAt (fun b => b == ch '.') mantissa).2
  let expValue : Int := match exponent with
    | [] => 0
    | b :: rest =>
      if b = ch '-' then -((decimalValue rest : Nat) : Int)
      else if b = ch '+' then ((decimalValue rest : Nat) : Int)
      else ((decimalValue (b :: rest) : Nat) : Int)
  (neg, decimalValue (intDigits ++ fracDigits), expValue - (fracDigits.length : Int))

/-- The number of binary digits of `n` less one (0 for 0 and 1); `n` halvings are more than
enough. -/
def log2Floor : Nat → Nat → Nat
  | 0, _ => 0
  | fuel + 1, n => if n < 2 then 0 else log2Floor fuel (n / 2) + 1

/-- The mantissa and exponent of the `float64` nearest to `num / den`, a tie going to the
even mantissa (IEEE 754 round to nearest even, as `strconv.ParseFloat` rounds); `none` when
the nearest value is beyond the largest `float64`. -/
def nearestFloat64 (num den : Nat) : Option (Nat × Int) :=
  if num = 0 then some (0, -1074)
  else
    let e0 : Int := (log2Floor num num : Int) - (log2Floor den den : Int) - 52
    let quot : Nat :=
      if e0 ≥ 0 then num / (den * 2 ^ e0.toNat) else num * 2 ^ (-e0).toNat / den
    let e1 : Int := if quot ≥ 2 ^ 52 then e0 else e0 - 1
    let e : Int := if e1 < -1074 then -1074 else e1
    let n : Nat := if e ≥ 0 then num else num * 2 ^ (-e).toNat
    let d : Nat := if e ≥ 0 then den * 2 ^ e.toNat else den
    let q : Nat := n / d
    let r : Nat := n % d
    let up : Nat := if 2 * r > d ∨ (2 * r = d ∧ q % 2 = 1) then q + 1 else q
    let m : Nat := if up = 2 ^ 53 then 2 ^ 52 else up
    let e2 : Int := if up = 2 ^ 53 then e + 1 else e
    if e2 > 971 then none else some (m, e2)

/-- The function `strconv.ParseFloat(lit, 64)` on a JSON number literal; `none` is its range
error. A result too small for a `float64` is zero, without an error. -/
def parseFloat64 (lit : List Byte) : Option Float64 :=
  let dec := decimalOf lit
  let rounded :=
    if dec.2.2 ≥ 0 then nearestFloat64 (dec.2.1 * 10 ^ dec.2.2.toNat) 1
    else nearestFloat64 dec.2.1 (10 ^ (-dec.2.2).toNat)
  match rounded with
  | none => none
  | some (m, e) => some { neg := dec.1, mant := m, exp := e }

/-- The search of `roundShortest` of strconv, position by position from the highest power of
ten `p` down: `v`, `lo` and `up` over `den` are the float and the halfway points to its
neighbours; a multiple of `10 ^ p` next to `v` is taken as soon as it is within the halfway
points (which count when `inclusive`), the nearer one when both are, a tie going to the even
digit. The result is `(k, p)` for the decimal `k * 10 ^ p`. -/
def shortestLoop : Nat → Int → Nat → Nat → Nat → Nat → Bool → Nat × Int
  | 0, p, _, _, _, _, _ => (0, p)
  | fuel + 1, p, v, lo, up, den, inclusive =>
    let tn : Nat := 10 ^ (-p).toNat
    let b : Nat := den * 10 ^ p.toNat
    let k : Nat := v * tn / b
    let r : Nat := v * tn % b
    let okdown : Bool := decide (k * b > lo * tn) || (inclusive && decide (k * b = lo * tn))
    let okup : Bool :=
      decide ((k + 1) * b < up * tn) || (inclusive && decide ((k + 1) * b = up * tn))
    if okdown && okup then
      (if 2 * r > b ∨ (2 * r = b ∧ k % 2 = 1) then (k + 1, p) else (k, p))
    else if okdown then (k, p)
    else if okup then (k + 1, p)
    else shortestLoop fuel (p - 1) v lo up den inclusive

/-- Zeros at the end of the digits of `k` moved into the power of ten. -/
def stripZeros : Nat → Nat → Int → Nat × Int
  | 0, k, p => (k, p)
  | fuel + 1, k, p => if k ≠ 0 ∧ k % 10 = 0 then stripZeros fuel (k / 10) (p + 1) else (k, p)

/-- The shortest decimal that `strconv.ParseFloat` reads back as the float `mant * 2 ^ exp`
(`mant > 0`), as `FormatFloat(f, _, -1, 64)` finds it: its digits, and the position of the
decimal point counted from the first digit. The halfway point below the float is nearer when
the mantissa is the smallest of its binade. The search starts above the first digit of the
upper halfway point and ends at the last digit of the float at the latest, which for a
`float64` are fewer than 1500 positions (from `10 ^ 309` down to `10 ^ -1074`). -/
def shortestDecimal (mant : Nat) (exp : Int) : List Byte × Int :=
  let v4 : Nat := 4 * mant
  let up4 : Nat := 4 * mant + 2
  let lo4 : Nat := if mant = 2 ^ 52 ∧ exp ≠ -1074 then 4 * mant - 1 else 4 * mant - 2
  let scale : Nat := if exp - 2 ≥ 0 then 2 ^ (exp - 2).toNat else 1
  let den : Nat := if exp - 2 ≥ 0 then 1 else 2 ^ (2 - exp).toNat
  let start : Int := ((formatNat (up4 * scale / den)).length : Int)
  let found := shortestLoop 1500 start (v4 * scale) (lo4 * scale) (up4 * scale) den
    (mant % 2 == 0)
  let stripped := stripZeros 400 found.1 found.2
  (formatNat stripped.1, ((formatNat stripped.1).length : Int) + stripped.2)

/-- The format `%f` of strconv with the precision of the shortest decimal. -/
def formatF (digits : List Byte) (dp : Int) : List Byte :=
  (if dp > 0 then digits.take dp.toNat ++ List.replicate (dp.toNat - digits.length) (ch '0')
   else [ch '0']) ++
  (if (digits.length : Int) > dp then
    [ch '.'] ++ List.replicate (-dp).toNat (ch '0') ++ digits.drop dp.toNat
   else [])

/-- The format `%e` of strconv with the precision of the shortest decimal: the exponent has
a sign and at least two digits. -/
def formatE (digits : List Byte) (dp : Int) : List Byte :=
  digits.take 1 ++ (if digits.length > 1 then [ch '.'] ++ digits.drop 1 else []) ++
  [ch 'e'] ++ (if dp - 1 < 0 then [ch '-'] else [ch '+']) ++
  (if (dp - 1).natAbs < 10 then [ch '0'] else []) ++ formatNat (dp - 1).natAbs

/-- The clean-up of `encoding/json` after `%e`: `e-09` becomes `e-9`. -/
def cleanExponent (b : List Byte) : List Byte :=
  match b.reverse with
  | d :: z :: s :: e :: rest =>
    if e = ch 'e' ∧ (s = ch '-' ∨ s = ch '+') ∧ z = ch '0' then (d :: s :: e :: rest).reverse
    else b
  | _ => b

/-- Whether `m1 * 2 ^ e1 < m2 * 2 ^ e2`. -/
def magnitudeLess (m1 : Nat) (e1 : Int) (m2 : Nat) (e2 : Int) : Bool :=
  if e1 ≤ e2 then decide (m1 < m2 * 2 ^ (e2 - e1).toNat)
  else decide (m1 * 2 ^ (e1 - e2).toNat < m2)

/-- The bytes the `floatEncoder` of `encoding/json` writes for a finite `float64`: the
shortest decimal, in the format `%f`, or in `%e` when the magnitude is not zero and below
`1e-6` or at least `1e21`. -/
def encodeFloat (f : Float64) : List Byte :=
  let sign : List Byte := if f.neg then [ch '-'] else []
  if f.mant = 0 then sign ++ [ch '0']
  else
    let small : Bool :=
      match nearestFloat64 1 (10 ^ 6) with
      | some (m, e) => magnitudeLess f.mant f.exp m e
      | none => false
    let large : Bool := !(magnitudeLess f.mant f.exp (10 ^ 21) 0)
    let dec := shortestDecimal f.mant f.exp
    if small || large then sign ++ cleanExponent (formatE dec.1 dec.2)
    else sign ++ formatF dec.1 dec.2

/-- The bytes `json.Marshal` writes for the `float64` a number literal denotes; a literal
beyond the range of `float64` denotes no value the decoder stores and is written as it is. -/
def marshalNumber (lit : List Byte) : List Byte :=
  match parseFloat64 lit with
  | some f => encodeFloat f
  | none => lit

mutual
/-- The bytes `json.Marshal` writes for a value of type `interface{}`; a number is the
`float64` its literal denotes and is written in the shortest form of that `float64`. -/
def marshalValue : JValue → List Byte
  | .null => str "null"
  | .bool true => str "true"
  | .bool false => str "false"
  | .number lit => marshalNumber lit
  | .str s => appendString s
  | .array items => [ch '['] ++ marshalItems 0 items ++ [ch ']']
  | .object ms => [ch '{'] ++ marshalFields 0 ms ++ [ch '}']
/-- The items of an array from index `i` on, a comma before every item but the first. -/
def marshalItems : Nat → List JValue → List Byte
  | _, [] => []
  | i, x :: xs => (if i > 0 then [ch ','] else []) ++ marshalValue x ++ marshalItems (i + 1) xs
/-- The members of a map from index `i` on, by ascending key. -/
def marshalFields : Nat → List (GoString × JValue) → List Byte
  | _, [] => []
  | i, (k, v) :: ms =>
    (if i > 0 then [ch ','] else []) ++ appendString k ++ [ch ':'] ++ marshalValue v
      ++ marshalFields (i + 1) ms
end

/-- The bytes `json.Marshal(resp)` writes for a `model.Response`: the five fields under
their tag names, in the order of the struct. -/
def marshalResponse (r : Response) : List Byte :=
  [ch '{'] ++ str "\"retCode\":" ++ formatInt r.RetCode
    ++ str ",\"retMsg\":" ++ appendString r.RetMsg
    ++ str ",\"result\":" ++ marshalValue r.Result
    ++ str ",\"retExtInfo\":" ++ marshalValue r.RetExtInfo
    ++ str ",\"time\":" ++ formatInt r.Time ++ [ch '}']

/-! ## The resource methods of `internal/service` and `internal/api` -/

/-- The method `bybitService.parseResponse`; `jsonError` gives the error value of
`encoding/json` for each failure, whose text is not modelled. -/
def parseResponse (jsonError : JsonError → GoError) (data : List Byte) :
    Option Response × Option GoError :=
  match Unmarshal data with
  | Except.error e => (none, some { text := str "解析响应失败: " ++ (jsonError e).text })
  | Except.ok r => (some r, none)

/-- The common body of the methods of `bybitService`: the outcome `(data, err)` of the
client call is returned as an error, or `data` is handed to `parseResponse`. -/
def serviceMethod (jsonError : JsonError → GoError) (call : Outcome) :
    Option Response × Option GoError :=
  match call.err with
  | some e => (none, some e)
  | none => parseResponse jsonError (call.body.getD [])

/-- The common body of the methods of `internal/api/*` after the parameters are built:
`response, err` is what `s.client.Get` or `s.client.Post` returned, `failCode` and
`failMessage` are the code and message the method gives a failed call, `parseMessage` the
message it gives a failed decoding. -/
def apiMethod (jsonError : JsonError → GoError) (failCode : Int)
    (failMessage parseMessage : GoString) (response : List Byte) (err : Option GoError) :
    Option Response × Option Error :=
  match err with
  | some e => (none, some { Code := failCode, Message := failMessage, Cause := some e })
  | none =>
    match Unmarshal response with
    | Except.error e =>
      (none, some { Code := ErrAPIResponseInvalid, Message := parseMessage,
                    Cause := some (jsonError e) })
    | Except.ok r => (some r, none)

/-- An error value standing for the errors of `encoding/json` in the witnesses. -/
def demoJsonError : JsonError → GoError := fun _ => { text := str "json error" }

/-- The envelope of a vendor failure: code 10001, message `params error`. -/
def failureBody : List Byte :=
  str "\x7b\"retCode\":10001,\"retMsg\":\"params error\",\"result\":\x7b\x7d,\"retExtInfo\":\x7b\x7d,\"time\":1700000000000\x7d"

/-- The response `failureBody` decodes to. -/
def failureResponse : Response :=
  { RetCode := 10001, RetMsg := str "params error", Result := JValue.object [],
    RetExtInfo := JValue.object [], Time := 1700000000000 }

/-- The envelope of the specification's round-trip example. -/
def demoResponse : Response :=
  { RetCode := 0, RetMsg := str "OK",
    Result := JValue.object [(str "foo", JValue.str (str "bar"))],
    RetExtInfo := JValue.object [], Time := 1700000000000 }

/-! ## The domain of the envelope round trip -/

mutual
/-- Whether a value is in the form the decoder gives an `interface{}`, built from null,
booleans, strings, arrays and objects: every string and key is valid UTF-8 and an object,
being a map, lists each key once, by ascending key. -/
def JValue.plain : JValue → Bool
  | .null => true
  | .bool _ => true
  | .number _ => false
  | .str s => validUTF8 s
  | .array items => JValue.plainList items
  | .object ms => JValue.plainMembers ms
/-- The same for the items of an array. -/
def JValue.plainList : List JValue → Bool
  | [] => true
  | x :: xs => x.plain && JValue.plainList xs
/-- The same for the members of an object. -/
def JValue.plainMembers : List (GoString × JValue) → Bool
  | [] => true
  | (k, v) :: ms =>
    validUTF8 k && v.plain && ms.all (fun q => strLess k q.1) && JValue.plainMembers ms
end

mutual
/-- The number of array and object levels of a value, which the scanner counts against
`maxNestingDepth`. -/
def JValue.nesting : JValue → Nat
  | .array items => JValue.nestingList items + 1
  | .object ms => JValue.nestingMembers ms + 1
  | _ => 0
/-- The deepest nesting among the items of an array. -/
def JValue.nestingList : List JValue → Nat
  | [] => 0
  | x :: xs => max x.nesting (JValue.nestingList xs)
/-- The deepest nesting among the members of an object. -/
def JValue.nestingMembers : List (GoString × JValue) → Nat
  | [] => 0
  | (_, v) :: ms => max v.nesting (JValue.nestingMembers ms)
end

mutual
/-- The number of nodes of a value, a bound on the nested calls the parser makes for it. -/
def JValue.size : JValue → Nat
  | .array items => JValue.sizeList items + 1
  | .object ms => JValue.sizeMembers ms + 1
  | _ => 1
/-- The nodes of the items of an array. -/
def JValue.sizeList : List JValue → Nat
  | [] => 0
  | x :: xs => x.size + JValue.sizeList xs + 1
/-- The nodes of the members of an object. -/
def JValue.sizeMembers : List (GoString × JValue) → Nat
  | [] => 0
  | (_, v) :: ms => v.size + JValue.sizeMembers ms + 1
end

/-- The bounds of a 64-bit `int` and of `int64`. -/
def inInt64 (n : Int) : Bool := decide (-(2 ^ 63 : Int) ≤ n) && decide (n < (2 ^ 63 : Int))

/-- A response whose message is not valid UTF-8. -/
def brokenTextResponse : Response :=
  { RetCode := 0, RetMsg := [0xFF], Result := JValue.null, RetExtInfo := JValue.null, Time := 0 }

/-- The syntax tree of the bytes `json.Marshal` writes for a response. -/
def envelopeTree (r : Response) : JValue :=
  JValue.object
    [(str "retCode", JValue.number (formatInt r.RetCode)),
     (str "retMsg", JValue.str r.RetMsg),
     (str "result", r.Result),
     (str "retExtInfo", r.RetExtInfo),
     (str "time", JValue.number (formatInt r.Time))]

/-! ## The resource methods of `internal/api`: parameters, failure codes, contexts -/

/-- A `float64` argument as far as the methods use it: the outcome of the test `x > 0` and
the text `strconv.FormatFloat(x, 'f', -1, 64)`. -/
structure FloatArg where
  positive : Bool
  text : GoString
deriving DecidableEq

/-- The loop `for k, v := range options { params[k] = v }`. -/
def mergeOptions (params options : ParamSet) : ParamSet :=
  options.entries.foldl (fun m e => m.set e.1 e.2) params

/-- The parameters `OrderService.CreateOrder` hands to `s.client.Post`. -/
def OrderService.CreateOrderParams (category symbol side orderType : GoString)
    (qty price : FloatArg) (options : ParamSet) : ParamSet :=
  let params := mapLiteral
    [(str "category", category), (str "symbol", symbol), (str "side", side),
     (str "orderType", orderType), (str "qty", qty.text)]
  let params :=
    if orderType ≠ str "Market" ∧ price.positive = true then params.set (str "price") price.text
    else params
  mergeOptions params options

/-- The parameters `OrderService.AmendOrder` hands to `s.client.Post`. -/
def OrderService.AmendOrderParams (category symbol orderId orderLinkId : GoString)
    (qty price : FloatArg) (options : ParamSet) : ParamSet :=
  let params := mapLiteral [(str "category", category), (str "symbol", symbol)]
  let params := if orderId ≠ [] then params.set (str "orderId") orderId else params
  let params := if orderLinkId ≠ [] then params.set (str "orderLinkId") orderLinkId else params
  let params := if qty.positive = true then params.set (str "qty") qty.text else params
  let params := if price.positive = true then params.set (str "price") price.text else params
  mergeOptions params options

/-- The parameters `PositionService.SetTradingStop` hands to `s.client.Post`. -/
def PositionService.SetTradingStopParams (category symbol : GoString)
    (takeProfit stopLoss : FloatArg) (options : ParamSet) : ParamSet :=
  let params := mapLiteral [(str "category", category), (str "symbol", symbol)]
  let params :=
    if takeProfit.positive = true then params.set (str "takeProfit") takeProfit.text else params
  let params :=
    if stopLoss.positive = true then params.set (str "stopLoss") stopLoss.text else params
  mergeOptions params options

/-- The parameters `AssetService.Withdraw` hands to `s.client.Post`. -/
def AssetService.WithdrawParams (coin chain address tag amount : GoString)
    (options : ParamSet) : ParamSet :=
  let params := mapLiteral
    [(str "coin", coin), (str "chain", chain), (str "address", address),
     (str "amount", amount)]
  let params := if tag ≠ [] then params.set (str "tag") tag else params
  mergeOptions params options

/-- The methods of the services of `internal/api` (market, order, position, account,
asset). -/
inductive ApiMethod where
  | GetKline | GetOrderbook | GetTickers | GetInstruments
  | CreateOrder | CancelOrder | GetOrders | AmendOrder
  | GetPositions | SetLeverage | SetTradingStop | SwitchPositionMode
  | GetWalletBalance | GetFeeRate | GetAccountInfo | SetMarginMode
  | GetCoinBalance | TransferAsset | GetTransferHistory | Withdraw
deriving DecidableEq

/-- Every method of `internal/api`, in the order of the source files. -/
def ApiMethod.all : List ApiMethod :=
  [.GetKline, .GetOrderbook, .GetTickers, .GetInstruments,
   .CreateOrder, .CancelOrder, .GetOrders, .AmendOrder,
   .GetPositions, .SetLeverage, .SetTradingStop, .SwitchPositionMode,
   .GetWalletBalance, .GetFeeRate, .GetAccountInfo, .SetMarginMode,
   .GetCoinBalance, .TransferAsset, .GetTransferHistory, .Withdraw]

/-- The `Code` a method gives the error it returns when `s.client.Get` or `s.client.Post`
failed. -/
def ApiMethod.failCode : ApiMethod → Int
  | .CreateOrder => ErrOrderFailed
  | .CancelOrder => ErrOrderCancelFailed
  | _ => ErrAPIRequestFailed

/-- The `Message` of that error. -/
def ApiMethod.failMessage : ApiMethod → GoString
  | .GetKline => str "获取K线数据失败"
  | .GetOrderbook => str "获取订单簿数据失败"
  | .GetTickers => str "获取行情数据失败"
  | .GetInstruments => str "获取交易对信息失败"
  | .CreateOrder => str "创建订单失败"
  | .CancelOrder => str "取消订单失败"
  | .GetOrders => str "获取订单列表失败"
  | .AmendOrder => str "修改订单失败"
  | .GetPositions => str "获取仓位列表失败"
  | .SetLeverage => str "设置杠杆失败"
  | .SetTradingStop => str "设置止盈止损失败"
  | .SwitchPositionMode => str "切换持仓模式失败"
  | .GetWalletBalance => str "获取钱包余额失败"
  | .GetFeeRate => str "获取手续费率失败"
  | .GetAccountInfo => str "获取账户信息失败"
  | .SetMarginMode => str "设置保证金模式失败"
  | .GetCoinBalance => str "获取币种余额失败"
  | .TransferAsset => str "资产划转失败"
  | .GetTransferHistory => str "获取划转历史失败"
  | .Withdraw => str "提现失败"

/-- The `Message` of the error a method returns when the response cannot be decoded. -/
def ApiMethod.parseMessage : ApiMethod → GoString
  | .GetKline => str "解析K线数据失败"
  | .GetOrderbook => str "解析订单簿数据失败"
  | .GetTickers => str "解析行情数据失败"
  | .GetInstruments => str "解析交易对信息失败"
  | .CreateOrder => str "解析订单响应失败"
  | .CancelOrder => str "解析取消订单响应失败"
  | .GetOrders => str "解析订单列表响应失败"
  | .AmendOrder => str "解析修改订单响应失败"
  | .GetPositions => str "解析仓位列表响应失败"
  | .SetLeverage => str "解析设置杠杆响应失败"
  | .SetTradingStop => str "解析设置止盈止损响应失败"
  | .SwitchPositionMode => str "解析切换持仓模式响应失败"
  | .GetWalletBalance => str "解析钱包余额响应失败"
  | .GetFeeRate => str "解析手续费率响应失败"
  | .GetAccountInfo => str "解析账户信息响应失败"
  | .SetMarginMode => str "解析设置保证金模式响应失败"
  | .GetCoinBalance => str "解析币种余额响应失败"
  | .TransferAsset => str "解析资产划转响应失败"
  | .GetTransferHistory => str "解析划转历史响应失败"
  | .Withdraw => str "解析提现响应失败"

/-- A `context.Context` as far as a callee can observe it: whether it is already cancelled
or past its deadline. -/
structure Context where
  cancelled : Bool
deriving DecidableEq

/-- The body of a method of `internal/api` after its parameters are built: `ctx` is the
context the caller passed, `response, err` what `s.client.Get` or `s.client.Post`
returned. -/
def ApiMethod.call (m : ApiMethod) (jsonError : JsonError → GoError) (_ctx : Context)
    (response : List Byte) (err : Option GoError) : Option Response × Option Error :=
  apiMethod jsonError m.failCode m.failMessage m.parseMessage response err

/-- The method `bybitService.GetKline` of `internal/service`. -/
def bybitService.GetKline (jsonError : JsonError → GoError) (env : Env) (c : Client)
    (_ctx : Context) (category symbol interval : GoString) (limit : Int) :
    Option Response × Option GoError :=
  serviceMethod jsonError (BybitMcp.GetKline env c category symbol interval limit)

/-! ## `internal/config` and the composition root `cmd/server` -/

/-- The struct `config.ServerConfig`. -/
structure ServerConfig where
  Host : GoString
  Port : Int
deriving DecidableEq

/-- The struct `config.BybitConfig`. -/
structure BybitConfig where
  BaseURL : GoString
  APIKey : GoString
  APISecret : GoString
  Debug : Bool
deriving DecidableEq

/-- The struct `config.LoggerConfig`. -/
structure LoggerConfig where
  Level : GoString
  Output : GoString
deriving DecidableEq

/-- The struct `config.Config`. -/
structure Config where
  Server : ServerConfig
  Bybit : BybitConfig
  Logger : LoggerConfig
deriving DecidableEq

/-- The function `config.DefaultConfig`. -/
def DefaultConfig : Config :=
  { Server := { Host := str "0.0.0.0", Port := 50051 }
    Bybit := { BaseURL := str "https://api.bybit.com", APIKey := [], APISecret := [],
               Debug := false }
    Logger := { Level := str "info", Output := str "stdout" } }

/-- The value of `args.Port` after `flag.Parse()`: the value given with `-port`, or the
default 50051 of `flag.IntVar` when the flag is not on the command line. -/
def portFlag (given : Option Int) : Int := given.getD 50051

/-- The configuration `main` holds after the override of the port: `loaded` is what
`config.LoadConfig` returned (`none` for an error), `given` the value of `-port` if any. -/
def mainConfig (given : Option Int) (loaded : Option Config) : Config :=
  let cfg := match loaded with
    | some cfg => cfg
    | none => DefaultConfig
  if portFlag given ≠ 0 then { cfg with Server := { cfg.Server with Port := portFlag given } }
  else cfg

/-- The address `fmt.Sprintf(":%d", cfg.Server.Port)` handed to `net.Listen`. -/
def listenAddress (given : Option Int) (loaded : Option Config) : GoString :=
  str ":" ++ formatInt (mainConfig given loaded).Server.Port

/-- The function `service.NewBybitService` of `bybit_service.go`: the service it returns
holds nothing but its client. -/
def NewBybitService (apiKey apiSecret : GoString) : Client := NewClient apiKey apiSecret

/-- The client of the service `main` creates. -/
def mainClient (given : Option Int) (loaded : Option Config) : Client :=
  NewBybitService (mainConfig given loaded).Bybit.APIKey (mainConfig given loaded).Bybit.APISecret

/-- A configuration file that names the test network as base URL. -/
def testnetConfig : Config :=
  { DefaultConfig with
    Bybit := { BaseURL := str "https://api-testnet.bybit.com", APIKey := str "key",
               APISecret := str "secret", Debug := false } }

/-! ## The client as a state: which operations assign its fields -/

/-- The method `Client.SetDebug`: the client after the call. -/
def SetDebug (c : Client) (debug : Bool) : Client := { c with Debug := debug }

/-- The operations of `bybitapi.Client`; every resource method is a call of `sendRequest`. -/
inductive ClientOp where
  | setDebug (debug : Bool)
  | generateSignature (params : ParamSet) (timestamp : Int)
  | sendRequest (env : Env) (method endpoint : GoString) (params : ParamSet) (auth : Bool)

/-- The client after an operation: `SetDebug` assigns `c.Debug`, the bodies of
`generateSignature` and `sendRequest` assign no field of `c`. -/
def ClientOp.after (c : Client) : ClientOp → Client
  | .setDebug debug => SetDebug c debug
  | .generateSignature _ _ => c
  | .sendRequest _ _ _ _ _ => c

/-- The client after a sequence of operations. -/
def Client.run (c : Client) (ops : List ClientOp) : Client := ops.foldl ClientOp.after c

/-! ## `internal/api/server.go` -/

/-- The fields of the message `MCPResponse` that `toMCPResponse` sets; a nil `Data` is the
empty byte string. -/
structure MCPResponse where
  RequestId : GoString
  Code : Int
  Message : GoString
  Data : List Byte
deriving DecidableEq

/-- The constant `codes.Internal` of `google.golang.org/grpc/codes`. -/
def codesInternal : Int := 13

/-- The conversion `int32(x)`: the low 32 bits, read as a signed number. -/
def int32 (x : Int) : Int := (x + 2 ^ 31) % 2 ^ 32 - 2 ^ 31

/-- The call `json.Marshal(resp)` for a `*model.Response`: `null` for the nil pointer; for
the values a response holds here the encoder has no error. -/
def marshalResponsePtr (resp : Option Response) : Except GoError (List Byte) :=
  match resp with
  | none => Except.ok (str "null")
  | some r => Except.ok (marshalResponse r)

/-- The method `BybitMCPServer.toMCPResponse`; `none` is the panic of reading `resp.RetCode`
through a nil pointer. -/
def toMCPResponse (requestID : GoString) (resp : Option Response) (err : Option GoError) :
    Option (MCPResponse × Option GoError) :=
  match err with
  | some e =>
    some ({ RequestId := requestID, Code := int32 codesInternal, Message := e.text,
            Data := [] }, none)
  | none =>
    match marshalResponsePtr resp with
    | Except.error e =>
      some ({ RequestId := requestID, Code := int32 codesInternal,
              Message := str "序列化响应失败: " ++ e.text, Data := [] }, none)
    | Except.ok data =>
      match resp with
      | none => none
      | some r =>
        some ({ RequestId := requestID, Code := int32 r.RetCode, Message := r.RetMsg,
                Data := data }, none)

/-! ## Calls of `sendRequest` in flight at the same time -/

/-- The second half of `sendRequest` (lines 129 to 147): the round trip, the reading of the
body and the check of the status. -/
def finishRequest (env : Env) (req : Request) : Outcome :=
  match env.roundTrip req with
  | TransportResult.failed e => { sent := [req], body := none, err := some e }
  | TransportResult.unreadable _ e => { sent := [req], body := none, err := some e }
  | TransportResult.response status body =>
    if status ≠ 200 then { sent := [req], body := none, err := some (statusError body status) }
    else { sent := [req], body := some body, err := none }

/-- The arguments of one call of `sendRequest`. -/
structure Call where
  method : GoString
  endpoint : GoString
  params : ParamSet
  auth : Bool

/-- How far a call has come: not started, the request built and signed but not yet handed
to the transport, or returned. A call keeps this in local variables only. -/
inductive CallState where
  | pending
  | built (req : Request)
  | done (o : Outcome)
deriving DecidableEq

/-- One step of a call against the client `c`, the clock showing `now`: the first step runs
`sendRequest` up to the call of `HTTPClient.Do`, the second runs the rest. -/
def stepCall (env : Env) (c : Client) (now : Int) (call : Call) : CallState → CallState
  | .pending =>
    match buildRequest env c call.method call.endpoint call.params with
    | Except.error e => .done { sent := [], body := none, err := some e }
    | Except.ok req0 =>
      .built (addAuth { env with now := now } c call.params call.auth req0)
  | .built req => .done (finishRequest env req)
  | .done o => .done o

/-- The calls of `n` goroutines against one shared client, interleaved by a schedule: at
each tick `t` the scheduled call takes one step, the clock showing `clock t`. -/
def runSchedule (env : Env) (c : Client) (clock : Nat → Int) {n : Nat} (calls : Fin n → Call) :
    List (Fin n) → Nat → (Fin n → CallState) → Fin n → CallState
  | [], _, st => st
  | i :: rest, t, st =>
    runSchedule env c clock calls rest (t + 1)
      (Function.update st i (stepCall env c (clock t) (calls i) (st i)))

/-- The ticks at which a schedule that starts at tick `t` lets call `i` take a step. -/
def stepTimes {n : Nat} (i : Fin n) : List (Fin n) → Nat → List Nat
  | [], _ => []
  | j :: rest, t => if j = i then t :: stepTimes i rest (t + 1) else stepTimes i rest (t + 1)

/-- A call run on its own, taking its steps at the given ticks. -/
def runAlone (env : Env) (c : Client) (clock : Nat → Int) (call : Call) (times : List Nat)
    (st : CallState) : CallState :=
  times.foldl (fun s t => stepCall env c (clock t) call s) st

/-- A mock transport that answers every request with status 200 and the URL of the request
as body. -/
def echoEnv : Env :=
  { now := 0, newRequestErr := fun _ _ => none,
    roundTrip := fun req => TransportResult.response 200 req.url }

/-- Two calls with different parameters. -/
def demoCalls : Fin 2 → Call := fun i =>
  if i = 0 then
    { method := str "GET", endpoint := str "market/tickers",
      params := ParamSet.single (str "category") (str "spot"), auth := false }
  else
    { method := str "GET", endpoint := str "market/tickers",
      params := ParamSet.single (str "category") (str "linear"), auth := false }

/-- A response whose result holds numbers written as `1.50` and `1E2`. -/
def numericResponse : Response :=
  { RetCode := 0, RetMsg := str "OK",
    Result := JValue.object
      [(str "price", JValue.number (str "1.50")), (str "qty", JValue.number (str "1E2"))],
    RetExtInfo := JValue.null, Time := 0 }

/-! # Theorems -/

/-! ## The byte-wise order and `sort.Strings` -/

theorem strLess_irrefl (a : GoString) : strLess a a = false := by
  induction a with
  | nil => rfl
  | cons x xs ih => simp [strLess, ih]

theorem strLess_asymm : ∀ (a b : GoString), strLess a b = true → strLess b a = false
  | [], [], h => by simp [strLess] at h
  | [], _ :: _, _ => by simp [strLess]
  | _ :: _, [], h => by simp [strLess] at h
  | x :: xs, y :: ys, h => by
    rcases lt_trichotomy x y with hxy | hxy | hxy
    · simp [strLess, hxy, not_lt_of_gt hxy]
    · subst hxy
      simp only [strLess, lt_self_iff_false, if_false] at h ⊢
      exact strLess_asymm xs ys h
    · simp [strLess, hxy, not_lt_of_gt hxy] at h

theorem strLess_connex : ∀ (a b : GoString), strLess a b = false → strLess b a = false → a = b
  | [], [], _, _ => rfl
  | [], _ :: _, h, _ => by simp [strLess] at h
  | _ :: _, [], _, h => by simp [strLess] at h
  | x :: xs, y :: ys, h1, h2 => by
    rcases lt_trichotomy x y with hxy | hxy | hxy
    · simp [strLess, hxy] at h1
    · subst hxy
      simp only [strLess, lt_self_iff_false, if_false] at h1 h2
      rw [strLess_connex xs ys h1 h2]
    · simp [strLess, hxy] at h2

theorem strLess_trans : ∀ (a b c : GoString),
    strLess a b = true → strLess b c = true → strLess a c = true
  | [], [], _, h, _ => by simp [strLess] at h
  | [], _ :: _, [], _, h => by simp [strLess] at h
  | [], _ :: _, _ :: _, _, _ => by simp [strLess]
  | _ :: _, [], _, h, _ => by simp [strLess] at h
  | _ :: _, _ :: _, [], _, h => by simp [strLess] at h
  | x :: xs, y :: ys, z :: zs, h1, h2 => by
    rcases lt_trichotomy x y with hxy | hxy | hxy
    · rcases lt_trichotomy y z with hyz | hyz | hyz
      · simp [strLess, lt_trans hxy hyz]
      · subst hyz; simp [strLess, hxy]
      · simp [strLess, hyz, not_lt_of_gt hyz] at h2
    · subst hxy
      rcases lt_trichotomy x z with hyz | hyz | hyz
      · simp [strLess, hyz]
      · subst hyz
        simp only [strLess, lt_self_iff_false, if_false] at h1 h2 ⊢
        exact strLess_trans xs ys zs h1 h2
      · simp [strLess, hyz, not_lt_of_gt hyz] at h2
    · simp [strLess, hxy, not_lt_of_gt hxy] at h1

instance strLe_total : IsTotal GoString (fun a b => strLe a b = true) where
  total a b := by
    by_cases h : strLess b a = true
    · right; simp [strLe, strLess_asymm b a h]
    · left; simpa [strLe] using h

instance strLe_trans : IsTrans GoString (fun a b => strLe a b = true) where
  trans a b c hab hbc := by
    simp only [strLe, Bool.not_eq_true'] at hab hbc ⊢
    by_contra hca
    have hca : strLess c a = true := by simpa using hca
    by_cases hlt : strLess a b = true
    · rw [strLess_trans c a b hca hlt] at hbc; cases hbc
    · have hlt2 : strLess a b = false := by simpa using hlt
      have := strLess_connex a b hlt2 hab
      subst this
      rw [hbc] at hca; cases hca

instance strLe_antisymm : IsAntisymm GoString (fun a b => strLe a b = true) where
  antisymm a b hab hba := by
    simp only [strLe, Bool.not_eq_true'] at hab hba
    exact strLess_connex a b hba hab

theorem sortStrings_perm (keys : List GoString) : (sortStrings keys).Perm keys :=
  List.perm_insertionSort _ keys

theorem sortStrings_sorted (keys : List GoString) :
    (sortStrings keys).Pairwise (fun a b => strLe a b = true) :=
  List.sorted_insertionSort _ keys

theorem sortStrings_eq_of_perm {k1 k2 : List GoString} (h : k1.Perm k2) :
    sortStrings k1 = sortStrings k2 :=
  List.eq_of_perm_of_sorted
    (((sortStrings_perm k1).trans h).trans (sortStrings_perm k2).symm)
    (sortStrings_sorted k1) (sortStrings_sorted k2)

theorem sortStrings_strict {keys : List GoString} (hnd : keys.Nodup) :
    (sortStrings keys).Pairwise (fun a b => strLess a b = true) := by
  have hs := sortStrings_sorted keys
  have hn : (sortStrings keys).Nodup := (sortStrings_perm keys).nodup_iff.mpr hnd
  have := hs.and hn
  refine this.imp ?_
  intro a b hab
  obtain ⟨hle, hne⟩ := hab
  by_contra hlt
  have hlt : strLess a b = false := by simpa using hlt
  simp only [strLe, Bool.not_eq_true'] at hle
  exact hne (strLess_connex a b hlt hle)

/-! ## Map lookups and the signing string -/

theorem rangeKeys_eq (p : ParamSet) : rangeKeys p = p.entries.map Prod.fst := by
  unfold rangeKeys
  suffices h : ∀ (l : List (GoString × GoString)) (acc : List GoString),
      l.foldl (fun keys e => keys ++ [e.1]) acc = acc ++ l.map Prod.fst by
    simpa using h p.entries []
  intro l
  induction l with
  | nil => intro acc; simp
  | cons e es ih => intro acc; simp [ih]

theorem foldl_append_flatMap (f : GoString → GoString) (ks : List GoString) (init : GoString) :
    ks.foldl (fun qs k => qs ++ k ++ f k) init = init ++ ks.flatMap (fun k => k ++ f k) := by
  induction ks generalizing init with
  | nil => simp
  | cons k ks ih => rw [List.foldl_cons, ih, List.flatMap_cons]; simp [List.append_assoc]

theorem signingString_eq (c : Client) (p : ParamSet) (ts : Int) :
    signingString c p ts = formatInt ts ++ c.APIKey ++
      (sortStrings (p.entries.map Prod.fst)).flatMap (fun k => k ++ p.get k) := by
  unfold signingString
  rw [foldl_append_flatMap, rangeKeys_eq]

theorem lookup_of_mem : ∀ (l : List (GoString × GoString)), (l.map Prod.fst).Nodup →
    ∀ k v, (k, v) ∈ l → l.lookup k = some v
  | [], _, _, _, h => by simp at h
  | (k0, v0) :: es, hnd, k, v, h => by
    simp only [List.map_cons, List.nodup_cons] at hnd
    rcases List.mem_cons.mp h with heq | hmem
    · cases heq
      simp [List.lookup]
    · have hne : k ≠ k0 := by
        rintro rfl
        exact hnd.1 (List.mem_map_of_mem Prod.fst hmem)
      have hb : (k == k0) = false := by simpa using hne
      simp only [List.lookup, hb]
      exact lookup_of_mem es hnd.2 k v hmem

theorem lookup_none_of_not_mem : ∀ (l : List (GoString × GoString)) (k : GoString),
    k ∉ l.map Prod.fst → l.lookup k = none
  | [], _, _ => rfl
  | (k0, v0) :: es, k, h => by
    simp only [List.map_cons, List.mem_cons, not_or] at h
    have hb : (k == k0) = false := by simpa using h.1
    simp only [List.lookup, hb]
    exact lookup_none_of_not_mem es k h.2

theorem ParamSet.get_of_mem (p : ParamSet) {k v : GoString} (h : (k, v) ∈ p.entries) :
    p.get k = v := by
  simp [ParamSet.get, lookup_of_mem p.entries p.nodup k v h]

theorem ParamSet.mem_of_key (p : ParamSet) {k : GoString} (h : k ∈ p.entries.map Prod.fst) :
    (k, p.get k) ∈ p.entries := by
  obtain ⟨⟨k1, v1⟩, hmem, rfl⟩ := List.mem_map.mp h
  rw [p.get_of_mem hmem]
  exact hmem

theorem ParamSet.get_eq_of_perm {p q : ParamSet} (h : p.entries.Perm q.entries) (k : GoString) :
    p.get k = q.get k := by
  by_cases hk : k ∈ p.entries.map Prod.fst
  · have h1 := p.mem_of_key hk
    exact (q.get_of_mem (h.subset h1)).symm
  · have hk2 : k ∉ q.entries.map Prod.fst := fun hq => hk ((h.map Prod.fst).symm.subset hq)
    simp [ParamSet.get, lookup_none_of_not_mem _ _ hk, lookup_none_of_not_mem _ _ hk2]

theorem ParamSet.entries_eq_map (p : ParamSet) :
    (p.entries.map Prod.fst).map (fun k => (k, p.get k)) = p.entries := by
  rw [List.map_map]
  conv_rhs => rw [← List.map_id p.entries]
  apply List.map_congr_left
  intro e he
  obtain ⟨k, v⟩ := e
  simp [p.get_of_mem he]

/-- The entries of the map listed by ascending key. -/
theorem sortedEntries_perm (p : ParamSet) :
    ((sortStrings (p.entries.map Prod.fst)).map (fun k => (k, p.get k))).Perm p.entries := by
  have h := (sortStrings_perm (p.entries.map Prod.fst)).map (fun k => (k, p.get k))
  rwa [p.entries_eq_map] at h

theorem signingString_perm (c : Client) {p q : ParamSet} (h : p.entries.Perm q.entries)
    (ts : Int) : signingString c p ts = signingString c q ts := by
  rw [signingString_eq, signingString_eq, sortStrings_eq_of_perm (h.map Prod.fst)]
  congr 1
  apply List.flatMap_congr
  intro k _
  rw [ParamSet.get_eq_of_perm h k]

/-! ## Decimal rendering -/

theorem formatNatAux_append (fuel n : Nat) (acc : List Byte) :
    formatNatAux fuel n acc = formatNatAux fuel n [] ++ acc := by
  induction fuel generalizing n acc with
  | zero => simp [formatNatAux]
  | succ fuel ih =>
    simp only [formatNatAux]
    split
    · simp
    · rw [ih (n / 10) (digitByte n :: acc), ih (n / 10) [digitByte n]]
      simp

theorem decimalValue_append_single (s : List Byte) (d : Byte) :
    decimalValue (s ++ [d]) = 10 * decimalValue s + (d.val - 48) := by
  simp [decimalValue, List.foldl_append]

theorem digitByte_val (n : Nat) : (digitByte n).val = 48 + n % 10 := by
  simp only [digitByte, byteOfNat]
  omega

theorem decimalValue_formatNatAux (fuel n : Nat) (h : n < fuel) :
    decimalValue (formatNatAux fuel n []) = n := by
  induction fuel generalizing n with
  | zero => omega
  | succ fuel ih =>
    simp only [formatNatAux]
    split
    · simp only [decimalValue, List.foldl_cons, List.foldl_nil, digitByte_val]
      omega
    · rw [formatNatAux_append, decimalValue_append_single, ih (n / 10) (by omega), digitByte_val]
      omega

theorem formatNatAux_digits (fuel n : Nat) (acc : List Byte) :
    ∀ b ∈ formatNatAux fuel n acc, b ∈ acc ∨ (48 ≤ b.val ∧ b.val ≤ 57) := by
  induction fuel generalizing n acc with
  | zero => intro b hb; left; simpa [formatNatAux] using hb
  | succ fuel ih =>
    intro b hb
    simp only [formatNatAux] at hb
    split at hb
    · rcases List.mem_cons.mp hb with rfl | hb
      · right; rw [digitByte_val]; omega
      · left; exact hb
    · rcases ih _ _ b hb with hb | hb
      · rcases List.mem_cons.mp hb with rfl | hb
        · right; rw [digitByte_val]; omega
        · left; exact hb
      · right; exact hb

theorem formatNat_ne_nil (n : Nat) : formatNat n ≠ [] := by
  simp only [formatNat, formatNatAux]
  split
  · simp
  · rw [formatNatAux_append]; simp

theorem decimalValue_formatNat (n : Nat) : decimalValue (formatNat n) = n :=
  decimalValue_formatNatAux (n + 1) n (by omega)

theorem parseInt_formatNat (n : Nat) : parseInt (formatNat n) = (n : Int) := by
  have hne := formatNat_ne_nil n
  have hd := formatNatAux_digits (n + 1) n []
  have hv := decimalValue_formatNat n
  unfold formatNat at hne hd hv ⊢
  cases hf : formatNatAux (n + 1) n [] with
  | nil => exact absurd hf hne
  | cons b rest =>
    rw [hf] at hd hv
    have hb := hd b (List.mem_cons_self _ _)
    simp only [List.not_mem_nil, false_or] at hb
    have h45 : b.val ≠ 45 := by omega
    simp only [parseInt, h45, if_false, hv]

/-- Reading back what `strconv.FormatInt(i, 10)` rendered gives `i`. -/
theorem parseInt_formatInt (i : Int) : parseInt (formatInt i) = i := by
  unfold formatInt
  split
  · have h45 : (byteOfNat 45).val = 45 := by decide
    simp only [parseInt, h45, if_true, decimalValue_formatNat]
    omega
  · rw [parseInt_formatNat]
    omega

theorem formatInt_injective : Function.Injective formatInt := by
  intro a b h
  have := congrArg parseInt h
  simpa [parseInt_formatInt] using this

/-! ## Digest and hexadecimal rendering -/

theorem sha256_length (msg : List Byte) : (sha256 msg).length = 32 := by
  simp [sha256, be32]

theorem hmacSha256_length (key msg : List Byte) : (hmacSha256 key msg).length = 32 := by
  simp [hmacSha256, sha256_length]

theorem hexEncode_length (bs : List Byte) : (hexEncode bs).length = 2 * bs.length := by
  induction bs with
  | nil => rfl
  | cons b bs ih =>
    simp only [hexEncode, List.flatMap_cons, List.length_append, List.length_cons,
      List.length_nil] at ih ⊢
    omega

theorem hextable_getD_mem : ∀ n : Fin 16, hextable.getD n.val 0 ∈ hextable := by decide

theorem hexEncode_digits (bs : List Byte) : ∀ b ∈ hexEncode bs, b ∈ hextable := by
  intro b hb
  simp only [hexEncode, List.mem_flatMap, List.mem_cons, List.mem_singleton,
    List.not_mem_nil, or_false] at hb
  obtain ⟨v, _, hv | hv⟩ := hb
  · have := hextable_getD_mem ⟨v.val / 16, by omega⟩
    rw [hv]; exact this
  · have := hextable_getD_mem ⟨v.val % 16, by omega⟩
    rw [hv]; exact this

theorem hexDigitValue_getD : ∀ n : Fin 16, hexDigitValue (hextable.getD n.val 0) = n.val := by
  decide

theorem hexEncode_cons (b : Byte) (bs : List Byte) :
    hexEncode (b :: bs) =
      hextable.getD (b.val / 16) 0 :: hextable.getD (b.val % 16) 0 :: hexEncode bs := by
  simp [hexEncode]

theorem hexDecode_hexEncode (bs : List Byte) : hexDecode (hexEncode bs) = bs := by
  induction bs with
  | nil => rfl
  | cons b bs ih =>
    have h1 := hexDigitValue_getD ⟨b.val / 16, by omega⟩
    have h2 := hexDigitValue_getD ⟨b.val % 16, by omega⟩
    simp only at h1 h2
    rw [hexEncode_cons, hexDecode, ih, h1, h2]
    congr 1
    apply Fin.ext
    simp only [byteOfNat]
    omega

theorem hexEncode_injective : Function.Injective hexEncode := by
  intro a b h
  have := congrArg hexDecode h
  simpa [hexDecode_hexEncode] using this

theorem generateSignature_eq_iff (c1 c2 : Client) (p1 p2 : ParamSet) (t1 t2 : Int) :
    generateSignature c1 p1 t1 = generateSignature c2 p2 t2 ↔
      hmacSha256 c1.APISecret (signingString c1 p1 t1) =
        hmacSha256 c2.APISecret (signingString c2 p2 t2) :=
  ⟨fun h => hexEncode_injective h, fun h => congrArg hexEncode h⟩

/-! ## `generateSignature` -/

set_option maxRecDepth 100000 in
/-- The model of `generateSignature` agrees with an independently computed HMAC-SHA256
on `1700000000000 ++ key ++ categoryspot ++ symbolBTCUSDT` under the secret `secret`. -/
theorem generateSignature_demo :
    generateSignature demoClient demoParams 1700000000000 =
      str "90b988daebafc6518dc7054d38cee01305ff4c8a6d7a9113a380577db73775eb" := by
  decide

/-- C1: for every parameter set, API key, secret and timestamp, `generateSignature` is a
total function whose result is the lowercase hex rendering, 64 characters out of
`0123456789abcdef`, of HMAC-SHA256 keyed by the secret over
`decimal(timestamp) ++ apiKey ++` the entries by strictly ascending key, each entry
contributing `key ++ value` with no separator; the decimal part reads back as the timestamp. -/
theorem generateSignature_spec (c : Client) (params : ParamSet) (timestamp : Int) :
    ∃ es : List (GoString × GoString),
      es.Perm params.entries ∧
      es.Pairwise (fun x y => strLess x.1 y.1 = true) ∧
      generateSignature c params timestamp =
        hexEncode (hmacSha256 c.APISecret
          (formatInt timestamp ++ c.APIKey ++ es.flatMap (fun e => e.1 ++ e.2))) ∧
      parseInt (formatInt timestamp) = timestamp ∧
      (generateSignature c params timestamp).length = 64 ∧
      ∀ b ∈ generateSignature c params timestamp, b ∈ str "0123456789abcdef" := by
  refine ⟨(sortStrings (params.entries.map Prod.fst)).map (fun k => (k, params.get k)),
    sortedEntries_perm params, ?_, ?_, parseInt_formatInt timestamp, ?_, ?_⟩
  · rw [List.pairwise_map]
    exact sortStrings_strict params.nodup
  · unfold generateSignature
    rw [signingString_eq, List.flatMap_map]
  · unfold generateSignature
    rw [hexEncode_length, hmacSha256_length]
  · intro b hb
    exact hexEncode_digits _ b hb

/-- C2: two parameter sets holding the same key/value pairs, whatever the order in which
they were built or are visited, get the same signature under the same client and timestamp. -/
theorem generateSignature_perm (c : Client) (p q : ParamSet) (timestamp : Int)
    (h : p.entries.Perm q.entries) :
    generateSignature c p timestamp = generateSignature c q timestamp := by
  unfold generateSignature
  rw [signingString_perm c h timestamp]

/-- The two visiting orders of the demonstration map sign alike. -/
theorem generateSignature_perm_witness :
    demoParams.entries.Perm demoParamsSwapped.entries ∧
      generateSignature demoClient demoParams 1700000000000 =
        generateSignature demoClient demoParamsSwapped 1700000000000 :=
  ⟨List.Perm.swap _ _ _,
   generateSignature_perm demoClient demoParams demoParamsSwapped 1700000000000
    (List.Perm.swap _ _ _)⟩

/-! ## Sensitivity of the signing string -/

theorem flatMap_value_cancel (f g : GoString → GoString) (k : GoString) :
    ∀ ks : List GoString, ks.Nodup → k ∈ ks → (∀ x ∈ ks, x ≠ k → f x = g x) →
      ks.flatMap (fun x => x ++ f x) = ks.flatMap (fun x => x ++ g x) → f k = g k
  | [], _, hk, _, _ => by simp at hk
  | x :: xs, hnd, hk, hfg, heq => by
    simp only [List.nodup_cons] at hnd
    simp only [List.flatMap_cons, List.append_assoc] at heq
    have heq := List.append_cancel_left heq
    by_cases hx : x = k
    · subst hx
      have hrest : xs.flatMap (fun y => y ++ f y) = xs.flatMap (fun y => y ++ g y) := by
        apply List.flatMap_congr
        intro y hy
        have hne : y ≠ x := fun h => hnd.1 (h ▸ hy)
        rw [hfg y (List.mem_cons_of_mem _ hy) hne]
      rw [hrest] at heq
      exact List.append_cancel_right heq
    · rw [hfg x (List.mem_cons_self _ _) hx] at heq
      have heq := List.append_cancel_left heq
      have hk2 : k ∈ xs := by
        rcases List.mem_cons.mp hk with h | h
        · exact absurd h.symm hx
        · exact h
      exact flatMap_value_cancel f g k xs hnd.2 hk2
        (fun y hy hne => hfg y (List.mem_cons_of_mem _ hy) hne) heq

/-- C3 (as amended): changing the value of one existing parameter, or only the API key, or
only the timestamp, changes the byte string that `generateSignature` hands to the HMAC;
two signatures are equal exactly when the two HMAC-SHA256 digests are. -/
theorem signingString_sensitive (c : Client) (p : ParamSet) (timestamp : Int) :
    (∀ (q : ParamSet) (k : GoString), k ∈ p.entries.map Prod.fst →
        (q.entries.map Prod.fst).Perm (p.entries.map Prod.fst) →
        (∀ x, x ≠ k → q.get x = p.get x) → q.get k ≠ p.get k →
        signingString c q timestamp ≠ signingString c p timestamp) ∧
    (∀ c2 : Client, c2.APIKey ≠ c.APIKey →
        signingString c2 p timestamp ≠ signingString c p timestamp) ∧
    (∀ t2 : Int, t2 ≠ timestamp → signingString c p t2 ≠ signingString c p timestamp) ∧
    (∀ (c2 : Client) (q : ParamSet) (t2 : Int),
        generateSignature c2 q t2 = generateSignature c p timestamp ↔
          hmacSha256 c2.APISecret (signingString c2 q t2) =
            hmacSha256 c.APISecret (signingString c p timestamp)) := by
  refine ⟨?_, ?_, ?_, fun c2 q t2 => generateSignature_eq_iff c2 c q p t2 timestamp⟩
  · intro q k hk hperm hsame hdiff heq
    rw [signingString_eq, signingString_eq, sortStrings_eq_of_perm hperm] at heq
    have heq := List.append_cancel_left heq
    apply hdiff
    refine flatMap_value_cancel q.get p.get k (sortStrings (p.entries.map Prod.fst)) ?_ ?_ ?_ heq
    · exact (sortStrings_perm _).nodup_iff.mpr p.nodup
    · exact (sortStrings_perm _).mem_iff.mpr hk
    · intro x _ hx
      exact hsame x hx
  · intro c2 hkey heq
    rw [signingString_eq, signingString_eq] at heq
    have heq := List.append_cancel_right heq
    exact hkey (List.append_cancel_left heq)
  · intro t2 ht heq
    rw [signingString_eq, signingString_eq, List.append_assoc, List.append_assoc] at heq
    exact ht (formatInt_injective (List.append_cancel_right heq))

/-- On the demonstration input each of the three single changes alters the signing string. -/
theorem signingString_sensitive_witness :
    signingString demoClient demoParamsChanged 1700000000000 ≠
        signingString demoClient demoParams 1700000000000 ∧
      signingString (NewClient (str "other") (str "secret")) demoParams 1700000000000 ≠
        signingString demoClient demoParams 1700000000000 ∧
      signingString demoClient demoParams 1700000000001 ≠
        signingString demoClient demoParams 1700000000000 :=
  ⟨(signingString_sensitive demoClient demoParams 1700000000000).1 demoParamsChanged
      (str "symbol") (by decide) (List.Perm.refl _)
      (by
        intro x hx
        have hb : (x == str "symbol") = false := by simpa using hx
        simp [ParamSet.get, demoParamsChanged, demoParams, List.lookup, hb])
      (by decide),
   (signingString_sensitive demoClient demoParams 1700000000000).2.1
      (NewClient (str "other") (str "secret")) (by decide),
   (signingString_sensitive demoClient demoParams 1700000000000).2.2.1 1700000000001
      (by decide)⟩

/-- C3 (as stated) fails: the signature takes at most `256 ^ 32` values, so it cannot be
different for every two different values of a parameter. -/
theorem generateSignature_value_collision :
    ¬ ∀ v1 v2 : GoString, v1 ≠ v2 →
      generateSignature demoClient (ParamSet.single (str "symbol") v1) 1700000000000 ≠
        generateSignature demoClient (ParamSet.single (str "symbol") v2) 1700000000000 := by
  intro h
  let g : GoString → Mathlib.Vector Byte 32 := fun v =>
    ⟨hmacSha256 demoClient.APISecret
      (signingString demoClient (ParamSet.single (str "symbol") v) 1700000000000),
     hmacSha256_length _ _⟩
  have hinj : Function.Injective g := by
    intro v1 v2 hg
    by_contra hne
    exact h v1 v2 hne (congrArg hexEncode (congrArg Subtype.val hg))
  exact not_injective_infinite_finite g hinj

/-! ## The secret -/

theorem hmacSha256_blockKey (s1 s2 msg : List Byte) (h : hmacBlockKey s1 = hmacBlockKey s2) :
    hmacSha256 s1 msg = hmacSha256 s2 msg := by
  simp only [hmacSha256, h]

theorem hmacBlockKey_zeros (s : List Byte) (n : Nat) (h : s.length + n ≤ 64) :
    hmacBlockKey (s ++ List.replicate n 0) = hmacBlockKey s := by
  have h1 : ¬ (s.length + n > 64) := by omega
  have h2 : ¬ s.length > 64 := by omega
  simp only [hmacBlockKey, List.length_append, List.length_replicate, h1, h2, if_false,
    List.append_assoc]
  rw [← List.replicate_add]
  congr 2
  omega

/-- C4 (as stated) fails: the secrets `"a"` and `"a\x00"` differ and sign alike. -/
theorem generateSignature_secret_collision :
    str "a" ≠ str "a" ++ [0] ∧
      generateSignature (NewClient (str "key") (str "a")) demoParams 1700000000000 =
        generateSignature (NewClient (str "key") (str "a" ++ [0])) demoParams 1700000000000 := by
  refine ⟨by decide, ?_⟩
  have hk : hmacBlockKey (str "a" ++ [0]) = hmacBlockKey (str "a") :=
    hmacBlockKey_zeros (str "a") 1 (by decide)
  show hexEncode (hmacSha256 (str "a") _) = hexEncode (hmacSha256 (str "a" ++ [0]) _)
  rw [hmacSha256_blockKey _ _ _ hk]
  rfl

/-- C4 (as amended): under one parameter set, API key and timestamp, the signatures for two
secrets differ exactly when the HMAC-SHA256 digests of the signing string under the two
secrets differ; secrets with the same 64-byte HMAC block key, such as a secret and the same
secret followed by zero bytes within 64 bytes, give the same signature. -/
theorem generateSignature_secret (c : Client) (p : ParamSet) (timestamp : Int)
    (s1 s2 : GoString) :
    (generateSignature { c with APISecret := s1 } p timestamp ≠
        generateSignature { c with APISecret := s2 } p timestamp ↔
      hmacSha256 s1 (signingString c p timestamp) ≠
        hmacSha256 s2 (signingString c p timestamp)) ∧
    (hmacBlockKey s1 = hmacBlockKey s2 →
      generateSignature { c with APISecret := s1 } p timestamp =
        generateSignature { c with APISecret := s2 } p timestamp) ∧
    (∀ n : Nat, s1.length + n ≤ 64 →
      generateSignature { c with APISecret := s1 ++ List.replicate n 0 } p timestamp =
        generateSignature { c with APISecret := s1 } p timestamp) := by
  have hiff := generateSignature_eq_iff { c with APISecret := s1 } { c with APISecret := s2 }
    p p timestamp timestamp
  refine ⟨not_congr hiff, fun hk => ?_, fun n hn => ?_⟩
  · exact hiff.mpr (hmacSha256_blockKey s1 s2 _ hk)
  · exact (generateSignature_eq_iff _ _ p p timestamp timestamp).mpr
      (hmacSha256_blockKey _ _ _ (hmacBlockKey_zeros s1 n hn))

/-- The secrets `"k"` and `"k\x00"` have one block key and sign alike. -/
theorem generateSignature_secret_witness :
    hmacBlockKey (str "k") = hmacBlockKey (str "k" ++ [0]) ∧
      generateSignature { demoClient with APISecret := str "k" } demoParams 5 =
        generateSignature { demoClient with APISecret := str "k" ++ [0] } demoParams 5 :=
  ⟨by decide,
   (generateSignature_secret demoClient demoParams 5 (str "k") (str "k" ++ [0])).2.1
    (by decide)⟩

/-! ## Headers -/

theorem lookup_filter_ne_self (h : Header) (k : GoString) :
    (h.filter (fun e => e.1 != k)).lookup k = none := by
  induction h with
  | nil => rfl
  | cons e es ih =>
    obtain ⟨k0, v0⟩ := e
    by_cases hk : k0 = k
    · have hc : (k0 != k) = false := by simpa using hk
      simp only [List.filter_cons, hc]
      exact ih
    · have hc : (k0 != k) = true := by simpa using hk
      have hb : (k == k0) = false := by simpa using fun h => hk h.symm
      simp only [List.filter_cons, hc, if_true, List.lookup, hb]
      exact ih

theorem lookup_filter_ne_other (h : Header) (k k2 : GoString) (hne : k2 ≠ k) :
    (h.filter (fun e => e.1 != k)).lookup k2 = h.lookup k2 := by
  induction h with
  | nil => rfl
  | cons e es ih =>
    obtain ⟨k0, v0⟩ := e
    by_cases hk : k0 = k
    · have hc : (k0 != k) = false := by simpa using hk
      have hb : (k2 == k0) = false := by simpa [hk] using hne
      simp only [List.filter_cons, hc, List.lookup, hb]
      exact ih
    · have hc : (k0 != k) = true := by simpa using hk
      simp only [List.filter_cons, hc, if_true]
      by_cases hk2 : k2 = k0
      · subst hk2; simp [List.lookup]
      · have hb : (k2 == k0) = false := by simpa using hk2
        simp only [List.lookup, hb]
        exact ih

theorem lookup_append (l1 l2 : Header) (k : GoString) :
    (l1 ++ l2).lookup k = (l1.lookup k).orElse (fun _ => l2.lookup k) := by
  induction l1 with
  | nil => simp [List.lookup]
  | cons e es ih =>
    obtain ⟨k0, v0⟩ := e
    by_cases hk : k = k0
    · subst hk; simp [List.lookup]
    · have hb : (k == k0) = false := by simpa using hk
      simp [List.lookup, hb, ih]

theorem Header.get_set_self (h : Header) (key value : GoString) :
    (h.set key value).get key = some value := by
  simp [Header.get, Header.set, lookup_append, lookup_filter_ne_self, List.lookup]

theorem Header.get_set_other (h : Header) (key key2 value : GoString)
    (hne : canonicalMIMEHeaderKey key2 ≠ canonicalMIMEHeaderKey key) :
    (h.set key value).get key2 = h.get key2 := by
  have hb : (canonicalMIMEHeaderKey key2 == canonicalMIMEHeaderKey key) = false := by
    simpa using hne
  simp only [Header.get, Header.set, lookup_append, lookup_filter_ne_other _ _ _ hne,
    List.lookup, hb]
  cases h.lookup (canonicalMIMEHeaderKey key2) <;> rfl

/-! ## The shape of `sendRequest` -/

theorem sendRequest_sent (env : Env) (c : Client) (method endpoint : GoString)
    (params : ParamSet) (auth : Bool) :
    (sendRequest env c method endpoint params auth).sent =
      match buildRequest env c method endpoint params with
      | Except.error _ => []
      | Except.ok req0 => [addAuth env c params auth req0] := by
  unfold sendRequest
  cases buildRequest env c method endpoint params with
  | error e => rfl
  | ok req0 =>
    simp only
    cases env.roundTrip (addAuth env c params auth req0) with
    | failed e => rfl
    | unreadable s e => rfl
    | response status body => by_cases hs : status = 200 <;> simp [hs]

theorem mem_sent_iff (env : Env) (c : Client) (method endpoint : GoString)
    (params : ParamSet) (auth : Bool) (r : Request) :
    r ∈ (sendRequest env c method endpoint params auth).sent ↔
      ∃ req0, buildRequest env c method endpoint params = Except.ok req0 ∧
        r = addAuth env c params auth req0 := by
  rw [sendRequest_sent]
  cases buildRequest env c method endpoint params with
  | error e => simp
  | ok req0 => simp

theorem buildRequest_get (env : Env) (c : Client) (endpoint : GoString) (params : ParamSet)
    (req0 : Request) (h : buildRequest env c (str "GET") endpoint params = Except.ok req0) :
    req0.body = none ∧ req0.header = [] ∧
      req0.url = apiURL c endpoint ++
        (if params.len > 0 then str "?" ++ (queryParams params).encode else []) := by
  simp only [buildRequest, if_true, newRequest] at h
  split at h
  · cases h
  · cases h
    refine ⟨rfl, rfl, ?_⟩
    by_cases hp : params.len > 0 <;> simp [hp]

theorem buildRequest_other (env : Env) (c : Client) (method endpoint : GoString)
    (params : ParamSet) (req0 : Request) (hm : method ≠ str "GET")
    (h : buildRequest env c method endpoint params = Except.ok req0) :
    req0.body = some (jsonMarshal params) ∧
      req0.header = [(str "Content-Type", str "application/json")] ∧
      req0.url = apiURL c endpoint := by
  simp only [buildRequest, hm, if_false, newRequest] at h
  split at h
  · cases h
  · rename_i req hreq
    split at hreq
    · cases hreq
    · cases hreq
      cases h
      refine ⟨rfl, ?_, rfl⟩
      show Header.set [] (str "Content-Type") (str "application/json") = _
      decide

theorem buildRequest_header (env : Env) (c : Client) (method endpoint : GoString)
    (params : ParamSet) (req0 : Request)
    (h : buildRequest env c method endpoint params = Except.ok req0) :
    req0.header = [] ∨ req0.header = [(str "Content-Type", str "application/json")] := by
  by_cases hm : method = str "GET"
  · subst hm
    exact Or.inl (buildRequest_get env c endpoint params req0 h).2.1
  · exact Or.inr (buildRequest_other env c method endpoint params req0 hm h).2.1

theorem buildRequest_client (env : Env) (c c2 : Client) (method endpoint : GoString)
    (params : ParamSet) (hb : c2.BaseURL = c.BaseURL) :
    buildRequest env c2 method endpoint params = buildRequest env c method endpoint params := by
  simp only [buildRequest, apiURL, hb]

/-! ## Authentication headers -/

theorem addAuth_true_headers (env : Env) (c : Client) (params : ParamSet) (req0 : Request) :
    (addAuth env c params true req0).header.get (str "X-BAPI-API-KEY") = some c.APIKey ∧
    (addAuth env c params true req0).header.get (str "X-BAPI-TIMESTAMP") =
      some (formatInt env.now) ∧
    (addAuth env c params true req0).header.get (str "X-BAPI-SIGN") =
      some (generateSignature c params env.now) ∧
    (addAuth env c params true req0).url = req0.url ∧
    (addAuth env c params true req0).body = req0.body ∧
    (addAuth env c params true req0).method = req0.method := by
  simp only [addAuth, if_true]
  refine ⟨?_, ?_, Header.get_set_self _ _ _, trivial, trivial, trivial⟩
  · rw [Header.get_set_other _ _ _ _ (by decide), Header.get_set_other _ _ _ _ (by decide)]
    exact Header.get_set_self _ _ _
  · rw [Header.get_set_other _ _ _ _ (by decide)]
    exact Header.get_set_self _ _ _

theorem addAuth_false (env : Env) (c : Client) (params : ParamSet) (req0 : Request) :
    addAuth env c params false req0 = req0 := by
  simp [addAuth]

theorem no_auth_headers (h : Header)
    (hh : h = [] ∨ h = [(str "Content-Type", str "application/json")]) :
    h.get (str "X-BAPI-API-KEY") = none ∧ h.get (str "X-BAPI-TIMESTAMP") = none ∧
      h.get (str "X-BAPI-SIGN") = none := by
  rcases hh with rfl | rfl <;> decide

/-- C6: on every request `sendRequest` hands to the transport, each of the headers
`X-BAPI-API-KEY`, `X-BAPI-TIMESTAMP`, `X-BAPI-SIGN` is present exactly when `auth` is true;
and with `auth` false the whole behaviour of the call is the same for every API key and
secret, so nothing derived from either is transmitted. -/
theorem sendRequest_auth_headers_iff (env : Env) (c : Client) (method endpoint : GoString)
    (params : ParamSet) (auth : Bool) (r : Request)
    (h : r ∈ (sendRequest env c method endpoint params auth).sent) :
    ((r.header.get (str "X-BAPI-API-KEY")).isSome = true ↔ auth = true) ∧
    ((r.header.get (str "X-BAPI-TIMESTAMP")).isSome = true ↔ auth = true) ∧
    ((r.header.get (str "X-BAPI-SIGN")).isSome = true ↔ auth = true) ∧
    (auth = false → ∀ key secret : GoString,
      sendRequest env { c with APIKey := key, APISecret := secret } method endpoint params false
        = sendRequest env c method endpoint params false) := by
  obtain ⟨req0, hb, rfl⟩ := (mem_sent_iff env c method endpoint params auth r).mp h
  have hlast : ∀ key secret : GoString,
      sendRequest env { c with APIKey := key, APISecret := secret } method endpoint params false
        = sendRequest env c method endpoint params false := by
    intro key secret
    simp only [sendRequest, addAuth_false]
    rw [buildRequest_client env c { c with APIKey := key, APISecret := secret } method endpoint
      params rfl]
  cases auth with
  | true =>
    obtain ⟨h1, h2, h3, _⟩ := addAuth_true_headers env c params req0
    simp [h1, h2, h3]
  | false =>
    rw [addAuth_false]
    obtain ⟨h1, h2, h3⟩ :=
      no_auth_headers req0.header (buildRequest_header env c method endpoint params req0 hb)
    simp [h1, h2, h3, hlast]

/-- A public GET of the demonstration map carries no `X-BAPI-SIGN` header. -/
theorem sendRequest_auth_headers_iff_witness :
    ∃ r, r ∈ (sendRequest (fixedEnv 1700000000000 200 (str "ok")) demoClient (str "GET")
        (str "market/tickers") demoParams false).sent ∧
      ((r.header.get (str "X-BAPI-SIGN")).isSome = true ↔ false = true) :=
  ⟨_, List.mem_singleton_self _,
   (sendRequest_auth_headers_iff (fixedEnv 1700000000000 200 (str "ok")) demoClient (str "GET")
      (str "market/tickers") demoParams false _ (List.mem_singleton_self _)).2.2.1⟩

/-! ## The response -/

theorem sendRequest_response (env : Env) (c : Client) (method endpoint : GoString)
    (params : ParamSet) (auth : Bool) (req : Request) (status : Int) (body : List Byte)
    (hsent : (sendRequest env c method endpoint params auth).sent = [req])
    (hresp : env.roundTrip req = TransportResult.response status body) :
    sendRequest env c method endpoint params auth =
      if status ≠ 200 then { sent := [req], body := none, err := some (statusError body status) }
      else { sent := [req], body := some body, err := none } := by
  rw [sendRequest_sent] at hsent
  unfold sendRequest
  cases hb : buildRequest env c method endpoint params with
  | error e => rw [hb] at hsent; simp at hsent
  | ok req0 =>
    rw [hb] at hsent
    simp only [List.cons.injEq, and_true] at hsent
    simp only [hsent, hresp]

/-- C9: when the transport answers with a status code outside 200–299 and a body,
`sendRequest` returns no bytes and the error `API错误: <body>, 状态码: <status>`, whose text
holds the raw body and the decimal status code; the body is used as it came. -/
theorem sendRequest_non2xx (env : Env) (c : Client) (method endpoint : GoString)
    (params : ParamSet) (auth : Bool) (req : Request) (status : Int) (body : List Byte)
    (hsent : (sendRequest env c method endpoint params auth).sent = [req])
    (hresp : env.roundTrip req = TransportResult.response status body)
    (hstatus : ¬ (200 ≤ status ∧ status ≤ 299)) :
    (sendRequest env c method endpoint params auth).body = none ∧
    (sendRequest env c method endpoint params auth).err =
      some { text := str "API错误: " ++ body ++ str ", 状态码: " ++ formatInt status } ∧
    (∀ e, (sendRequest env c method endpoint params auth).err = some e →
      (∃ s t, e.text = s ++ body ++ t) ∧ (∃ s t, e.text = s ++ formatInt status ++ t)) ∧
    parseInt (formatInt status) = status := by
  have hne : status ≠ 200 := by omega
  rw [sendRequest_response env c method endpoint params auth req status body hsent hresp]
  simp only [hne, ne_eq, not_false_eq_true, if_true, statusError]
  refine ⟨trivial, trivial, ?_, parseInt_formatInt status⟩
  intro e he
  cases he
  exact ⟨⟨str "API错误: ", str ", 状态码: " ++ formatInt status, by simp⟩,
    ⟨str "API错误: " ++ body ++ str ", 状态码: ", [], by simp⟩⟩

/-- Status 500 with body `boom` gives no bytes and the error `API错误: boom, 状态码: 500`. -/
theorem sendRequest_non2xx_witness :
    (sendRequest (fixedEnv 0 500 (str "boom")) demoClient (str "GET") (str "market/time")
        emptyParams false).body = none ∧
      (sendRequest (fixedEnv 0 500 (str "boom")) demoClient (str "GET") (str "market/time")
        emptyParams false).err = some { text := str "API错误: boom, 状态码: 500" } :=
  ⟨(sendRequest_non2xx (fixedEnv 0 500 (str "boom")) demoClient (str "GET") (str "market/time")
      emptyParams false
      { method := str "GET", url := str "https://api.bybit.com/v5/market/time", body := none,
        header := [] } 500 (str "boom") (by decide) (by decide) (by decide)).1,
   by decide⟩

/-- C10 (as stated) fails: a response with status 201 is in 200–299, yet `sendRequest`
returns no bytes and an error. -/
theorem sendRequest_201_fails :
    (200 : Int) ≤ 201 ∧ (201 : Int) ≤ 299 ∧
      (sendRequest (fixedEnv 0 201 (str "created")) demoClient (str "POST") (str "order/create")
        demoParams false).body = none ∧
      (sendRequest (fixedEnv 0 201 (str "created")) demoClient (str "POST") (str "order/create")
        demoParams false).err = some { text := str "API错误: created, 状态码: 201" } := by
  decide

/-- C10 (as amended): when the transport answers with status code exactly 200,
`sendRequest` returns the response body bytes as they came, with a nil error; every other
status code, 201–299 included, gives no bytes and the status error. -/
theorem sendRequest_status (env : Env) (c : Client) (method endpoint : GoString)
    (params : ParamSet) (auth : Bool) (req : Request) (status : Int) (body : List Byte)
    (hsent : (sendRequest env c method endpoint params auth).sent = [req])
    (hresp : env.roundTrip req = TransportResult.response status body) :
    (status = 200 →
      (sendRequest env c method endpoint params auth).body = some body ∧
      (sendRequest env c method endpoint params auth).err = none) ∧
    (status ≠ 200 →
      (sendRequest env c method endpoint params auth).body = none ∧
      (sendRequest env c method endpoint params auth).err = some (statusError body status)) := by
  rw [sendRequest_response env c method endpoint params auth req status body hsent hresp]
  constructor
  · intro hs; simp [hs]
  · intro hs; simp [hs]

/-- Status 200 with body `ok` gives the bytes `ok` and no error. -/
theorem sendRequest_status_witness :
    (sendRequest (fixedEnv 0 200 (str "ok")) demoClient (str "GET") (str "market/time")
        emptyParams false).body = some (str "ok") ∧
      (sendRequest (fixedEnv 0 200 (str "ok")) demoClient (str "GET") (str "market/time")
        emptyParams false).err = none :=
  (sendRequest_status (fixedEnv 0 200 (str "ok")) demoClient (str "GET") (str "market/time")
      emptyParams false
      { method := str "GET", url := str "https://api.bybit.com/v5/market/time", body := none,
        header := [] } 200 (str "ok") (by decide) (by decide)).1 rfl

/-! ## Query escaping and its inverse -/

theorem upperhex_getD_safe : ∀ n : Fin 16,
    upperhex.getD n.val 0 ≠ ch '&' ∧ upperhex.getD n.val 0 ≠ ch '=' ∧
      upperhex.getD n.val 0 ≠ ch ';' ∧ unhex (upperhex.getD n.val 0) = some n.val := by
  decide

theorem queryEscapeByte_safe (c b : Byte) (hb : b ∈ queryEscapeByte c) :
    b ≠ ch '&' ∧ b ≠ ch '=' ∧ b ≠ ch ';' := by
  unfold queryEscapeByte at hb
  split at hb
  · rw [List.mem_singleton.mp hb]; decide
  · split at hb
    · simp only [List.mem_cons, List.mem_singleton, List.not_mem_nil, or_false] at hb
      rcases hb with rfl | rfl | rfl
      · decide
      · have := upperhex_getD_safe ⟨c.val / 16, by omega⟩
        exact ⟨this.1, this.2.1, this.2.2.1⟩
      · have := upperhex_getD_safe ⟨c.val % 16, by omega⟩
        exact ⟨this.1, this.2.1, this.2.2.1⟩
    · rename_i hs
      rw [List.mem_singleton.mp hb]
      refine ⟨?_, ?_, ?_⟩ <;> (rintro rfl; exact hs (by decide))

theorem queryUnescape_plain (c : Byte) (rest : List Byte) (hc : c ≠ ch '%') :
    queryUnescape (c :: rest) =
      (queryUnescape rest).map (fun s => (if c = ch '+' then ch ' ' else c) :: s) := by
  rcases rest with _ | ⟨h, _ | ⟨l, r⟩⟩
  · simp [queryUnescape, hc]
  · rw [queryUnescape]
    · simp only [hc, if_false]
      cases queryUnescape [h] <;> rfl
    · intro hi lo r2 h2; cases h2
  · rw [queryUnescape]
    simp only [hc, if_false]
    cases queryUnescape (h :: l :: r) <;> rfl

theorem queryUnescape_percent (h l : Byte) (rest : List Byte) (x y : Nat)
    (hx : unhex h = some x) (hy : unhex l = some y) :
    queryUnescape (ch '%' :: h :: l :: rest) =
      (queryUnescape rest).map (fun s => byteOfNat (16 * x + y) :: s) := by
  rw [queryUnescape]
  simp only [if_true, hx, hy]
  cases queryUnescape rest <;> rfl

theorem queryUnescape_escapeByte (c : Byte) (rest : List Byte) :
    queryUnescape (queryEscapeByte c ++ rest) = (queryUnescape rest).map (fun s => c :: s) := by
  unfold queryEscapeByte
  split
  · rename_i hc
    rw [List.singleton_append, queryUnescape_plain _ _ (by decide), hc]
    rfl
  · split
    · have h1 := upperhex_getD_safe ⟨c.val / 16, by omega⟩
      have h2 := upperhex_getD_safe ⟨c.val % 16, by omega⟩
      rw [List.cons_append, List.cons_append, List.cons_append, List.nil_append,
        queryUnescape_percent _ _ _ _ _ h1.2.2.2 h2.2.2.2]
      have hb : byteOfNat (16 * (c.val / 16) + c.val % 16) = c := by
        apply Fin.ext
        simp only [byteOfNat]
        omega
      simp only [hb]
    · rename_i hs
      have h1 : c ≠ ch '%' := by rintro rfl; exact hs (by decide)
      have h2 : c ≠ ch '+' := by rintro rfl; exact hs (by decide)
      rw [List.singleton_append, queryUnescape_plain _ _ h1]
      simp only [h2, if_false]

theorem queryUnescape_queryEscape (s : GoString) : queryUnescape (queryEscape s) = some s := by
  induction s with
  | nil => rfl
  | cons c cs ih =>
    have : queryEscape (c :: cs) = queryEscapeByte c ++ queryEscape cs := by
      simp [queryEscape]
    rw [this, queryUnescape_escapeByte, ih]
    rfl

theorem queryEscape_safe (s : GoString) : ∀ b ∈ queryEscape s,
    b ≠ ch '&' ∧ b ≠ ch '=' ∧ b ≠ ch ';' := by
  intro b hb
  simp only [queryEscape, List.mem_flatMap] at hb
  obtain ⟨c, _, hc⟩ := hb
  exact queryEscapeByte_safe c b hc

theorem cut_append (sep : Byte) (a b : List Byte) (h : sep ∉ a) :
    cut sep (a ++ sep :: b) = (a, b) := by
  induction a with
  | nil => simp [cut]
  | cons x xs ih =>
    simp only [List.mem_cons, not_or] at h
    have hx : x ≠ sep := fun e => h.1 e.symm
    simp [cut, hx, ih h.2]

/-! ## `url.Values` built from a parameter set -/

theorem Values.add_fresh (acc : Values) (k v : GoString) (h : k ∉ acc.map Prod.fst) :
    Values.add acc k v = acc ++ [(k, [v])] := by
  induction acc with
  | nil => rfl
  | cons e es ih =>
    obtain ⟨k0, vs⟩ := e
    simp only [List.map_cons, List.mem_cons, not_or] at h
    have hne : k0 ≠ k := fun e => h.1 e.symm
    simp [Values.add, hne, ih h.2]

theorem foldl_add_fresh : ∀ (l : List (GoString × GoString)) (acc : Values),
    (acc.map Prod.fst ++ l.map Prod.fst).Nodup →
      l.foldl (fun q e => Values.add q e.1 e.2) acc = acc ++ l.map (fun e => (e.1, [e.2]))
  | [], acc, _ => by simp
  | e :: es, acc, h => by
    have hk : e.1 ∉ acc.map Prod.fst := by
      intro hmem
      have := (List.nodup_append.mp h).2.2
      exact this hmem (by simp)
    rw [List.foldl_cons, Values.add_fresh acc e.1 e.2 hk, foldl_add_fresh es]
    · simp
    · simpa [List.append_assoc] using h

theorem queryParams_eq (p : ParamSet) :
    queryParams p = p.entries.map (fun e => (e.1, [e.2])) := by
  unfold queryParams
  rw [foldl_add_fresh p.entries [] (by simpa using p.nodup)]
  simp

theorem foldl_congr_mem {α β : Type} (f g : β → α → β) (l : List α) (b : β)
    (h : ∀ x ∈ l, ∀ acc, f acc x = g acc x) : l.foldl f b = l.foldl g b := by
  induction l generalizing b with
  | nil => rfl
  | cons x xs ih =>
    rw [List.foldl_cons, List.foldl_cons, h x (List.mem_cons_self _ _) b]
    exact ih _ (fun y hy => h y (List.mem_cons_of_mem _ hy))

theorem lookup_values (p : ParamSet) (k : GoString) (hk : k ∈ p.entries.map Prod.fst) :
    (p.entries.map (fun e => (e.1, [e.2]))).lookup k = some [p.get k] := by
  have hmem := p.mem_of_key hk
  have hnd := p.nodup
  revert hmem hnd
  generalize p.get k = v
  generalize p.entries = l
  intro hmem hnd
  induction l with
  | nil => simp at hmem
  | cons e es ih =>
    obtain ⟨k0, v0⟩ := e
    simp only [List.map_cons, List.nodup_cons] at hnd
    rcases List.mem_cons.mp hmem with heq | hin
    · cases heq; simp [List.lookup]
    · have hne : k ≠ k0 := by
        rintro rfl
        exact hnd.1 (List.mem_map_of_mem Prod.fst hin)
      have hb : (k == k0) = false := by simpa using hne
      simp only [List.map_cons, List.lookup, hb]
      exact ih hin hnd.2

theorem pairText_ne_nil (e : GoString × GoString) : pairText e ≠ [] := by
  simp [pairText]

theorem foldl_pairs_nonempty (f : GoString → GoString) (ks : List GoString) (buf : GoString)
    (hbuf : buf ≠ []) :
    ks.foldl (fun buf k => (if buf.length > 0 then buf ++ [ch '&'] else buf)
        ++ queryEscape k ++ [ch '='] ++ queryEscape (f k)) buf =
      buf ++ ks.flatMap (fun k => ch '&' :: pairText (k, f k)) := by
  induction ks generalizing buf with
  | nil => simp
  | cons k ks ih =>
    have hlen : buf.length > 0 := List.length_pos.mpr hbuf
    rw [List.foldl_cons, ih _ (by simp)]
    simp [hlen, pairText, List.append_assoc]

theorem intercalate_cons (x : GoString) (xs : List GoString) :
    [ch '&'].intercalate (x :: xs) = x ++ xs.flatMap (fun y => ch '&' :: y) := by
  induction xs generalizing x with
  | nil => simp [List.intercalate]
  | cons y ys ih =>
    have h := ih y
    simp only [List.intercalate, List.intersperse, List.flatten_cons, List.flatMap_cons] at h ⊢
    rw [h]
    simp

theorem foldl_pairs (f : GoString → GoString) (ks : List GoString) :
    ks.foldl (fun buf k => (if buf.length > 0 then buf ++ [ch '&'] else buf)
        ++ queryEscape k ++ [ch '='] ++ queryEscape (f k)) [] =
      [ch '&'].intercalate (ks.map (fun k => pairText (k, f k))) := by
  cases ks with
  | nil => simp [List.intercalate]
  | cons k ks =>
    rw [List.foldl_cons, List.map_cons, intercalate_cons]
    have h0 : ((if ([] : GoString).length > 0 then [] ++ [ch '&'] else []) ++ queryEscape k
        ++ [ch '='] ++ queryEscape (f k)) = pairText (k, f k) := by
      simp [pairText]
    rw [h0, foldl_pairs_nonempty f ks _ (pairText_ne_nil _), List.flatMap_map]

/-- The query string `Values.Encode` writes for the values built from a parameter set: the
pairs by ascending key, joined with `&`. -/
theorem encode_queryParams (p : ParamSet) :
    (queryParams p).encode = [ch '&'].intercalate ((sortedEntries p).map pairText) := by
  rw [queryParams_eq]
  unfold Values.encode sortedEntries
  have hkeys : (p.entries.map (fun e => (e.1, [e.2]))).map Prod.fst = p.entries.map Prod.fst := by
    simp [List.map_map, Function.comp_def]
  rw [hkeys, List.map_map]
  refine Eq.trans ?_ (foldl_pairs p.get _)
  apply foldl_congr_mem
  intro k hk acc
  have hk2 : k ∈ p.entries.map Prod.fst := (sortStrings_perm _).mem_iff.mp hk
  rw [lookup_values p k hk2]
  simp

theorem sortedEntries_eq_of_perm {p q : ParamSet} (h : q.entries.Perm p.entries) :
    sortedEntries q = sortedEntries p := by
  unfold sortedEntries
  rw [sortStrings_eq_of_perm (h.map Prod.fst)]
  apply List.map_congr_left
  intro k _
  rw [ParamSet.get_eq_of_perm h k]

theorem parseSegments_pairs (es : List (GoString × GoString)) :
    parseSegments (es.map pairText) = some es := by
  induction es with
  | nil => rfl
  | cons e es ih =>
    have h1 : pairText e ≠ [] := pairText_ne_nil e
    have h2 : ch ';' ∉ pairText e := by
      intro hmem
      simp only [pairText, List.mem_append, List.mem_cons] at hmem
      rcases hmem with hm | hm | hm
      · exact (queryEscape_safe _ _ hm).2.2 rfl
      · revert hm; decide
      · exact (queryEscape_safe _ _ hm).2.2 rfl
    have h3 : cut (ch '=') (pairText e) = (queryEscape e.1, queryEscape e.2) :=
      cut_append _ _ _ (fun hm => (queryEscape_safe _ _ hm).2.1 rfl)
    simp only [List.map_cons, parseSegments, h1, h2, if_false, h3, queryUnescape_queryEscape, ih]

theorem parseQuery_encode (p : ParamSet) (hp : p.len > 0) :
    parseQuery (queryParams p).encode = some (sortedEntries p) := by
  rw [encode_queryParams]
  unfold parseQuery
  rw [List.splitOn_intercalate]
  · exact parseSegments_pairs _
  · intro l hl hmem
    obtain ⟨e, _, rfl⟩ := List.mem_map.mp hl
    simp only [pairText, List.mem_append, List.mem_cons] at hmem
    rcases hmem with hm | hm | hm
    · exact (queryEscape_safe _ _ hm).1 rfl
    · revert hm; decide
    · exact (queryEscape_safe _ _ hm).1 rfl
  · intro hnil
    have hlen := congrArg List.length hnil
    have hperm := (sortedEntries_perm p).length_eq
    simp only [sortedEntries, List.length_map, List.length_nil] at hlen hperm
    simp only [ParamSet.len] at hp
    omega

/-! ## GET requests -/

theorem apiURL_eq (c : Client) (endpoint : GoString) :
    apiURL c endpoint = c.BaseURL ++ str "/v5/" ++ endpoint := by
  have h : str "/" ++ APIVersion ++ str "/" = str "/v5/" := by decide
  simp only [apiURL, List.append_assoc]
  rw [← h]
  simp only [List.append_assoc]

theorem occurrences_eq_one : ∀ (l : List (GoString × GoString)) (k : GoString),
    (l.map Prod.fst).Nodup → k ∈ l.map Prod.fst → occurrences k l = 1
  | [], _, _, h => by simp at h
  | (k0, v0) :: es, k, hnd, hk => by
    simp only [List.map_cons, List.nodup_cons] at hnd
    by_cases h0 : k0 = k
    · subst h0
      have hnone : es.filter (fun e => decide (e.1 = k0)) = [] := by
        rw [List.filter_eq_nil_iff]
        intro e he hek
        have : e.1 = k0 := by simpa using hek
        exact hnd.1 (this ▸ List.mem_map_of_mem Prod.fst he)
      simp [occurrences, List.filter_cons, hnone]
    · have hk2 : k ∈ es.map Prod.fst := by
        rcases List.mem_cons.mp hk with h | h
        · exact absurd h.symm h0
        · exact h
      have ih := occurrences_eq_one es k hnd.2 hk2
      simp only [occurrences, List.filter_cons, h0, decide_False] at ih ⊢
      exact ih

/-- C7: a GET request has an empty body; for an empty or nil parameter set its URL is
`BaseURL ++ "/v5/" ++ endpoint` with no `?`; for a non-empty one the URL is
`BaseURL ++ "/v5/" ++ endpoint ++ "?" ++ Q`, where reading `Q` back as a URL query gives
exactly the key/value pairs of the parameter set, every key once, and `Q` is the same for
every order in which the entries are visited. -/
theorem sendRequest_get (env : Env) (c : Client) (endpoint : GoString) (params : ParamSet)
    (auth : Bool) (r : Request)
    (h : r ∈ (sendRequest env c (str "GET") endpoint params auth).sent) :
    r.body = none ∧
    (params.len = 0 → r.url = c.BaseURL ++ str "/v5/" ++ endpoint) ∧
    (params.len > 0 → ∃ (Q : GoString) (pairs : List (GoString × GoString)),
      r.url = c.BaseURL ++ str "/v5/" ++ endpoint ++ str "?" ++ Q ∧
      parseQuery Q = some pairs ∧
      pairs.Perm params.entries ∧
      (∀ k ∈ params.entries.map Prod.fst, occurrences k pairs = 1) ∧
      (∀ q : ParamSet, q.entries.Perm params.entries → (queryParams q).encode = Q)) := by
  obtain ⟨req0, hb, rfl⟩ := (mem_sent_iff env c (str "GET") endpoint params auth r).mp h
  obtain ⟨hbody, _, hurl⟩ := buildRequest_get env c endpoint params req0 hb
  have hsame : (addAuth env c params auth req0).url = req0.url ∧
      (addAuth env c params auth req0).body = req0.body := by
    cases auth with
    | true => exact ⟨(addAuth_true_headers env c params req0).2.2.2.1,
        (addAuth_true_headers env c params req0).2.2.2.2.1⟩
    | false => rw [addAuth_false]; exact ⟨rfl, rfl⟩
  rw [hsame.1, hsame.2, hurl, apiURL_eq]
  refine ⟨hbody, ?_, ?_⟩
  · intro h0
    have : ¬ params.len > 0 := by omega
    simp [this]
  · intro hpos
    refine ⟨(queryParams params).encode, sortedEntries params, ?_,
      parseQuery_encode params hpos, sortedEntries_perm params, ?_, ?_⟩
    · simp [hpos, List.append_assoc]
    · intro k hk
      exact occurrences_eq_one _ k
        (((sortedEntries_perm params).map Prod.fst).nodup_iff.mpr params.nodup)
        (((sortedEntries_perm params).map Prod.fst).mem_iff.mpr hk)
    · intro q hq
      rw [encode_queryParams, encode_queryParams, sortedEntries_eq_of_perm hq]

/-- The map `{category: spot, symbol: BTCUSDT}` gives the query
`category=spot&symbol=BTCUSDT` in either visiting order, and the query reads back as the map. -/
theorem sendRequest_get_witness :
    ∃ r, r ∈ (sendRequest (fixedEnv 0 200 (str "ok")) demoClient (str "GET")
        (str "market/tickers") demoParams false).sent ∧
      r.body = none ∧
      r.url = str "https://api.bybit.com/v5/market/tickers?category=spot&symbol=BTCUSDT" ∧
      (queryParams demoParamsSwapped).encode = str "category=spot&symbol=BTCUSDT" ∧
      parseQuery (str "category=spot&symbol=BTCUSDT") =
        some [(str "category", str "spot"), (str "symbol", str "BTCUSDT")] :=
  ⟨_, List.mem_singleton_self _,
   (sendRequest_get (fixedEnv 0 200 (str "ok")) demoClient (str "market/tickers") demoParams
      false _ (List.mem_singleton_self _)).1,
   by decide, by decide, by decide⟩

/-! ## Runes -/

theorem byte_eq_of_val {a b : Byte} (h : a.val = b.val) : a = b := Fin.ext h

/-- A well-formed multi-byte rune at the head of a string: its bytes are all at least
`0x80`, and the two line separators have one spelling each. -/
theorem decodeRune_multi (s0 : Byte) (rest : List Byte) (h0 : 0x80 ≤ s0.val)
    (hv : ¬ ((decodeRune (s0 :: rest)).1 = RuneError ∧ (decodeRune (s0 :: rest)).2 = 1)) :
    ∃ pre post, s0 :: rest = pre ++ post ∧ pre.length = (decodeRune (s0 :: rest)).2 ∧
      pre ≠ [] ∧ (∀ b ∈ pre, 0x80 ≤ b.val) ∧
      ((decodeRune (s0 :: rest)).1 = 0x2028 → pre = [0xE2, 0x80, 0xA8]) ∧
      ((decodeRune (s0 :: rest)).1 = 0x2029 → pre = [0xE2, 0x80, 0xA9]) := by
  have hlt : ¬ s0.val < 0x80 := by omega
  unfold decodeRune at hv ⊢
  simp only [hlt, if_false] at hv ⊢
  by_cases h1 : s0.val < 0xC2
  · simp [h1, RuneError] at hv
  simp only [h1, if_false] at hv ⊢
  by_cases h2 : s0.val < 0xE0
  · simp only [h2, if_true] at hv ⊢
    rcases rest with _ | ⟨s1, t⟩
    · simp [RuneError] at hv
    · simp only at hv ⊢
      by_cases hr : inRange s1 0x80 0xBF = true
      · simp only [hr, if_true] at hv ⊢
        simp only [inRange, Bool.and_eq_true, decide_eq_true_eq] at hr
        refine ⟨[s0, s1], t, rfl, rfl, by simp, ?_, ?_, ?_⟩
        · intro b hb
          simp only [List.mem_cons, List.mem_singleton, List.not_mem_nil, or_false] at hb
          rcases hb with rfl | rfl <;> omega
        · intro h; omega
        · intro h; omega
      · simp [hr, RuneError] at hv
  simp only [h2, if_false] at hv ⊢
  by_cases h3 : s0.val < 0xF0
  · simp only [h3, if_true] at hv ⊢
    rcases rest with _ | ⟨s1, _ | ⟨s2, t⟩⟩
    · simp [RuneError] at hv
    · simp [RuneError] at hv
    · simp only at hv ⊢
      by_cases hr : (inRange s1 (if s0.val = 0xE0 then 0xA0 else 0x80)
          (if s0.val = 0xED then 0x9F else 0xBF) && inRange s2 0x80 0xBF) = true
      · simp only [hr, if_true] at hv ⊢
        simp only [inRange, Bool.and_eq_true, decide_eq_true_eq] at hr
        obtain ⟨⟨hr1, hr2⟩, hr3, hr4⟩ := hr
        have hs1 : 0x80 ≤ s1.val := by
          split at hr1 <;> omega
        refine ⟨[s0, s1, s2], t, rfl, rfl, by simp, ?_, ?_, ?_⟩
        · intro b hb
          simp only [List.mem_cons, List.mem_singleton, List.not_mem_nil, or_false] at hb
          rcases hb with rfl | rfl | rfl <;> omega
        · intro h
          have e0 : s0 = 0xE2 := byte_eq_of_val (by
            show s0.val = 0xE2
            have := s1.isLt; have := s2.isLt; omega)
          have e1 : s1 = 0x80 := byte_eq_of_val (by
            show s1.val = 0x80
            have := s1.isLt; have := s2.isLt
            split at hr2 <;> omega)
          have e2 : s2 = 0xA8 := byte_eq_of_val (by
            show s2.val = 0xA8
            have := s1.isLt; have := s2.isLt
            split at hr2 <;> omega)
          rw [e0, e1, e2]
        · intro h
          have e0 : s0 = 0xE2 := byte_eq_of_val (by
            show s0.val = 0xE2
            have := s1.isLt; have := s2.isLt; omega)
          have e1 : s1 = 0x80 := byte_eq_of_val (by
            show s1.val = 0x80
            have := s1.isLt; have := s2.isLt
            split at hr2 <;> omega)
          have e2 : s2 = 0xA9 := byte_eq_of_val (by
            show s2.val = 0xA9
            have := s1.isLt; have := s2.isLt
            split at hr2 <;> omega)
          rw [e0, e1, e2]
      · simp [hr, RuneError] at hv
  simp only [h3, if_false] at hv ⊢
  by_cases h4 : s0.val < 0xF5
  · simp only [h4, if_true] at hv ⊢
    rcases rest with _ | ⟨s1, _ | ⟨s2, _ | ⟨s3, t⟩⟩⟩
    · simp [RuneError] at hv
    · simp [RuneError] at hv
    · simp [RuneError] at hv
    · simp only at hv ⊢
      by_cases hr : (inRange s1 (if s0.val = 0xF0 then 0x90 else 0x80)
          (if s0.val = 0xF4 then 0x8F else 0xBF) && inRange s2 0x80 0xBF
          && inRange s3 0x80 0xBF) = true
      · simp only [hr, if_true] at hv ⊢
        simp only [inRange, Bool.and_eq_true, decide_eq_true_eq] at hr
        obtain ⟨⟨⟨hr1, hr2⟩, hr3, hr4⟩, hr5, hr6⟩ := hr
        have hs1 : (if s0.val = 0xF0 then 0x90 else 0x80) ≤ s1.val := hr1
        have hs1b : 0x80 ≤ s1.val := by
          split at hs1 <;> omega
        have hs1c : s1.val ≤ 0xBF := by
          split at hr2 <;> omega
        have hbig : 0x10000 ≤ s0.val % 8 * 262144 + s1.val % 64 * 4096 := by
          split at hs1 <;> omega
        refine ⟨[s0, s1, s2, s3], t, rfl, rfl, by simp, ?_, ?_, ?_⟩
        · intro b hb
          simp only [List.mem_cons, List.mem_singleton, List.not_mem_nil, or_false] at hb
          rcases hb with rfl | rfl | rfl | rfl <;> omega
        · intro h; omega
        · intro h; omega
      · simp [hr, RuneError] at hv
  · simp [h4, RuneError] at hv

/-! ## JSON strings: what `appendString` writes reads back -/

theorem parseStringBody_plain (fuel : Nat) (b : Byte) (rest : List Byte)
    (h1 : b.val ≠ 34) (h2 : b.val ≠ 92) (h3 : ¬ b.val < 0x20) :
    parseStringBody (fuel + 1) (b :: rest) =
      (parseStringBody fuel rest).map (fun p => (b :: p.1, p.2)) := by
  simp only [parseStringBody, h1, h2, h3, if_false]
  cases parseStringBody fuel rest with
  | none => rfl
  | some p => rfl

theorem parseStringBody_escape (fuel : Nat) (b : Byte) (rest bytes rest2 : List Byte)
    (hb : b.val = 92) (h : readEscape rest = some (bytes, rest2)) :
    parseStringBody (fuel + 1) (b :: rest) =
      (parseStringBody fuel rest2).map (fun p => (bytes ++ p.1, p.2)) := by
  have h1 : b.val ≠ 34 := by omega
  simp only [parseStringBody, h1, hb, if_false, if_true, h]
  cases parseStringBody fuel rest2 with
  | none => rfl
  | some p => rfl

theorem parseStringBody_quote (fuel : Nat) (rest : List Byte) :
    parseStringBody (fuel + 1) (34 :: rest) = some ([], rest) := by
  have h : ((34 : Byte)).val = 34 := rfl
  simp only [parseStringBody, h, if_true]

theorem parseStringBody_plains : ∀ (pre : List Byte), (∀ b ∈ pre, 0x80 ≤ b.val) →
    ∀ (fuel : Nat) (rest : List Byte),
      parseStringBody (fuel + pre.length) (pre ++ rest) =
        (parseStringBody fuel rest).map (fun p => (pre ++ p.1, p.2))
  | [], _, fuel, rest => by
    simp only [List.length_nil, Nat.add_zero, List.nil_append]
    cases parseStringBody fuel rest <;> rfl
  | b :: pre, h, fuel, rest => by
    have hb := h b (List.mem_cons_self _ _)
    have ih := parseStringBody_plains pre (fun x hx => h x (List.mem_cons_of_mem _ hx)) fuel rest
    rw [List.length_cons, ← Nat.add_assoc, List.cons_append,
      parseStringBody_plain _ b _ (by omega) (by omega) (by omega), ih]
    cases parseStringBody fuel rest <;> rfl

theorem parseStringBody_mono : ∀ (fuel : Nat) (s : List Byte) (x : List Byte × List Byte),
    parseStringBody fuel s = some x → ∀ fuel2, fuel ≤ fuel2 → parseStringBody fuel2 s = some x
  | 0, _, _, h, _, _ => by simp [parseStringBody] at h
  | fuel + 1, [], _, h, _, _ => by simp [parseStringBody] at h
  | fuel + 1, b :: rest, x, h, fuel2, hle => by
    obtain ⟨f2, rfl⟩ : ∃ f2, fuel2 = f2 + 1 := ⟨fuel2 - 1, by omega⟩
    have hle2 : fuel ≤ f2 := by omega
    simp only [parseStringBody] at h ⊢
    split
    · rename_i hq; simpa [hq] using h
    · rename_i hq
      simp only [hq, if_false] at h
      split
      · rename_i hbs
        simp only [hbs, if_true] at h
        cases hre : readEscape rest with
        | none => simp [hre] at h
        | some br =>
          obtain ⟨bytes, rest2⟩ := br
          simp only [hre] at h ⊢
          cases hp : parseStringBody fuel rest2 with
          | none => simp [hp] at h
          | some p =>
            rw [parseStringBody_mono fuel rest2 p hp f2 hle2]
            simpa [hp] using h
      · rename_i hbs
        simp only [hbs, if_false] at h
        split
        · rename_i hc; simp [hc] at h
        · rename_i hc
          simp only [hc, if_false] at h
          cases hp : parseStringBody fuel rest with
          | none => simp [hp] at h
          | some p =>
            rw [parseStringBody_mono fuel rest p hp f2 hle2]
            simpa [hp] using h

theorem unhex_hextable : ∀ n : Fin 16, unhex (hextable.getD n.val 0) = some n.val := by
  decide

theorem readEscape_simple (e x : Byte) (rest : List Byte) (hu : e ≠ ch 'u')
    (h : simpleEscape e = some x) : readEscape (e :: rest) = some ([x], rest) := by
  simp only [readEscape, hu, if_false, h]

theorem readEscape_hex (a b c d : Byte) (r : Nat) (rest : List Byte)
    (h : hex4 a b c d = some r) (hr : r < 0xD800) :
    readEscape (ch 'u' :: a :: b :: c :: d :: rest) = some (utf8Encode r, rest) := by
  have hn : ¬ (0xD800 ≤ r ∧ r ≤ 0xDBFF) := by omega
  simp only [readEscape, if_true, h, readUnicode, hn, if_false]

theorem readEscape_jsonEscapeByte (b : Byte) (hb : b.val < 0x80) (rest : List Byte) :
    ∃ e, jsonEscapeByte b = 92 :: e ∧ readEscape (e ++ rest) = some ([b], rest) := by
  unfold jsonEscapeByte
  split
  · rename_i h
    refine ⟨[b], rfl, ?_⟩
    have hu : b ≠ ch 'u' := by
      rintro rfl
      revert h; decide
    have hse : simpleEscape b = some b := by
      simp only [simpleEscape]
      rw [if_pos]
      rcases h with h | h
      · exact Or.inr (Or.inl h)
      · exact Or.inl h
    exact readEscape_simple b b rest hu hse
  · split
    · rename_i h
      have : b = 8 := byte_eq_of_val h
      subst this
      exact ⟨[ch 'b'], rfl, readEscape_simple _ _ _ (by decide) (by decide)⟩
    · split
      · rename_i h
        have : b = 12 := byte_eq_of_val h
        subst this
        exact ⟨[ch 'f'], rfl, readEscape_simple _ _ _ (by decide) (by decide)⟩
      · split
        · rename_i h
          have : b = 10 := byte_eq_of_val h
          subst this
          exact ⟨[ch 'n'], rfl, readEscape_simple _ _ _ (by decide) (by decide)⟩
        · split
          · rename_i h
            have : b = 13 := byte_eq_of_val h
            subst this
            exact ⟨[ch 'r'], rfl, readEscape_simple _ _ _ (by decide) (by decide)⟩
          · split
            · rename_i h
              have : b = 9 := byte_eq_of_val h
              subst this
              exact ⟨[ch 't'], rfl, readEscape_simple _ _ _ (by decide) (by decide)⟩
            · refine ⟨_, rfl, ?_⟩
              have h1 := unhex_hextable ⟨b.val / 16, by omega⟩
              have h2 := unhex_hextable ⟨b.val % 16, by omega⟩
              have h0 : unhex (ch '0') = some 0 := by decide
              have hh : hex4 (ch '0') (ch '0') (hextable.getD (b.val / 16) 0)
                  (hextable.getD (b.val % 16) 0) = some b.val := by
                simp only [hex4, h0, h1, h2, Option.some.injEq]
                omega
              have hlt : ¬ (128 ≤ b.val) := by omega
              have henc : utf8Encode b.val = [b] := by
                have hb2 : byteOfNat b.val = b := byte_eq_of_val (by
                  simp only [byteOfNat]; omega)
                simp only [utf8Encode, hb, if_true, hb2]
              rw [List.cons_append, List.cons_append, List.cons_append, List.cons_append,
                List.cons_append, List.nil_append, readEscape_hex _ _ _ _ _ _ hh (by omega), henc]

theorem htmlSafe_plain (b : Byte) (h : htmlSafe b = true) :
    b.val ≠ 34 ∧ b.val ≠ 92 ∧ ¬ b.val < 0x20 := by
  simp only [htmlSafe, Bool.and_eq_true, decide_eq_true_eq, bne_iff_ne, ne_eq] at h
  obtain ⟨⟨⟨⟨⟨⟨h1, _⟩, h3⟩, h4⟩, _⟩, _⟩, _⟩ := h
  exact ⟨h3, h4, by omega⟩

theorem readEscape_lineSep (r : Nat) (pre rest : List Byte)
    (h8 : r = 0x2028 → pre = [0xE2, 0x80, 0xA8]) (h9 : r = 0x2029 → pre = [0xE2, 0x80, 0xA9])
    (hr : r = 0x2028 ∨ r = 0x2029) :
    readEscape (ch 'u' :: ch '2' :: ch '0' :: ch '2' :: hextable.getD (r % 16) 0 :: rest) =
      some (pre, rest) := by
  rcases hr with rfl | rfl
  · rw [h8 rfl, readEscape_hex _ _ _ _ 0x2028 _ (by decide) (by decide)]
    rfl
  · rw [h9 rfl, readEscape_hex _ _ _ _ 0x2029 _ (by decide) (by decide)]
    rfl

/-- Reading back the body `appendString` wrote for a valid UTF-8 string gives the string. -/
theorem parseStringBody_appendStringLoop : ∀ (n : Nat) (s : List Byte), s.length ≤ n →
    validUTF8Loop n s = true → ∀ rest : List Byte,
      parseStringBody ((appendStringLoop n s).length + 1) (appendStringLoop n s ++ 34 :: rest)
        = some (s, rest)
  | n, [], _, _, rest => by
    cases n <;> simp only [appendStringLoop, List.length_nil, List.nil_append] <;>
      exact parseStringBody_quote 0 rest
  | 0, _ :: _, hlen, _, _ => by simp at hlen
  | n + 1, b :: t, hlen, hvalid, rest => by
    have hlen2 : t.length ≤ n := by simpa using hlen
    simp only [validUTF8Loop] at hvalid
    simp only [appendStringLoop]
    by_cases hb : b.val < 0x80
    · have hdec : decodeRune (b :: t) = (b.val, 1) := by simp [decodeRune, hb]
      have hne : b.val ≠ RuneError := by
        simp only [RuneError]; omega
      simp only [hdec, hne, false_and, if_false, List.drop_succ_cons, List.drop_zero] at hvalid
      have ih := parseStringBody_appendStringLoop n t hlen2 hvalid rest
      simp only [hb, if_true]
      by_cases hs : htmlSafe b = true
      · obtain ⟨h1, h2, h3⟩ := htmlSafe_plain b hs
        simp only [hs, if_true, List.singleton_append, List.length_cons, List.cons_append,
          List.nil_append]
        rw [parseStringBody_plain _ b _ h1 h2 h3, ih]
        rfl
      · simp only [hs]
        obtain ⟨e, he, hre⟩ := readEscape_jsonEscapeByte b hb (appendStringLoop n t ++ 34 :: rest)
        simp only [he, Bool.false_eq_true, if_false, List.cons_append, List.length_cons,
          List.length_append]
        rw [List.append_assoc, parseStringBody_escape _ _ _ _ _ rfl hre,
          parseStringBody_mono _ _ _ ih _ (by omega)]
        rfl
    · have h0 : 0x80 ≤ b.val := by omega
      by_cases hv : (decodeRune (b :: t)).1 = RuneError ∧ (decodeRune (b :: t)).2 = 1
      · simp [hv] at hvalid
      · simp only [hv, if_false] at hvalid
        obtain ⟨pre, post, hsplit, hprelen, hprene, hpre, h8, h9⟩ := decodeRune_multi b t h0 hv
        have htake : (b :: t).take (decodeRune (b :: t)).2 = pre := by
          rw [← hprelen, hsplit]; simp
        have hdrop : (b :: t).drop (decodeRune (b :: t)).2 = post := by
          rw [← hprelen, hsplit]; simp
        rw [hdrop] at hvalid
        have hpostlen : post.length ≤ n := by
          have h1 := congrArg List.length hsplit
          have h2 : 0 < pre.length := List.length_pos.mpr hprene
          simp only [List.length_cons, List.length_append] at h1
          omega
        have ih := parseStringBody_appendStringLoop n post hpostlen hvalid rest
        simp only [hb, hv, if_false, htake, hdrop]
        by_cases hsep : (decodeRune (b :: t)).1 = 0x2028 ∨ (decodeRune (b :: t)).1 = 0x2029
        · simp only [hsep, if_true]
          have hre := readEscape_lineSep _ pre (appendStringLoop n post ++ 34 :: rest) h8 h9 hsep
          have hstr : str "\\u202" = [92, ch 'u', ch '2', ch '0', ch '2'] := by decide
          simp only [hstr, List.cons_append, List.nil_append, List.length_cons,
            List.length_append, List.append_assoc]
          rw [parseStringBody_escape _ _ _ _ _ rfl hre,
            parseStringBody_mono _ _ _ ih _ (by omega), hsplit]
          rfl
        · simp only [hsep, if_false, List.length_append, List.append_assoc]
          have hfuel : pre.length + (appendStringLoop n post).length + 1 =
              ((appendStringLoop n post).length + 1) + pre.length := by omega
          rw [hfuel, parseStringBody_plains pre hpre, ih, hsplit]
          rfl

theorem parseString_appendString (s rest : List Byte) (h : validUTF8 s = true) :
    parseString (appendString s ++ rest) = some (s, rest) := by
  have hmain := parseStringBody_appendStringLoop s.length s (Nat.le_refl _) h rest
  have h34 : ((34 : Byte)).val = 34 := rfl
  simp only [appendString, List.singleton_append, List.cons_append, List.append_assoc,
    parseString, h34, if_true]
  exact parseStringBody_mono _ _ _ hmain _ (by simp)

/-! ## JSON objects: what the map encoder writes reads back -/

theorem skipSpace_cons (b : Byte) (r : List Byte)
    (h : ¬ (b.val = 32 ∨ b.val = 9 ∨ b.val = 10 ∨ b.val = 13)) :
    skipSpace (b :: r) = b :: r := by
  simp only [skipSpace, h, if_false]

theorem appendString_cons (s : GoString) :
    appendString s = 34 :: (appendStringLoop s.length s ++ [34]) := by
  simp [appendString]

theorem skipSpace_appendString (s : GoString) (rest : List Byte) :
    skipSpace (appendString s ++ rest) = appendString s ++ rest := by
  rw [appendString_cons, List.cons_append]
  exact skipSpace_cons _ _ (by decide)

theorem parseMember_encode (k v : GoString) (tail : List Byte)
    (hk : validUTF8 k = true) (hv : validUTF8 v = true) :
    parseMember (appendString k ++ ch ':' :: (appendString v ++ tail)) = some ((k, v), tail) := by
  unfold parseMember
  rw [parseString_appendString k _ hk]
  simp only
  rw [skipSpace_cons (ch ':') _ (by decide)]
  simp only [if_true]
  rw [skipSpace_appendString, parseString_appendString v _ hv]

theorem encodeMembers_cons (i : Nat) (kv : GoString × GoString)
    (rest : List (GoString × GoString)) :
    encodeMembers i (kv :: rest) =
      (if i > 0 then [ch ','] else []) ++
        (appendString kv.1 ++ ch ':' :: (appendString kv.2 ++ encodeMembers (i + 1) rest)) := by
  simp [encodeMembers, List.append_assoc]

theorem parseMembers_encode : ∀ (es : List (GoString × GoString)) (kv : GoString × GoString)
    (i fuel : Nat), es.length < fuel →
    (∀ e ∈ kv :: es, validUTF8 e.1 = true ∧ validUTF8 e.2 = true) →
    parseMembers fuel
      (appendString kv.1 ++ ch ':' :: (appendString kv.2 ++
        (encodeMembers (i + 1) es ++ [ch '}']))) = some (kv :: es)
  | [], kv, i, fuel, hf, hv => by
    obtain ⟨f, rfl⟩ : ∃ f, fuel = f + 1 := ⟨fuel - 1, by simp at hf; omega⟩
    have hkv := hv kv (List.mem_cons_self _ _)
    simp only [parseMembers, encodeMembers, List.nil_append]
    rw [parseMember_encode _ _ _ hkv.1 hkv.2]
    simp only
    rw [skipSpace_cons (ch '}') _ (by decide)]
    have hne : ch '}' ≠ ch ',' := by decide
    simp [hne, skipSpace]
  | e :: es, kv, i, fuel, hf, hv => by
    obtain ⟨f, rfl⟩ : ∃ f, fuel = f + 1 := ⟨fuel - 1, by simp at hf; omega⟩
    have hkv := hv kv (List.mem_cons_self _ _)
    have ih := parseMembers_encode es e (i + 1) f (by simpa using hf)
      (fun x hx => hv x (List.mem_cons_of_mem _ hx))
    have hpos : i + 1 > 0 := by omega
    simp only [parseMembers]
    rw [parseMember_encode _ _ _ hkv.1 hkv.2]
    simp only
    rw [encodeMembers_cons, if_pos hpos, List.singleton_append, List.cons_append,
      skipSpace_cons (ch ',') _ (by decide)]
    simp only [if_true]
    rw [List.append_assoc, List.cons_append, List.append_assoc, skipSpace_appendString, ih]

theorem encodeMembers_length : ∀ (es : List (GoString × GoString)) (i : Nat),
    es.length ≤ (encodeMembers i es).length
  | [], _ => by simp [encodeMembers]
  | e :: es, i => by
    have ih := encodeMembers_length es (i + 1)
    rw [encodeMembers_cons]
    simp only [List.length_append, List.length_cons]
    omega

/-- Decoding the object written for the entries of a map gives the entries back, in the
order written, when every key and value is valid UTF-8. -/
theorem jsonDecodeObject_encodeMembers (es : List (GoString × GoString))
    (hv : ∀ e ∈ es, validUTF8 e.1 = true ∧ validUTF8 e.2 = true) :
    jsonDecodeObject ([ch '{'] ++ encodeMembers 0 es ++ [ch '}']) = some es := by
  cases es with
  | nil => decide
  | cons kv es =>
    have hlen := encodeMembers_length es 1
    unfold jsonDecodeObject
    rw [List.singleton_append, List.cons_append, skipSpace_cons (ch '{') _ (by decide)]
    simp only [if_true]
    rw [encodeMembers_cons]
    simp only [gt_iff_lt, Nat.lt_irrefl, if_false, List.nil_append, List.append_assoc,
      List.cons_append]
    rw [skipSpace_appendString, appendString_cons]
    simp only [List.cons_append]
    have h34 : (34 : Byte) ≠ ch '}' := by decide
    simp only [h34, if_false]
    have := parseMembers_encode es kv 0
      ((ch '{' :: (appendString kv.1 ++ ch ':' :: (appendString kv.2 ++
        (encodeMembers 1 es ++ [ch '}'])))).length)
      (by simp only [List.length_cons, List.length_append]; omega) hv
    rw [appendString_cons kv.1] at this
    simpa [List.append_assoc] using this

theorem jsonDecodeObject_jsonMarshal (p : ParamSet) (hnil : p.isNil = false)
    (hv : p.validUTF8 = true) : jsonDecodeObject (jsonMarshal p) = some (sortedEntries p) := by
  simp only [jsonMarshal, hnil, Bool.false_eq_true, if_false]
  apply jsonDecodeObject_encodeMembers
  intro e he
  have hmem : e ∈ p.entries := (sortedEntries_perm p).subset he
  simp only [ParamSet.validUTF8, List.all_eq_true, Bool.and_eq_true] at hv
  exact hv e hmem

/-! ## POST requests and signed requests -/

theorem addAuth_same (env : Env) (c : Client) (params : ParamSet) (auth : Bool)
    (req0 : Request) :
    (addAuth env c params auth req0).url = req0.url ∧
    (addAuth env c params auth req0).body = req0.body ∧
    (addAuth env c params auth req0).header.get (str "Content-Type") =
      req0.header.get (str "Content-Type") := by
  cases auth with
  | false => rw [addAuth_false]; exact ⟨rfl, rfl, rfl⟩
  | true =>
    refine ⟨(addAuth_true_headers env c params req0).2.2.2.1,
      (addAuth_true_headers env c params req0).2.2.2.2.1, ?_⟩
    simp only [addAuth, if_true]
    rw [Header.get_set_other _ _ _ _ (by decide), Header.get_set_other _ _ _ _ (by decide),
      Header.get_set_other _ _ _ _ (by decide)]

/-- C8 (as stated) fails: a value that is not valid UTF-8 is written as `\ufffd`, so the
body decodes to another value; and for the nil map the body is `null`, not an object. -/
theorem sendRequest_post_body_differs :
    ((sendRequest (fixedEnv 0 200 (str "ok")) demoClient (str "POST") (str "order/create")
        (ParamSet.single (str "k") [0xFF]) false).sent.map (fun r => r.body) =
        [some (str "\x7b\"k\":\"\\ufffd\"\x7d")] ∧
      jsonDecodeObject (str "\x7b\"k\":\"\\ufffd\"\x7d") = some [(str "k", [0xEF, 0xBF, 0xBD])] ∧
      [(str "k", ([0xEF, 0xBF, 0xBD] : GoString))] ≠ (ParamSet.single (str "k") [0xFF]).entries) ∧
    ((sendRequest (fixedEnv 0 200 (str "ok")) demoClient (str "POST") (str "order/create")
        nilParams false).sent.map (fun r => r.body) = [some (str "null")] ∧
      jsonDecodeObject (str "null") = none) := by
  decide

/-- C8 (as amended): a request with a method other than `GET`, `POST` among them, has URL
exactly `BaseURL ++ "/v5/" ++ endpoint`, header `Content-Type: application/json` and the
body `json.Marshal(params)`; for a non-nil parameter set whose keys and values are valid
UTF-8 that body is a JSON object of strings whose decoding yields exactly the key/value
pairs of the set, and for the empty non-nil set it is the empty object. -/
theorem sendRequest_post (env : Env) (c : Client) (method endpoint : GoString)
    (params : ParamSet) (auth : Bool) (r : Request) (hm : method ≠ str "GET")
    (h : r ∈ (sendRequest env c method endpoint params auth).sent) :
    r.url = c.BaseURL ++ str "/v5/" ++ endpoint ∧
    r.header.get (str "Content-Type") = some (str "application/json") ∧
    r.body = some (jsonMarshal params) ∧
    (params.isNil = false → params.validUTF8 = true →
      ∃ pairs, jsonDecodeObject (jsonMarshal params) = some pairs ∧
        pairs.Perm params.entries ∧
        ∀ k ∈ params.entries.map Prod.fst, occurrences k pairs = 1) ∧
    (params.isNil = false → params.entries = [] → jsonMarshal params = [ch '{', ch '}']) := by
  obtain ⟨req0, hb, rfl⟩ := (mem_sent_iff env c method endpoint params auth r).mp h
  obtain ⟨hbody, hheader, hurl⟩ := buildRequest_other env c method endpoint params req0 hm hb
  obtain ⟨h1, h2, h3⟩ := addAuth_same env c params auth req0
  rw [h1, h2, h3, hurl, hbody, hheader, apiURL_eq]
  refine ⟨rfl, by decide, rfl, ?_, ?_⟩
  · intro hnil hv
    refine ⟨sortedEntries params, jsonDecodeObject_jsonMarshal params hnil hv,
      sortedEntries_perm params, ?_⟩
    intro k hk
    exact occurrences_eq_one _ k
      (((sortedEntries_perm params).map Prod.fst).nodup_iff.mpr params.nodup)
      (((sortedEntries_perm params).map Prod.fst).mem_iff.mpr hk)
  · intro hnil hempty
    simp [jsonMarshal, hnil, sortedEntries, hempty, sortStrings, encodeMembers]

/-- The demonstration map is posted as a JSON object that reads back as the map. -/
theorem sendRequest_post_witness :
    ∃ r, r ∈ (sendRequest (fixedEnv 0 200 (str "ok")) demoClient (str "POST")
        (str "order/create") demoParams false).sent ∧
      r.url = demoClient.BaseURL ++ str "/v5/" ++ str "order/create" ∧
      r.body = some (str "\x7b\"category\":\"spot\",\"symbol\":\"BTCUSDT\"\x7d") ∧
      jsonDecodeObject (str "\x7b\"category\":\"spot\",\"symbol\":\"BTCUSDT\"\x7d") =
        some [(str "category", str "spot"), (str "symbol", str "BTCUSDT")] :=
  ⟨_, List.mem_singleton_self _,
   (sendRequest_post (fixedEnv 0 200 (str "ok")) demoClient (str "POST") (str "order/create")
      demoParams false _ (by decide) (List.mem_singleton_self _)).1,
   by decide, by decide⟩

set_option maxRecDepth 100000 in
/-- C5 (as stated) fails: a signed `POST` of the map `{"k": "\xff"}` carries a signature
computed over the byte `0xFF`, while the body transmitted decodes to the map
`{"k": "�"}`, a different parameter set with a different signature; and a signed
`POST` of the nil map transmits `null`, which is no parameter set at all. -/
theorem sendRequest_signs_untransmitted_params :
    (∃ r body, r ∈ (sendRequest (fixedEnv 1700000000000 200 (str "ok")) demoClient (str "POST")
        (str "order/create") (ParamSet.single (str "k") [0xFF]) true).sent ∧
      r.body = some body ∧
      jsonDecodeObject body = some [(str "k", [0xEF, 0xBF, 0xBD])] ∧
      [(str "k", ([0xEF, 0xBF, 0xBD] : GoString))] ≠
        (ParamSet.single (str "k") [0xFF]).entries ∧
      r.header.get (str "X-BAPI-SIGN") =
        some (generateSignature demoClient (ParamSet.single (str "k") [0xFF]) 1700000000000) ∧
      generateSignature demoClient (ParamSet.single (str "k") [0xFF]) 1700000000000 ≠
        generateSignature demoClient (ParamSet.single (str "k") [0xEF, 0xBF, 0xBD])
          1700000000000) ∧
    (∃ r body, r ∈ (sendRequest (fixedEnv 1700000000000 200 (str "ok")) demoClient (str "POST")
        (str "order/create") nilParams true).sent ∧
      r.body = some body ∧ body = str "null" ∧ jsonDecodeObject body = none) :=
  ⟨⟨_, _, List.mem_singleton_self _, rfl, by decide, by decide, by decide, by decide⟩,
   ⟨_, _, List.mem_singleton_self _, rfl, by decide, by decide⟩⟩

/-- C5 (as amended): every request `sendRequest` hands to the transport with `auth` true
carries `X-BAPI-API-KEY` equal to the client's API key, `X-BAPI-TIMESTAMP` equal to the
decimal rendering of the clock reading `t`, and `X-BAPI-SIGN` equal to
`generateSignature(p, t)` for the same `t` and for the map `p` given to `sendRequest`. The URL
query of a GET request is `Values.Encode` of `p` and reads back as exactly the pairs of `p`;
the body of any other request is `json.Marshal(p)`, which reads back as exactly the pairs of
`p` when `p` is not nil and its keys and values are valid UTF-8. -/
theorem sendRequest_signed (env : Env) (c : Client) (method endpoint : GoString)
    (params : ParamSet) (r : Request)
    (h : r ∈ (sendRequest env c method endpoint params true).sent) :
    r.header.get (str "X-BAPI-API-KEY") = some c.APIKey ∧
    r.header.get (str "X-BAPI-TIMESTAMP") = some (formatInt env.now) ∧
    parseInt (formatInt env.now) = env.now ∧
    r.header.get (str "X-BAPI-SIGN") = some (generateSignature c params env.now) ∧
    (method = str "GET" →
      r.body = none ∧
      r.url = apiURL c endpoint ++
        (if params.len > 0 then str "?" ++ (queryParams params).encode else []) ∧
      (params.len > 0 → ∃ pairs, parseQuery (queryParams params).encode = some pairs ∧
        pairs.Perm params.entries)) ∧
    (method ≠ str "GET" →
      r.url = apiURL c endpoint ∧ r.body = some (jsonMarshal params) ∧
      (params.isNil = false → params.validUTF8 = true →
        ∃ pairs, jsonDecodeObject (jsonMarshal params) = some pairs ∧
          pairs.Perm params.entries)) := by
  obtain ⟨req0, hb, rfl⟩ := (mem_sent_iff env c method endpoint params true r).mp h
  obtain ⟨h1, h2, h3, hurl, hbody, _⟩ := addAuth_true_headers env c params req0
  refine ⟨h1, h2, parseInt_formatInt env.now, h3, ?_, ?_⟩
  · rintro rfl
    obtain ⟨hb0, _, hu0⟩ := buildRequest_get env c endpoint params req0 hb
    rw [hurl, hbody]
    exact ⟨hb0, hu0, fun hpos =>
      ⟨sortedEntries params, parseQuery_encode params hpos, sortedEntries_perm params⟩⟩
  · intro hm
    obtain ⟨hb0, _, hu0⟩ := buildRequest_other env c method endpoint params req0 hm hb
    rw [hurl, hbody]
    exact ⟨hu0, hb0, fun hnil hv =>
      ⟨sortedEntries params, jsonDecodeObject_jsonMarshal params hnil hv,
        sortedEntries_perm params⟩⟩

set_option maxRecDepth 100000 in
/-- A signed GET and a signed POST of the demonstration map: both carry the key, the clock
reading and the independently computed signature; the query of the GET and the body of the
POST read back as the pairs of the map. -/
theorem sendRequest_signed_witness :
    (∃ r, r ∈ (sendRequest (fixedEnv 1700000000000 200 (str "ok")) demoClient (str "GET")
        (str "order/history") demoParams true).sent ∧
      r.header.get (str "X-BAPI-API-KEY") = some (str "key") ∧
      r.header.get (str "X-BAPI-TIMESTAMP") = some (str "1700000000000") ∧
      r.header.get (str "X-BAPI-SIGN") =
        some (str "90b988daebafc6518dc7054d38cee01305ff4c8a6d7a9113a380577db73775eb") ∧
      r.url = str "https://api.bybit.com/v5/order/history?category=spot&symbol=BTCUSDT" ∧
      ∃ pairs, parseQuery (queryParams demoParams).encode = some pairs ∧
        pairs.Perm demoParams.entries) ∧
    (∃ r, r ∈ (sendRequest (fixedEnv 1700000000000 200 (str "ok")) demoClient (str "POST")
        (str "order/create") demoParams true).sent ∧
      r.header.get (str "X-BAPI-SIGN") =
        some (str "90b988daebafc6518dc7054d38cee01305ff4c8a6d7a9113a380577db73775eb") ∧
      r.body = some (str "\x7b\"category\":\"spot\",\"symbol\":\"BTCUSDT\"\x7d") ∧
      ∃ pairs, jsonDecodeObject (jsonMarshal demoParams) = some pairs ∧
        pairs.Perm demoParams.entries) :=
  ⟨⟨_, List.mem_singleton_self _,
    (sendRequest_signed (fixedEnv 1700000000000 200 (str "ok")) demoClient (str "GET")
      (str "order/history") demoParams _ (List.mem_singleton_self _)).1,
    by decide, by decide, by decide,
    ((sendRequest_signed (fixedEnv 1700000000000 200 (str "ok")) demoClient (str "GET")
      (str "order/history") demoParams _ (List.mem_singleton_self _)).2.2.2.2.1 rfl).2.2
      (by decide)⟩,
   ⟨_, List.mem_singleton_self _, by decide, by decide,
    (sendRequest_signed (fixedEnv 1700000000000 200 (str "ok")) demoClient (str "POST")
      (str "order/create") demoParams _ (List.mem_singleton_self _)).2.2.2.2.2 (by decide)
      |>.2.2 (by decide) (by decide)⟩⟩

/-! ## The loops over a string never run out of steps -/

theorem decodeRune_size_pos (b : Byte) (t : List Byte) : 1 ≤ (decodeRune (b :: t)).2 := by
  by_cases hb : b.val < 0x80
  · simp [decodeRune, hb]
  · by_cases hv : (decodeRune (b :: t)).1 = RuneError ∧ (decodeRune (b :: t)).2 = 1
    · rw [hv.2]
    · obtain ⟨pre, _, _, hlen, hne, _⟩ := decodeRune_multi b t (by omega) hv
      rw [← hlen]
      exact List.length_pos.mpr hne

/-- The loop of `appendString` writes the same bytes for every step bound that is at least
the length of the string: the bound `len(src)` never cuts the loop short. -/
theorem appendStringLoop_fuel : ∀ (n m : Nat) (s : List Byte), s.length ≤ n → s.length ≤ m →
    appendStringLoop n s = appendStringLoop m s
  | n, m, [], _, _ => by
    cases n <;> cases m <;> simp [appendStringLoop]
  | 0, _, _ :: _, h, _ => by simp at h
  | _, 0, _ :: _, _, h => by simp at h
  | n + 1, m + 1, b :: t, hn, hm => by
    have hn2 : t.length ≤ n := by simpa using hn
    have hm2 : t.length ≤ m := by simpa using hm
    have hpos := decodeRune_size_pos b t
    have hdn : ((b :: t).drop (decodeRune (b :: t)).2).length ≤ n := by
      rw [List.length_drop, List.length_cons]; omega
    have hdm : ((b :: t).drop (decodeRune (b :: t)).2).length ≤ m := by
      rw [List.length_drop, List.length_cons]; omega
    simp only [appendStringLoop]
    rw [appendStringLoop_fuel n m t hn2 hm2,
      appendStringLoop_fuel n m _ hdn hdm]

/-- The scan of `utf8.ValidString` gives the same answer for every step bound that is at
least the length of the string. -/
theorem validUTF8Loop_fuel : ∀ (n m : Nat) (s : List Byte), s.length ≤ n → s.length ≤ m →
    validUTF8Loop n s = validUTF8Loop m s
  | n, m, [], _, _ => by
    cases n <;> cases m <;> simp [validUTF8Loop]
  | 0, _, _ :: _, h, _ => by simp at h
  | _, 0, _ :: _, _, h => by simp at h
  | n + 1, m + 1, b :: t, hn, hm => by
    have hpos := decodeRune_size_pos b t
    have hdn : ((b :: t).drop (decodeRune (b :: t)).2).length ≤ n := by
      rw [List.length_drop, List.length_cons]; simp at hn; omega
    have hdm : ((b :: t).drop (decodeRune (b :: t)).2).length ≤ m := by
      rw [List.length_drop, List.length_cons]; simp at hm; omega
    simp only [validUTF8Loop]
    rw [validUTF8Loop_fuel n m _ hdn hdm]

/-! ## The two classifiers of `pkg/errors` -/

theorem FromBybitAPIError_code (c : Int) (m : GoString) (hc : c ≠ 0) :
    FromBybitAPIError c m =
      some (New (bybitErrorCode c) (str "Bybit API错误: [" ++ formatInt c ++ str "] " ++ m)) := by
  simp [FromBybitAPIError, hc]

/-- C12: `FromBybitAPIError` follows the fixed table for every integer code: nil exactly for
0; InvalidParameter for 10001–10003; InvalidSignature for 10004; AuthFailed for 10005;
PermissionDenied for 10006 and 10007; RateLimited for 10010; the insufficient-balance kind
for 30000–30099; RequestFailed for 110001–110999; Unknown for every other non-zero code
outside 20001–20044, negative codes and 99999 among them. -/
theorem FromBybitAPIError_table (c : Int) (m : GoString) :
    (FromBybitAPIError c m = none ↔ c = 0) ∧
    (10001 ≤ c ∧ c ≤ 10003 →
      (FromBybitAPIError c m).map Error.Code = some ErrInvalidParameter) ∧
    (c = 10004 → (FromBybitAPIError c m).map Error.Code = some ErrInvalidSignature) ∧
    (c = 10005 → (FromBybitAPIError c m).map Error.Code = some ErrAuthFailed) ∧
    (c = 10006 ∨ c = 10007 →
      (FromBybitAPIError c m).map Error.Code = some ErrPermissionDenied) ∧
    (c = 10010 → (FromBybitAPIError c m).map Error.Code = some ErrRateLimitExceeded) ∧
    (30000 ≤ c ∧ c ≤ 30099 →
      (FromBybitAPIError c m).map Error.Code = some ErrInsufficientBalance) ∧
    (110001 ≤ c ∧ c ≤ 110999 →
      (FromBybitAPIError c m).map Error.Code = some ErrAPIRequestFailed) ∧
    (c ≠ 0 → ¬ (10001 ≤ c ∧ c ≤ 10007) → c ≠ 10010 → ¬ (20001 ≤ c ∧ c ≤ 20044) →
      ¬ (30000 ≤ c ∧ c ≤ 30099) → ¬ (110001 ≤ c ∧ c ≤ 110999) →
      (FromBybitAPIError c m).map Error.Code = some ErrUnknown) ∧
    (c < 0 ∨ c = 99999 → (FromBybitAPIError c m).map Error.Code = some ErrUnknown) := by
  refine ⟨?_, ?_, ?_, ?_, ?_, ?_, ?_, ?_, ?_, ?_⟩
  · by_cases hc : c = 0 <;> simp [FromBybitAPIError, hc]
  all_goals
    intros
    rw [FromBybitAPIError_code c m (by omega)]
    simp only [Option.map_some', New, Option.some.injEq, bybitErrorCode]
    repeat' split
    all_goals first | rfl | omega

/-- C13 (as stated) fails: code 20001 gets the order-failed kind `ErrOrderFailed` (30001),
which is not the RequestFailed kind `ErrAPIRequestFailed` (20001). -/
theorem FromBybitAPIError_20001 :
    (FromBybitAPIError 20001 (str "order not exists")).map Error.Code = some ErrOrderFailed ∧
      ErrOrderFailed ≠ ErrAPIRequestFailed ∧
      (FromBybitAPIError 110001 (str "order not exists")).map Error.Code =
        some ErrAPIRequestFailed := by
  decide

/-- C13 (as amended): every vendor code from 20001 to 20044 is classified as the order-failed
kind `ErrOrderFailed`, a kind of its own that differs from the RequestFailed kind
`ErrAPIRequestFailed` assigned to 110001–110999. -/
theorem FromBybitAPIError_order (c : Int) (m : GoString) (h : 20001 ≤ c ∧ c ≤ 20044) :
    (FromBybitAPIError c m).map Error.Code = some ErrOrderFailed ∧
    ErrOrderFailed ≠ ErrAPIRequestFailed ∧
    ∀ c2 : Int, 110001 ≤ c2 ∧ c2 ≤ 110999 →
      (FromBybitAPIError c2 m).map Error.Code = some ErrAPIRequestFailed := by
  refine ⟨?_, by decide, ?_⟩
  · rw [FromBybitAPIError_code c m (by omega)]
    simp only [Option.map_some', New, Option.some.injEq, bybitErrorCode]
    repeat' split
    all_goals first | rfl | omega
  · intro c2 h2
    rw [FromBybitAPIError_code c2 m (by omega)]
    simp only [Option.map_some', New, Option.some.injEq, bybitErrorCode]
    repeat' split
    all_goals first | rfl | omega

/-- Code 20044 with message `x` is classified as `ErrOrderFailed`. -/
theorem FromBybitAPIError_order_witness :
    (FromBybitAPIError 20044 (str "x")).map Error.Code = some ErrOrderFailed :=
  (FromBybitAPIError_order 20044 (str "x") (by decide)).1

/-- C14 (as stated) fails: codes 20001 and 30000 are mapped to `ErrOrderFailed` and
`ErrInsufficientBalance`, neither of which is one of the ten kinds of the enumeration. -/
theorem FromBybitAPIError_outside_enumeration :
    (FromBybitAPIError 20001 (str "x")).map Error.Code = some ErrOrderFailed ∧
      ErrOrderFailed ∉ errorKinds ∧
      (FromBybitAPIError 30000 (str "x")).map Error.Code = some ErrInsufficientBalance ∧
      ErrInsufficientBalance ∉ errorKinds := by
  decide

theorem bybitErrorCode_mem (c : Int) :
    bybitErrorCode c ∈ [ErrInvalidParameter, ErrInvalidSignature, ErrAuthFailed,
      ErrPermissionDenied, ErrRateLimitExceeded, ErrOrderFailed, ErrInsufficientBalance,
      ErrAPIRequestFailed, ErrUnknown] := by
  simp only [bybitErrorCode]
  repeat' split
  all_goals simp

theorem bybitErrorCode_kind (c : Int) :
    bybitErrorCode c ∈ errorKinds ↔ ¬ (20001 ≤ c ∧ c ≤ 20044) ∧ ¬ (30000 ≤ c ∧ c ≤ 30099) := by
  simp only [bybitErrorCode]
  repeat' split
  all_goals
    constructor
    · intro h
      first
        | omega
        | (exfalso; revert h; decide)
    · intro h
      first
        | decide
        | omega

/-- C14 (as amended): for every non-zero vendor code `FromBybitAPIError` produces one error,
whose kind is one of InvalidParameter, InvalidSignature, AuthFailed, PermissionDenied,
RateLimited, RequestFailed, Unknown or one of the two business kinds `ErrOrderFailed` and
`ErrInsufficientBalance`; these nine codes are pairwise different, and the kind lies in the
ten-member enumeration exactly when the code is outside 20001–20044 and 30000–30099. -/
theorem FromBybitAPIError_kinds (c : Int) (m : GoString) (hc : c ≠ 0) :
    ∃ e, FromBybitAPIError c m = some e ∧
      e.Code ∈ [ErrInvalidParameter, ErrInvalidSignature, ErrAuthFailed, ErrPermissionDenied,
        ErrRateLimitExceeded, ErrOrderFailed, ErrInsufficientBalance, ErrAPIRequestFailed,
        ErrUnknown] ∧
      [ErrInvalidParameter, ErrInvalidSignature, ErrAuthFailed, ErrPermissionDenied,
        ErrRateLimitExceeded, ErrOrderFailed, ErrInsufficientBalance, ErrAPIRequestFailed,
        ErrUnknown].Nodup ∧
      (e.Code ∈ errorKinds ↔ ¬ (20001 ≤ c ∧ c ≤ 20044) ∧ ¬ (30000 ≤ c ∧ c ≤ 30099)) :=
  ⟨_, FromBybitAPIError_code c m hc, bybitErrorCode_mem c, by decide, bybitErrorCode_kind c⟩

/-- Code 10005 gives an error whose kind `ErrAuthFailed` is in the enumeration. -/
theorem FromBybitAPIError_kinds_witness :
    ∃ e, FromBybitAPIError 10005 (str "x") = some e ∧ e.Code = ErrAuthFailed ∧
      e.Code ∈ errorKinds :=
  match FromBybitAPIError_kinds 10005 (str "x") (by decide) with
  | ⟨e, he, _, _, hk⟩ =>
    ⟨e, he, by
      have h2 := FromBybitAPIError_code 10005 (str "x") (by decide)
      rw [h2] at he
      cases he
      decide, hk.mpr (by decide)⟩

theorem takeWhile_append_stop (p : Byte → Bool) (a : List Byte) (x : Byte) (rest : List Byte)
    (ha : ∀ b ∈ a, p b = true) (hx : p x = false) :
    (a ++ x :: rest).takeWhile p = a := by
  induction a with
  | nil => simp [List.takeWhile, hx]
  | cons c cs ih =>
    have hc := ha c (List.mem_cons_self _ _)
    rw [List.cons_append, List.takeWhile_cons, hc, if_pos rfl,
      ih (fun b hb => ha b (List.mem_cons_of_mem _ hb))]

theorem formatNat_digits (n : Nat) : ∀ b ∈ formatNat n, 48 ≤ b.val ∧ b.val ≤ 57 := by
  intro b hb
  rcases formatNatAux_digits (n + 1) n [] b hb with h | h
  · simp at h
  · exact h

theorem formatInt_no_bracket (i : Int) : ∀ b ∈ formatInt i, (b != ch ']') = true := by
  intro b hb
  have h93 : (ch ']').val = 93 := by decide
  have hne : b.val ≠ 93 := by
    unfold formatInt at hb
    split at hb
    · rcases List.mem_cons.mp hb with rfl | hb
      · decide
      · have := formatNat_digits _ b hb; omega
    · have := formatNat_digits _ b hb; omega
  simp only [bne_iff_ne, ne_eq]
  intro h
  exact hne (by rw [h, h93])

theorem vendorCodeOf_message (c : Int) (m : GoString) :
    vendorCodeOf (str "Bybit API错误: [" ++ formatInt c ++ str "] " ++ m) = c := by
  have hsplit : str "] " = ch ']' :: str " " := by decide
  unfold vendorCodeOf
  rw [List.append_assoc, List.append_assoc, List.drop_left, hsplit, List.cons_append,
    takeWhile_append_stop _ _ _ _ (formatInt_no_bracket c) (by decide), parseInt_formatInt]

/-- C15: for every non-zero vendor code and every vendor message, the error of
`FromBybitAPIError` has the message `Bybit API错误: [<decimal code>] <vendor message>`: the
vendor message is its unchanged suffix, and the vendor code reads back from it. -/
theorem FromBybitAPIError_message (c : Int) (m : GoString) (hc : c ≠ 0) :
    ∃ e, FromBybitAPIError c m = some e ∧
      e.Message = str "Bybit API错误: [" ++ formatInt c ++ str "] " ++ m ∧
      parseInt (formatInt c) = c ∧
      (∃ pre, e.Message = pre ++ m) ∧
      e.Message.drop (e.Message.length - m.length) = m ∧
      vendorCodeOf e.Message = c := by
  refine ⟨_, FromBybitAPIError_code c m hc, rfl, parseInt_formatInt c, ⟨_, rfl⟩, ?_,
    vendorCodeOf_message c m⟩
  simp only [New]
  have hlen : (str "Bybit API错误: [" ++ formatInt c ++ str "] " ++ m).length - m.length =
      (str "Bybit API错误: [" ++ formatInt c ++ str "] ").length := by
    simp only [List.length_append]; omega
  rw [hlen, List.drop_left]

/-- Code 10001 with message `params error` gives `Bybit API错误: [10001] params error`. -/
theorem FromBybitAPIError_message_witness :
    ∃ e, FromBybitAPIError 10001 (str "params error") = some e ∧
      e.Message = str "Bybit API错误: [10001] params error" ∧ vendorCodeOf e.Message = 10001 :=
  match FromBybitAPIError_message 10001 (str "params error") (by decide) with
  | ⟨e, he, hm, _, _, _, hv⟩ => ⟨e, he, by rw [hm]; decide, hv⟩

/-- C16: `FromHTTPResponse` returns nil for status 200 and an error for every other status:
InvalidParameter for 400, AuthFailed for 401, PermissionDenied for 403, RateLimited for 429,
ServerError for 500, ServiceUnavailable for 503 and Unknown for every remaining status, so
for every other status outside 200–299. -/
theorem FromHTTPResponse_table (status : Int) (body : GoString) :
    (FromHTTPResponse status body = none ↔ status = 200) ∧
    (status = 400 → (FromHTTPResponse status body).map Error.Code = some ErrInvalidParameter) ∧
    (status = 401 → (FromHTTPResponse status body).map Error.Code = some ErrAuthFailed) ∧
    (status = 403 → (FromHTTPResponse status body).map Error.Code = some ErrPermissionDenied) ∧
    (status = 429 → (FromHTTPResponse status body).map Error.Code = some ErrRateLimitExceeded) ∧
    (status = 500 → (FromHTTPResponse status body).map Error.Code = some ErrServerError) ∧
    (status = 503 →
      (FromHTTPResponse status body).map Error.Code = some ErrServiceUnavailable) ∧
    (status ≠ 200 → status ≠ 400 → status ≠ 401 → status ≠ 403 → status ≠ 429 →
      status ≠ 500 → status ≠ 503 →
      (FromHTTPResponse status body).map Error.Code = some ErrUnknown) ∧
    (¬ (200 ≤ status ∧ status ≤ 299) → status ≠ 400 → status ≠ 401 → status ≠ 403 →
      status ≠ 429 → status ≠ 500 → status ≠ 503 →
      (FromHTTPResponse status body).map Error.Code = some ErrUnknown) := by
  refine ⟨?_, ?_, ?_, ?_, ?_, ?_, ?_, ?_, ?_⟩
  · simp only [FromHTTPResponse]
    repeat' split
    all_goals simp_all
  all_goals
    intros
    simp only [FromHTTPResponse]
    repeat' split
    all_goals first | rfl | omega

/-! ## The parameter sets of the resource methods -/

/-- C20 (as stated) fails: a negative `limit` is not zero, yet `GetOrderbook` leaves the
key `limit` out. -/
theorem GetOrderbook_negative_limit :
    (-1 : Int) ≠ 0 ∧
      (GetOrderbookParams (str "spot") (str "BTCUSDT") (-1)).entries =
        [(str "category", str "spot"), (str "symbol", str "BTCUSDT")] ∧
      str "limit" ∉ (GetOrderbookParams (str "spot") (str "BTCUSDT") (-1)).entries.map Prod.fst := by
  decide

/-- C20 (as amended): each resource method of `bybitapi.Client` hands `sendRequest` a map
that holds every required key with the argument unchanged, the key of an optional string
argument exactly when that argument is not the empty string, the key `limit` with its decimal
rendering exactly when `limit` is greater than zero, and no other key. -/
theorem resource_params (env : Env) (c : Client)
    (category symbol interval orderId accountType coin : GoString) (limit : Int) :
    (GetKline env c category symbol interval limit =
        sendRequest env c (str "GET") (str "market/kline")
          (GetKlineParams category symbol interval limit) false ∧
      (GetKlineParams category symbol interval limit).entries =
        [(str "category", category), (str "symbol", symbol), (str "interval", interval)] ++
          (if limit > 0 then [(str "limit", formatInt limit)] else [])) ∧
    (GetOrderbook env c category symbol limit =
        sendRequest env c (str "GET") (str "market/orderbook")
          (GetOrderbookParams category symbol limit) false ∧
      (GetOrderbookParams category symbol limit).entries =
        [(str "category", category), (str "symbol", symbol)] ++
          (if limit > 0 then [(str "limit", formatInt limit)] else [])) ∧
    (GetTickers env c category symbol =
        sendRequest env c (str "GET") (str "market/tickers")
          (GetTickersParams category symbol) false ∧
      (GetTickersParams category symbol).entries =
        [(str "category", category)] ++ (if symbol ≠ [] then [(str "symbol", symbol)] else [])) ∧
    (CancelOrder env c category symbol orderId =
        sendRequest env c (str "POST") (str "order/cancel")
          (CancelOrderParams category symbol orderId) true ∧
      (CancelOrderParams category symbol orderId).entries =
        [(str "category", category), (str "symbol", symbol)] ++
          (if orderId ≠ [] then [(str "orderId", orderId)] else [])) ∧
    (GetOrders env c category symbol limit =
        sendRequest env c (str "GET") (str "order/history")
          (GetOrdersParams category symbol limit) true ∧
      (GetOrdersParams category symbol limit).entries =
        [(str "category", category)] ++ (if symbol ≠ [] then [(str "symbol", symbol)] else []) ++
          (if limit > 0 then [(str "limit", formatInt limit)] else [])) ∧
    (GetPositions env c category symbol =
        sendRequest env c (str "GET") (str "position/list")
          (GetPositionsParams category symbol) true ∧
      (GetPositionsParams category symbol).entries =
        [(str "category", category)] ++ (if symbol ≠ [] then [(str "symbol", symbol)] else [])) ∧
    (GetWalletBalance env c accountType coin =
        sendRequest env c (str "GET") (str "account/wallet-balance")
          (GetWalletBalanceParams accountType coin) true ∧
      (GetWalletBalanceParams accountType coin).entries =
        [(str "accountType", accountType)] ++ (if coin ≠ [] then [(str "coin", coin)] else [])) ∧
    (GetAssetInfo env c accountType =
        sendRequest env c (str "GET") (str "asset/transfer/query-asset-info")
          (GetAssetInfoParams accountType) true ∧
      (GetAssetInfoParams accountType).entries =
        (if accountType ≠ [] then [(str "accountType", accountType)] else [])) := by
  have k1 : str "category" ≠ str "symbol" := by decide
  have k2 : str "category" ≠ str "interval" := by decide
  have k3 : str "symbol" ≠ str "interval" := by decide
  have k4 : str "category" ≠ str "limit" := by decide
  have k5 : str "symbol" ≠ str "limit" := by decide
  have k6 : str "interval" ≠ str "limit" := by decide
  have k7 : str "category" ≠ str "orderId" := by decide
  have k8 : str "symbol" ≠ str "orderId" := by decide
  have k9 : str "accountType" ≠ str "coin" := by decide
  refine ⟨⟨rfl, ?_⟩, ⟨rfl, ?_⟩, ⟨rfl, ?_⟩, ⟨rfl, ?_⟩, ⟨rfl, ?_⟩, ⟨rfl, ?_⟩, ⟨rfl, ?_⟩, ⟨rfl, ?_⟩⟩
  · by_cases hl : limit > 0 <;>
      simp [GetKlineParams, mapLiteral, ParamSet.set, setEntry, emptyParams, hl, k1, k2, k3,
        k4, k5, k6]
  · by_cases hl : limit > 0 <;>
      simp [GetOrderbookParams, mapLiteral, ParamSet.set, setEntry, emptyParams, hl, k1, k4, k5]
  · by_cases hs : symbol = [] <;>
      simp [GetTickersParams, mapLiteral, ParamSet.set, setEntry, emptyParams, hs, k1]
  · by_cases ho : orderId = [] <;>
      simp [CancelOrderParams, mapLiteral, ParamSet.set, setEntry, emptyParams, ho, k1, k7, k8]
  · by_cases hs : symbol = [] <;> by_cases hl : limit > 0 <;>
      simp [GetOrdersParams, mapLiteral, ParamSet.set, setEntry, emptyParams, hs, hl, k1, k4, k5]
  · by_cases hs : symbol = [] <;>
      simp [GetPositionsParams, mapLiteral, ParamSet.set, setEntry, emptyParams, hs, k1]
  · by_cases hc : coin = [] <;>
      simp [GetWalletBalanceParams, mapLiteral, ParamSet.set, setEntry, emptyParams, hc, k9]
  · by_cases ha : accountType = [] <;>
      simp [GetAssetInfoParams, mapLiteral, ParamSet.set, setEntry, emptyParams, ha]

/-! ## Resource methods: what they do with the decoded envelope -/

/-- C11 (as stated) fails: the HTTP-200 body of a vendor failure with `retCode` 10001, for
which `FromBybitAPIError` gives an InvalidParameter error, comes back from a method of
`internal/service` and from a method of `internal/api` as an envelope with a nil error. -/
theorem resource_method_returns_failure_envelope :
    Unmarshal failureBody = Except.ok failureResponse ∧ failureResponse.RetCode ≠ 0 ∧
      (FromBybitAPIError 10001 (str "params error")).map Error.Code = some ErrInvalidParameter ∧
      serviceMethod demoJsonError
          (GetTickers (fixedEnv 0 200 failureBody) demoClient (str "spot") (str "BTCUSDT")) =
        (some failureResponse, none) ∧
      apiMethod demoJsonError ErrAPIRequestFailed (str "获取行情数据失败")
          (str "解析行情数据失败") failureBody none =
        (some failureResponse, none) := by
  decide

/-- C11 (as amended): for every body that decodes to an envelope, with whatever `retCode`,
every resource method returns that envelope unchanged with a nil error: `parseResponse`,
the methods of `internal/service` when the client call returned the body without error, and
the methods of `internal/api` likewise; the vendor code is not classified. A method returns
an envelope with a nil error exactly when the call gave no error and the body decodes. -/
theorem resource_method_envelope (jsonError : JsonError → GoError) (data : List Byte)
    (r : Response) (h : Unmarshal data = Except.ok r) :
    parseResponse jsonError data = (some r, none) ∧
    (∀ call : Outcome, call.err = none → call.body = some data →
      serviceMethod jsonError call = (some r, none)) ∧
    (∀ (failCode : Int) (failMessage parseMessage : GoString),
      apiMethod jsonError failCode failMessage parseMessage data none = (some r, none)) ∧
    (∀ (failCode : Int) (failMessage parseMessage : GoString) (body : List Byte)
        (err : Option GoError),
      (apiMethod jsonError failCode failMessage parseMessage body err).2 = none ↔
        err = none ∧ ∃ r2, Unmarshal body = Except.ok r2) := by
  refine ⟨?_, ?_, ?_, ?_⟩
  · simp [parseResponse, h]
  · intro call he hb
    simp [serviceMethod, he, hb, parseResponse, h]
  · intro failCode failMessage parseMessage
    simp [apiMethod, h]
  · intro failCode failMessage parseMessage body err
    cases err with
    | some e => simp [apiMethod]
    | none =>
      cases hu : Unmarshal body with
      | error e => simp [apiMethod, hu]
      | ok r2 => simp [apiMethod, hu]

/-- The failure envelope with `retCode` 10001 is returned by `parseResponse` with a nil
error. -/
theorem resource_method_envelope_witness :
    parseResponse demoJsonError failureBody = (some failureResponse, none) :=
  (resource_method_envelope demoJsonError failureBody failureResponse (by decide)).1

/-- C17: for every body that is not well-formed JSON, decoding gives an error and no
envelope: `json.Unmarshal` fails with its syntax error, `parseResponse` returns no response
and an error, every method of `internal/service` does the same, and every method of
`internal/api` returns no response and an error with code `ErrAPIResponseInvalid` whose cause
is the decode error. All of these are total functions. -/
theorem malformed_body (jsonError : JsonError → GoError) (data : List Byte)
    (h : parseJSON data = none) :
    Unmarshal data = Except.error JsonError.invalid ∧
    parseResponse jsonError data =
      (none, some { text := str "解析响应失败: " ++ (jsonError JsonError.invalid).text }) ∧
    (∀ call : Outcome, call.err = none → call.body = some data →
      (serviceMethod jsonError call).1 = none ∧ (serviceMethod jsonError call).2 ≠ none) ∧
    (∀ (failCode : Int) (failMessage parseMessage : GoString),
      apiMethod jsonError failCode failMessage parseMessage data none =
        (none, some { Code := ErrAPIResponseInvalid, Message := parseMessage,
                      Cause := some (jsonError JsonError.invalid) })) := by
  have hu : Unmarshal data = Except.error JsonError.invalid := by simp [Unmarshal, h]
  refine ⟨hu, ?_, ?_, ?_⟩
  · simp [parseResponse, hu]
  · intro call he hb
    simp [serviceMethod, he, hb, parseResponse, hu]
  · intro failCode failMessage parseMessage
    simp [apiMethod, hu]

/-- The bytes `not json` are no JSON text: decoding fails, and a method of `internal/api`
returns the `ErrAPIResponseInvalid` error. -/
theorem malformed_body_witness :
    parseJSON (str "not json") = none ∧
      apiMethod demoJsonError ErrAPIRequestFailed (str "获取K线数据失败") (str "解析K线数据失败")
          (str "not json") none =
        (none, some { Code := ErrAPIResponseInvalid, Message := str "解析K线数据失败",
                      Cause := some (demoJsonError JsonError.invalid) }) :=
  ⟨by decide,
   (malformed_body demoJsonError (str "not json") (by decide)).2.2.2 ErrAPIRequestFailed
      (str "获取K线数据失败") (str "解析K线数据失败")⟩

/-! ## Missing envelope fields -/

theorem decodeMember_none (r : Response) (k : GoString) (v : JValue) (h : fieldOf k = none) :
    decodeMember r k v = Except.ok r := by
  simp [decodeMember, h]

/-- A member leaves every field it does not name as it was. -/
theorem decodeMember_keeps (r r2 : Response) (k : GoString) (v : JValue)
    (h : decodeMember r k v = Except.ok r2) :
    (fieldOf k ≠ some Field.retCode → r2.RetCode = r.RetCode) ∧
    (fieldOf k ≠ some Field.retMsg → r2.RetMsg = r.RetMsg) ∧
    (fieldOf k ≠ some Field.result → r2.Result = r.Result) ∧
    (fieldOf k ≠ some Field.retExtInfo → r2.RetExtInfo = r.RetExtInfo) ∧
    (fieldOf k ≠ some Field.time → r2.Time = r.Time) := by
  unfold decodeMember at h
  cases hf : fieldOf k with
  | none =>
    simp only [hf] at h
    cases h
    simp
  | some f =>
    cases f <;> simp only [hf] at h <;> split at h <;> cases h <;> simp

theorem decodeMembers_keeps : ∀ (ms : List (GoString × JValue)) (r r2 : Response),
    decodeMembers r ms = Except.ok r2 →
    ((∀ m ∈ ms, fieldOf m.1 ≠ some Field.retCode) → r2.RetCode = r.RetCode) ∧
    ((∀ m ∈ ms, fieldOf m.1 ≠ some Field.retMsg) → r2.RetMsg = r.RetMsg) ∧
    ((∀ m ∈ ms, fieldOf m.1 ≠ some Field.result) → r2.Result = r.Result) ∧
    ((∀ m ∈ ms, fieldOf m.1 ≠ some Field.retExtInfo) → r2.RetExtInfo = r.RetExtInfo) ∧
    ((∀ m ∈ ms, fieldOf m.1 ≠ some Field.time) → r2.Time = r.Time)
  | [], r, r2, h => by
    simp only [decodeMembers] at h
    cases h
    simp
  | (k, v) :: ms, r, r2, h => by
    simp only [decodeMembers] at h
    cases hm : decodeMember r k v with
    | error e => simp [hm] at h
    | ok r1 =>
      simp only [hm] at h
      have ih := decodeMembers_keeps ms r1 r2 h
      have h1 := decodeMember_keeps r r1 k v hm
      refine ⟨?_, ?_, ?_, ?_, ?_⟩
      · intro hall
        rw [ih.1 (fun m hmem => hall m (List.mem_cons_of_mem _ hmem)),
          h1.1 (hall (k, v) (List.mem_cons_self _ _))]
      · intro hall
        rw [ih.2.1 (fun m hmem => hall m (List.mem_cons_of_mem _ hmem)),
          h1.2.1 (hall (k, v) (List.mem_cons_self _ _))]
      · intro hall
        rw [ih.2.2.1 (fun m hmem => hall m (List.mem_cons_of_mem _ hmem)),
          h1.2.2.1 (hall (k, v) (List.mem_cons_self _ _))]
      · intro hall
        rw [ih.2.2.2.1 (fun m hmem => hall m (List.mem_cons_of_mem _ hmem)),
          h1.2.2.2.1 (hall (k, v) (List.mem_cons_self _ _))]
      · intro hall
        rw [ih.2.2.2.2 (fun m hmem => hall m (List.mem_cons_of_mem _ hmem)),
          h1.2.2.2.2 (hall (k, v) (List.mem_cons_self _ _))]

theorem decodeMembers_no_field : ∀ (ms : List (GoString × JValue)) (r : Response),
    (∀ m ∈ ms, fieldOf m.1 = none) → decodeMembers r ms = Except.ok r
  | [], _, _ => rfl
  | (k, v) :: ms, r, h => by
    simp only [decodeMembers, decodeMember_none r k v (h (k, v) (List.mem_cons_self _ _))]
    exact decodeMembers_no_field ms r (fun m hm => h m (List.mem_cons_of_mem _ hm))

/-- C18 (as stated) fails: the empty object, and an object without a `retCode` member, are
decoded without error; `parseResponse` and a method of `internal/api` return the zero-value
envelope, respectively an envelope with code 0, together with a nil error. -/
theorem missing_fields_accepted :
    parseJSON (str "\x7b\x7d") = some (JValue.object []) ∧
      parseResponse demoJsonError (str "\x7b\x7d") = (some zeroResponse, none) ∧
      apiMethod demoJsonError ErrAPIRequestFailed (str "获取K线数据失败") (str "解析K线数据失败")
          (str "\x7b\x7d") none = (some zeroResponse, none) ∧
      parseResponse demoJsonError (str "\x7b\"retMsg\":\"OK\"\x7d") =
        (some { zeroResponse with RetMsg := str "OK" }, none) := by
  decide

/-- C18 (as amended): for every well-formed JSON body that is an object, a missing envelope
field is no error: when decoding succeeds each field no member names is left at its zero
value, and for an object none of whose members names a field, the empty object among them,
decoding succeeds with the zero-value envelope and `parseResponse` returns it with a nil
error. -/
theorem missing_fields (data : List Byte) (ms : List (GoString × JValue))
    (h : parseJSON data = some (JValue.object ms)) :
    (∀ r, Unmarshal data = Except.ok r →
      ((∀ m ∈ ms, fieldOf m.1 ≠ some Field.retCode) → r.RetCode = 0) ∧
      ((∀ m ∈ ms, fieldOf m.1 ≠ some Field.retMsg) → r.RetMsg = []) ∧
      ((∀ m ∈ ms, fieldOf m.1 ≠ some Field.result) → r.Result = JValue.null) ∧
      ((∀ m ∈ ms, fieldOf m.1 ≠ some Field.retExtInfo) → r.RetExtInfo = JValue.null) ∧
      ((∀ m ∈ ms, fieldOf m.1 ≠ some Field.time) → r.Time = 0)) ∧
    ((∀ m ∈ ms, fieldOf m.1 = none) →
      Unmarshal data = Except.ok zeroResponse ∧
      ∀ jsonError, parseResponse jsonError data = (some zeroResponse, none)) := by
  have hu : Unmarshal data = decodeMembers zeroResponse ms := by
    simp [Unmarshal, h, decodeResponse]
  constructor
  · intro r hr
    rw [hu] at hr
    exact decodeMembers_keeps ms zeroResponse r hr
  · intro hall
    have h0 := decodeMembers_no_field ms zeroResponse hall
    refine ⟨by rw [hu, h0], fun jsonError => ?_⟩
    simp [parseResponse, hu, h0]

/-- The object `{"foo":"bar"}` names no envelope field and decodes to the zero-value
envelope. -/
theorem missing_fields_witness :
    parseJSON (str "\x7b\"foo\":\"bar\"\x7d") =
        some (JValue.object [(str "foo", JValue.str (str "bar"))]) ∧
      Unmarshal (str "\x7b\"foo\":\"bar\"\x7d") = Except.ok zeroResponse :=
  ⟨by decide,
   ((missing_fields (str "\x7b\"foo\":\"bar\"\x7d") [(str "foo", JValue.str (str "bar"))]
      (by decide)).2 (by decide)).1⟩

/-! ## Well-formed runes are written back unchanged -/

/-- A well-formed multi-byte rune at the head of a string is decoded from its own bytes
alone, and `utf8Encode` writes the same bytes for it. -/
theorem decodeRune_valid (s0 : Byte) (rest : List Byte) (h0 : 0x80 ≤ s0.val)
    (hv : ¬ ((decodeRune (s0 :: rest)).1 = RuneError ∧ (decodeRune (s0 :: rest)).2 = 1)) :
    ∃ pre post, s0 :: rest = pre ++ post ∧ pre.length = (decodeRune (s0 :: rest)).2 ∧
      utf8Encode (decodeRune (s0 :: rest)).1 = pre ∧
      ∀ tail, decodeRune (pre ++ tail) = decodeRune (s0 :: rest) := by
  have hlt : ¬ s0.val < 0x80 := by omega
  by_cases h1 : s0.val < 0xC2
  · simp [decodeRune, hlt, h1, RuneError] at hv
  by_cases h2 : s0.val < 0xE0
  · rcases rest with _ | ⟨s1, t⟩
    · simp [decodeRune, hlt, h1, h2, RuneError] at hv
    · by_cases hr : inRange s1 0x80 0xBF = true
      · have hd : ∀ tail, decodeRune (s0 :: s1 :: tail) =
            (s0.val % 32 * 64 + s1.val % 64, 2) := by
          intro tail; simp [decodeRune, hlt, h1, h2, hr]
        simp only [inRange, Bool.and_eq_true, decide_eq_true_eq] at hr
        refine ⟨[s0, s1], t, rfl, by rw [hd]; rfl, ?_, fun tail => by
          rw [hd t]; exact hd tail⟩
        rw [hd]
        have c1 : ¬ (s0.val % 32 * 64 + s1.val % 64 < 0x80) := by omega
        have c2 : s0.val % 32 * 64 + s1.val % 64 < 0x800 := by omega
        simp only [utf8Encode, c1, c2, if_false, if_true]
        have e0 : byteOfNat (0xC0 + (s0.val % 32 * 64 + s1.val % 64) / 64) = s0 :=
          byte_eq_of_val (by simp only [byteOfNat]; omega)
        have e1 : byteOfNat (0x80 + (s0.val % 32 * 64 + s1.val % 64) % 64) = s1 :=
          byte_eq_of_val (by simp only [byteOfNat]; omega)
        rw [e0, e1]
      · simp [decodeRune, hlt, h1, h2, hr, RuneError] at hv
  by_cases h3 : s0.val < 0xF0
  · rcases rest with _ | ⟨s1, _ | ⟨s2, t⟩⟩
    · simp [decodeRune, hlt, h1, h2, h3, RuneError] at hv
    · simp [decodeRune, hlt, h1, h2, h3, RuneError] at hv
    · by_cases hr : (inRange s1 (if s0.val = 0xE0 then 0xA0 else 0x80)
          (if s0.val = 0xED then 0x9F else 0xBF) && inRange s2 0x80 0xBF) = true
      · have hd : ∀ tail, decodeRune (s0 :: s1 :: s2 :: tail) =
            (s0.val % 16 * 4096 + s1.val % 64 * 64 + s2.val % 64, 3) := by
          intro tail; simp [decodeRune, hlt, h1, h2, h3, hr]
        simp only [inRange, Bool.and_eq_true, decide_eq_true_eq] at hr
        obtain ⟨⟨hr1, hr2⟩, hr3, hr4⟩ := hr
        have hlo : 0x80 ≤ s1.val ∧ (s0.val = 0xE0 → 0xA0 ≤ s1.val) := by
          split at hr1 <;> omega
        have hhi : s1.val ≤ 0xBF ∧ (s0.val = 0xED → s1.val ≤ 0x9F) := by
          split at hr2 <;> omega
        refine ⟨[s0, s1, s2], t, rfl, by rw [hd]; rfl, ?_, fun tail => by
          rw [hd t]; exact hd tail⟩
        rw [hd]
        have c1 : ¬ (s0.val % 16 * 4096 + s1.val % 64 * 64 + s2.val % 64 < 0x80) := by omega
        have c2 : ¬ (s0.val % 16 * 4096 + s1.val % 64 * 64 + s2.val % 64 < 0x800) := by omega
        have c3 : ¬ ((0xD800 ≤ s0.val % 16 * 4096 + s1.val % 64 * 64 + s2.val % 64 ∧
            s0.val % 16 * 4096 + s1.val % 64 * 64 + s2.val % 64 ≤ 0xDFFF) ∨
            0x10FFFF < s0.val % 16 * 4096 + s1.val % 64 * 64 + s2.val % 64) := by omega
        have c4 : s0.val % 16 * 4096 + s1.val % 64 * 64 + s2.val % 64 < 0x10000 := by omega
        simp only [utf8Encode, c1, c2, c3, c4, if_false, if_true]
        have e0 : byteOfNat (0xE0 + (s0.val % 16 * 4096 + s1.val % 64 * 64 + s2.val % 64) / 4096)
            = s0 := byte_eq_of_val (by simp only [byteOfNat]; omega)
        have e1 : byteOfNat (0x80 + (s0.val % 16 * 4096 + s1.val % 64 * 64 + s2.val % 64) / 64
            % 64) = s1 := byte_eq_of_val (by simp only [byteOfNat]; omega)
        have e2 : byteOfNat (0x80 + (s0.val % 16 * 4096 + s1.val % 64 * 64 + s2.val % 64) % 64)
            = s2 := byte_eq_of_val (by simp only [byteOfNat]; omega)
        rw [e0, e1, e2]
      · simp [decodeRune, hlt, h1, h2, h3, hr, RuneError] at hv
  by_cases h4 : s0.val < 0xF5
  · rcases rest with _ | ⟨s1, _ | ⟨s2, _ | ⟨s3, t⟩⟩⟩
    · simp [decodeRune, hlt, h1, h2, h3, h4, RuneError] at hv
    · simp [decodeRune, hlt, h1, h2, h3, h4, RuneError] at hv
    · simp [decodeRune, hlt, h1, h2, h3, h4, RuneError] at hv
    · by_cases hr : (inRange s1 (if s0.val = 0xF0 then 0x90 else 0x80)
          (if s0.val = 0xF4 then 0x8F else 0xBF) && inRange s2 0x80 0xBF
          && inRange s3 0x80 0xBF) = true
      · have hd : ∀ tail, decodeRune (s0 :: s1 :: s2 :: s3 :: tail) =
            (s0.val % 8 * 262144 + s1.val % 64 * 4096 + s2.val % 64 * 64 + s3.val % 64, 4) := by
          intro tail; simp [decodeRune, hlt, h1, h2, h3, h4, hr]
        simp only [inRange, Bool.and_eq_true, decide_eq_true_eq] at hr
        obtain ⟨⟨⟨hr1, hr2⟩, hr3, hr4⟩, hr5, hr6⟩ := hr
        have hlo : 0x80 ≤ s1.val ∧ (s0.val = 0xF0 → 0x90 ≤ s1.val) := by
          split at hr1 <;> omega
        have hhi : s1.val ≤ 0xBF ∧ (s0.val = 0xF4 → s1.val ≤ 0x8F) := by
          split at hr2 <;> omega
        refine ⟨[s0, s1, s2, s3], t, rfl, by rw [hd]; rfl, ?_, fun tail => by
          rw [hd t]; exact hd tail⟩
        rw [hd]
        generalize hR : s0.val % 8 * 262144 + s1.val % 64 * 4096 + s2.val % 64 * 64
          + s3.val % 64 = R
        have c1 : ¬ (R < 0x80) := by omega
        have c2 : ¬ (R < 0x800) := by omega
        have c3 : ¬ ((0xD800 ≤ R ∧ R ≤ 0xDFFF) ∨ 0x10FFFF < R) := by omega
        have c4 : ¬ (R < 0x10000) := by omega
        simp only [utf8Encode, c1, c2, c3, c4, if_false]
        have e0 : byteOfNat (0xF0 + R / 262144) = s0 :=
          byte_eq_of_val (by simp only [byteOfNat]; omega)
        have e1 : byteOfNat (0x80 + R / 4096 % 64) = s1 :=
          byte_eq_of_val (by simp only [byteOfNat]; omega)
        have e2 : byteOfNat (0x80 + R / 64 % 64) = s2 :=
          byte_eq_of_val (by simp only [byteOfNat]; omega)
        have e3 : byteOfNat (0x80 + R % 64) = s3 :=
          byte_eq_of_val (by simp only [byteOfNat]; omega)
        rw [e0, e1, e2, e3]
      · simp [decodeRune, hlt, h1, h2, h3, h4, hr, RuneError] at hv
  · simp [decodeRune, hlt, h1, h2, h3, h4, RuneError] at hv

/-! ## `unquote` reads back what `appendString` wrote -/

theorem unquoteLoop_quote (fuel : Nat) (rest : List Byte) :
    unquoteLoop (fuel + 1) (34 :: rest) = some ([], rest) := by
  have h : ((34 : Byte)).val = 34 := rfl
  simp only [unquoteLoop, h, if_true]

theorem unquoteLoop_ascii (fuel : Nat) (b : Byte) (rest : List Byte)
    (h1 : b.val ≠ 34) (h2 : b.val ≠ 92) (h3 : ¬ b.val < 0x20) (h4 : b.val < 0x80) :
    unquoteLoop (fuel + 1) (b :: rest) =
      (unquoteLoop fuel rest).map (fun p => (b :: p.1, p.2)) := by
  simp only [unquoteLoop, h1, h2, h3, h4, if_false, if_true]
  cases unquoteLoop fuel rest with
  | none => rfl
  | some p => rfl

theorem unquoteLoop_escape (fuel : Nat) (b : Byte) (rest bytes rest2 : List Byte)
    (hb : b.val = 92) (h : readEscape rest = some (bytes, rest2)) :
    unquoteLoop (fuel + 1) (b :: rest) =
      (unquoteLoop fuel rest2).map (fun p => (bytes ++ p.1, p.2)) := by
  have h1 : b.val ≠ 34 := by omega
  simp only [unquoteLoop, h1, hb, if_false, if_true, h]
  cases unquoteLoop fuel rest2 with
  | none => rfl
  | some p => rfl

theorem unquoteLoop_rune (fuel : Nat) (b : Byte) (rest : List Byte) (h0 : 0x80 ≤ b.val) :
    unquoteLoop (fuel + 1) (b :: rest) =
      (unquoteLoop fuel ((b :: rest).drop (decodeRune (b :: rest)).2)).map
        (fun p => (utf8Encode (decodeRune (b :: rest)).1 ++ p.1, p.2)) := by
  have h1 : b.val ≠ 34 := by omega
  have h2 : b.val ≠ 92 := by omega
  have h3 : ¬ b.val < 0x20 := by omega
  have h4 : ¬ b.val < 0x80 := by omega
  simp only [unquoteLoop, h1, h2, h3, h4, if_false]
  cases unquoteLoop fuel ((b :: rest).drop (decodeRune (b :: rest)).2) with
  | none => rfl
  | some p => rfl

theorem unquoteLoop_mono : ∀ (fuel : Nat) (s : List Byte) (x : List Byte × List Byte),
    unquoteLoop fuel s = some x → ∀ fuel2, fuel ≤ fuel2 → unquoteLoop fuel2 s = some x
  | 0, _, _, h, _, _ => by simp [unquoteLoop] at h
  | fuel + 1, [], _, h, _, _ => by simp [unquoteLoop] at h
  | fuel + 1, b :: rest, x, h, fuel2, hle => by
    obtain ⟨f2, rfl⟩ : ∃ f2, fuel2 = f2 + 1 := ⟨fuel2 - 1, by omega⟩
    have hle2 : fuel ≤ f2 := by omega
    by_cases hq : b.val = 34
    · simp only [unquoteLoop, hq, if_true] at h ⊢
      exact h
    by_cases hbs : b.val = 92
    · cases hre : readEscape rest with
      | none => simp [unquoteLoop, hq, hbs, hre] at h
      | some br =>
        obtain ⟨bytes, rest2⟩ := br
        rw [unquoteLoop_escape _ _ _ _ _ hbs hre] at h ⊢
        cases hp : unquoteLoop fuel rest2 with
        | none => simp [hp] at h
        | some p =>
          rw [unquoteLoop_mono fuel rest2 p hp f2 hle2]
          simpa [hp] using h
    by_cases hc : b.val < 0x20
    · simp [unquoteLoop, hq, hbs, hc] at h
    by_cases ha : b.val < 0x80
    · rw [unquoteLoop_ascii _ _ _ hq hbs hc ha] at h ⊢
      cases hp : unquoteLoop fuel rest with
      | none => simp [hp] at h
      | some p =>
        rw [unquoteLoop_mono fuel rest p hp f2 hle2]
        simpa [hp] using h
    · rw [unquoteLoop_rune _ _ _ (by omega)] at h ⊢
      cases hp : unquoteLoop fuel ((b :: rest).drop (decodeRune (b :: rest)).2) with
      | none => simp [hp] at h
      | some p =>
        rw [unquoteLoop_mono fuel _ p hp f2 hle2]
        simpa [hp] using h

/-- Reading back, as the decoder does, the body `appendString` wrote for a valid UTF-8
string gives the string. -/
theorem unquoteLoop_appendStringLoop : ∀ (n : Nat) (s : List Byte), s.length ≤ n →
    validUTF8Loop n s = true → ∀ rest : List Byte,
      unquoteLoop ((appendStringLoop n s).length + 1) (appendStringLoop n s ++ 34 :: rest)
        = some (s, rest)
  | n, [], _, _, rest => by
    cases n <;> simp only [appendStringLoop, List.length_nil, List.nil_append] <;>
      exact unquoteLoop_quote 0 rest
  | 0, _ :: _, hlen, _, _ => by simp at hlen
  | n + 1, b :: t, hlen, hvalid, rest => by
    have hlen2 : t.length ≤ n := by simpa using hlen
    simp only [validUTF8Loop] at hvalid
    simp only [appendStringLoop]
    by_cases hb : b.val < 0x80
    · have hdec : decodeRune (b :: t) = (b.val, 1) := by simp [decodeRune, hb]
      have hne : b.val ≠ RuneError := by
        simp only [RuneError]; omega
      simp only [hdec, hne, false_and, if_false, List.drop_succ_cons, List.drop_zero] at hvalid
      have ih := unquoteLoop_appendStringLoop n t hlen2 hvalid rest
      simp only [hb, if_true]
      by_cases hs : htmlSafe b = true
      · obtain ⟨h1, h2, h3⟩ := htmlSafe_plain b hs
        simp only [hs, if_true, List.singleton_append, List.length_cons, List.cons_append,
          List.nil_append]
        rw [unquoteLoop_ascii _ b _ h1 h2 h3 hb, ih]
        rfl
      · simp only [hs]
        obtain ⟨e, he, hre⟩ := readEscape_jsonEscapeByte b hb (appendStringLoop n t ++ 34 :: rest)
        simp only [he, Bool.false_eq_true, if_false, List.cons_append, List.length_cons,
          List.length_append]
        rw [List.append_assoc, unquoteLoop_escape _ _ _ _ _ rfl hre,
          unquoteLoop_mono _ _ _ ih _ (by omega)]
        rfl
    · have h0 : 0x80 ≤ b.val := by omega
      by_cases hv : (decodeRune (b :: t)).1 = RuneError ∧ (decodeRune (b :: t)).2 = 1
      · simp [hv] at hvalid
      · simp only [hv, if_false] at hvalid
        obtain ⟨pre, post, hsplit, hprelen, hprene, hpre, h8, h9⟩ := decodeRune_multi b t h0 hv
        obtain ⟨pre2, post2, hsplit2, hprelen2, henc, hdec⟩ := decodeRune_valid b t h0 hv
        have hpre2 : pre2 = pre := by
          have := congrArg (List.take (decodeRune (b :: t)).2) (hsplit.symm.trans hsplit2)
          rw [← hprelen] at this
          rw [List.take_left] at this
          rw [hprelen, ← hprelen2, List.take_left] at this
          exact this.symm
        subst hpre2
        have htake : (b :: t).take (decodeRune (b :: t)).2 = pre2 := by
          rw [← hprelen, hsplit]; simp
        have hdrop : (b :: t).drop (decodeRune (b :: t)).2 = post := by
          rw [← hprelen, hsplit]; simp
        rw [hdrop] at hvalid
        have hpostlen : post.length ≤ n := by
          have h1 := congrArg List.length hsplit
          have h2 : 0 < pre2.length := List.length_pos.mpr hprene
          simp only [List.length_cons, List.length_append] at h1
          omega
        have ih := unquoteLoop_appendStringLoop n post hpostlen hvalid rest
        simp only [hb, hv, if_false, htake, hdrop]
        by_cases hsep : (decodeRune (b :: t)).1 = 0x2028 ∨ (decodeRune (b :: t)).1 = 0x2029
        · simp only [hsep, if_true]
          have hre := readEscape_lineSep _ pre2 (appendStringLoop n post ++ 34 :: rest) h8 h9 hsep
          have hstr : str "\\u202" = [92, ch 'u', ch '2', ch '0', ch '2'] := by decide
          simp only [hstr, List.cons_append, List.nil_append, List.length_cons,
            List.length_append, List.append_assoc]
          rw [unquoteLoop_escape _ _ _ _ _ rfl hre,
            unquoteLoop_mono _ _ _ ih _ (by omega), hsplit]
          rfl
        · simp only [hsep, if_false, List.length_append, List.append_assoc]
          obtain ⟨p0, ptail, hp0⟩ : ∃ p0 ptail, pre2 = p0 :: ptail := by
            cases pre2 with
            | nil => exact absurd rfl hprene
            | cons p0 ptail => exact ⟨p0, ptail, rfl⟩
          have hp0b : p0 = b := by
            rw [hp0] at hsplit
            simp only [List.cons_append, List.cons.injEq] at hsplit
            exact hsplit.1.symm
          have hdecX := hdec (appendStringLoop n post ++ 34 :: rest)
          have hfuel : pre2.length + (appendStringLoop n post).length + 1 =
              (pre2.length - 1 + ((appendStringLoop n post).length + 1)) + 1 := by
            have : 0 < pre2.length := List.length_pos.mpr hprene
            omega
          rw [hfuel]
          have hshape : pre2 ++ (appendStringLoop n post ++ 34 :: rest) =
              b :: (ptail ++ (appendStringLoop n post ++ 34 :: rest)) := by
            rw [hp0, hp0b]; rfl
          rw [hshape, unquoteLoop_rune _ _ _ h0, ← hshape, hdecX, henc, ← hprelen,
            List.drop_left, unquoteLoop_mono _ _ _ ih _ (by omega), hsplit]
          rfl

theorem unquote_appendString (s rest : List Byte) (h : validUTF8 s = true) :
    unquote (appendString s ++ rest) = some (s, rest) := by
  have hmain := unquoteLoop_appendStringLoop s.length s (Nat.le_refl _) h rest
  have h34 : ((34 : Byte)).val = 34 := rfl
  simp only [appendString, List.singleton_append, List.cons_append, List.append_assoc,
    unquote, h34, if_true]
  exact unquoteLoop_mono _ _ _ hmain _ (by simp)

/-! ## Number literals: what `strconv.FormatInt` writes is scanned and read back -/

theorem span_isDigit_stop (ds : List Byte) (c : Byte) (rest : List Byte)
    (hds : ∀ b ∈ ds, isDigit b = true) (hc : isDigit c = false) :
    (ds ++ c :: rest).span isDigit = (ds, c :: rest) := by
  rw [List.span_eq_take_drop]
  induction ds with
  | nil => simp [List.takeWhile, List.dropWhile, hc]
  | cons d ds ih =>
    have hd := hds d (List.mem_cons_self _ _)
    have ih2 := ih (fun b hb => hds b (List.mem_cons_of_mem _ hb))
    simp only [List.cons_append, List.takeWhile_cons, List.dropWhile_cons, hd, if_true]
    simp only [Prod.mk.injEq] at ih2 ⊢
    exact ⟨by rw [ih2.1], ih2.2⟩

theorem isDigit_iff (b : Byte) : isDigit b = true ↔ 48 ≤ b.val ∧ b.val ≤ 57 := by
  simp [isDigit]

theorem formatNatAux_head (fuel n : Nat) (hpos : 0 < n) (hlt : n < fuel) :
    ∃ d ds, formatNatAux fuel n [] = d :: ds ∧ d.val ≠ 48 := by
  induction fuel generalizing n with
  | zero => omega
  | succ fuel ih =>
    simp only [formatNatAux]
    split
    · refine ⟨digitByte n, [], rfl, ?_⟩
      rw [digitByte_val]; omega
    · obtain ⟨d, ds, hd, hne⟩ := ih (n / 10) (by omega) (by omega)
      rw [formatNatAux_append, hd]
      exact ⟨d, ds ++ [digitByte n], rfl, hne⟩

/-- The rendering of a natural number is one digit `0`, or digits the first of which is not
`0`. -/
theorem formatNat_shape (n : Nat) :
    ∃ d ds, formatNat n = d :: ds ∧ (48 ≤ d.val ∧ d.val ≤ 57) ∧
      (∀ b ∈ ds, isDigit b = true) ∧ (d.val = 48 → ds = []) := by
  have hdig := formatNat_digits n
  rcases Nat.eq_zero_or_pos n with h0 | hpos
  · subst h0
    exact ⟨ch '0', [], by decide, by decide, by simp, fun _ => rfl⟩
  · obtain ⟨d, ds, hd, hne⟩ := formatNatAux_head (n + 1) n hpos (by omega)
    have hd2 : formatNat n = d :: ds := hd
    rw [hd2] at hdig
    refine ⟨d, ds, hd2, hdig d (List.mem_cons_self _ _), ?_, fun h => absurd h hne⟩
    intro b hb
    exact (isDigit_iff b).mpr (hdig b (List.mem_cons_of_mem _ hb))

theorem scanNumber_digits (d : Byte) (ds : List Byte) (c : Byte) (rest : List Byte)
    (hd : 48 ≤ d.val ∧ d.val ≤ 57) (hds : ∀ b ∈ ds, isDigit b = true)
    (hz : d.val = 48 → ds = []) (hc : c.val = 44 ∨ c.val = 125) :
    scanInteger (d :: ds ++ c :: rest) = some (d :: ds, c :: rest) ∧
    scanFraction (c :: rest) = some ([], c :: rest) ∧
    scanExponent (c :: rest) = some ([], c :: rest) := by
  have hcd : isDigit c = false := by
    cases h : isDigit c with
    | false => rfl
    | true => have := (isDigit_iff c).mp h; omega
  have hdot : c ≠ ch '.' := by
    intro h; have := congrArg Fin.val h
    have h46 : (ch '.').val = 46 := by decide
    omega
  have he : ¬ (c = ch 'e' ∨ c = ch 'E') := by
    have h1 : (ch 'e').val = 101 := by decide
    have h2 : (ch 'E').val = 69 := by decide
    rintro (h | h) <;> have := congrArg Fin.val h <;> omega
  refine ⟨?_, ?_, ?_⟩
  · have hdd : isDigit d = true := (isDigit_iff d).mpr hd
    simp only [List.cons_append, scanInteger, hdd, if_true]
    by_cases h0 : d = ch '0'
    · have h48 : d.val = 48 := by rw [h0]; decide
      simp only [h0, if_true, hz h48, List.nil_append]
    · simp only [h0, if_false, span_isDigit_stop ds c rest hds hcd]
  · simp only [scanFraction, hdot, if_false]
  · simp only [scanExponent, he, if_false]

theorem scanNumber_formatInt (n : Int) (c : Byte) (rest : List Byte)
    (hc : c.val = 44 ∨ c.val = 125) :
    scanNumber (formatInt n ++ c :: rest) = some (formatInt n, c :: rest) := by
  obtain ⟨d, ds, hshape, hd, hds, hz⟩ := formatNat_shape n.natAbs
  obtain ⟨h1, h2, h3⟩ := scanNumber_digits d ds c rest hd hds hz hc
  have hminus : byteOfNat 45 = ch '-' := by decide
  have hdne : d ≠ ch '-' := by
    intro h; have := congrArg Fin.val h
    have h45 : (ch '-').val = 45 := by decide
    omega
  unfold formatInt
  split
  · simp only [hshape, scanNumber, List.cons_append, hminus, if_true]
    rw [← List.cons_append, h1]
    simp only [h2, h3, List.append_nil, List.singleton_append, List.nil_append]
  · simp only [hshape, scanNumber, List.cons_append, hdne, if_false]
    rw [← List.cons_append, h1]
    simp only [h2, h3, List.append_nil, List.nil_append]

/-- The first byte of a rendered integer is a minus sign or a digit. -/
theorem formatInt_head (n : Int) :
    ∃ b t, formatInt n = b :: t ∧ (b.val = 45 ∨ (48 ≤ b.val ∧ b.val ≤ 57)) := by
  obtain ⟨d, ds, hshape, hd, _, _⟩ := formatNat_shape n.natAbs
  unfold formatInt
  split
  · exact ⟨byteOfNat 45, formatNat n.natAbs, rfl, Or.inl (by decide)⟩
  · exact ⟨d, ds, hshape, Or.inr hd⟩

theorem parseValue_formatInt (fuel depth : Nat) (n : Int) (c : Byte) (rest : List Byte)
    (hc : c.val = 44 ∨ c.val = 125) :
    parseValue (fuel + 1) depth (formatInt n ++ c :: rest)
      = some (JValue.number (formatInt n), c :: rest) := by
  have hscan := scanNumber_formatInt n c rest hc
  obtain ⟨b, t, hbt, hb⟩ := formatInt_head n
  rw [hbt] at hscan ⊢
  rw [List.cons_append] at hscan ⊢
  have h1 : b.val ≠ 34 := by omega
  have h2 : b ≠ ch '{' := by
    intro h; have := congrArg Fin.val h
    have h0 : (ch '{').val = 123 := by decide
    omega
  have h3 : b ≠ ch '[' := by
    intro h; have := congrArg Fin.val h
    have h0 : (ch '[').val = 91 := by decide
    omega
  have h4 : ¬ ((b :: (t ++ c :: rest)).take 4 = str "true") := by
    have hs : str "true" = [ch 't', ch 'r', ch 'u', ch 'e'] := by decide
    rw [hs, List.take_succ_cons]
    intro h
    have h5 := congrArg Fin.val (List.cons.inj h).1
    have h0 : (ch 't').val = 116 := by decide
    omega
  have h5 : ¬ ((b :: (t ++ c :: rest)).take 5 = str "false") := by
    have hs : str "false" = [ch 'f', ch 'a', ch 'l', ch 's', ch 'e'] := by decide
    rw [hs, List.take_succ_cons]
    intro h
    have h5 := congrArg Fin.val (List.cons.inj h).1
    have h0 : (ch 'f').val = 102 := by decide
    omega
  have h6 : ¬ ((b :: (t ++ c :: rest)).take 4 = str "null") := by
    have hs : str "null" = [ch 'n', ch 'u', ch 'l', ch 'l'] := by decide
    rw [hs, List.take_succ_cons]
    intro h
    have h5 := congrArg Fin.val (List.cons.inj h).1
    have h0 : (ch 'n').val = 110 := by decide
    omega
  simp only [parseValue, h1, h2, h3, h4, h5, h6, if_false, hscan]

theorem parseIntLit_formatInt (n : Int) (h : inInt64 n = true) :
    parseIntLit (formatInt n) = some n := by
  obtain ⟨d, ds, hshape, hd, hds, _⟩ := formatNat_shape n.natAbs
  have hv := decimalValue_formatNat n.natAbs
  have hall : (formatNat n.natAbs).all isDigit = true := by
    rw [List.all_eq_true]
    intro b hb
    exact (isDigit_iff b).mpr (formatNat_digits _ b hb)
  have hne : formatNat n.natAbs ≠ [] := formatNat_ne_nil _
  simp only [inInt64, Bool.and_eq_true, decide_eq_true_eq] at h
  have hminus : (byteOfNat 45 == ch '-') = true := by decide
  have hdne : (d == ch '-') = false := by
    rw [beq_eq_false_iff_ne]
    intro h; have := congrArg Fin.val h
    have h45 : (ch '-').val = 45 := by decide
    omega
  unfold formatInt
  split
  · rename_i hneg
    simp only [parseIntLit, hminus, if_true, List.drop_succ_cons, List.drop_zero, hall, hv,
      ne_eq, hne, not_false_eq_true, and_self]
    have hle : n.natAbs ≤ 2 ^ 63 := by omega
    rw [if_pos hle]
    congr 1
    omega
  · rename_i hneg
    rw [hshape] at hall hv hne
    simp only [hshape, parseIntLit, hdne, Bool.false_eq_true, if_false, hall, hv,
      ne_eq, hne, not_false_eq_true, and_self, if_true]
    have hlt : n.natAbs < 2 ^ 63 := by omega
    rw [if_pos hlt]
    congr 1
    omega

/-! ## The steps of the parser on arrays and objects -/

theorem parseValue_array_empty (fuel d : Nat) (rest : List Byte) :
    parseValue (fuel + 1) (d + 1) (ch '[' :: ch ']' :: rest) = some (JValue.array [], rest) := by
  have h1 : (ch '[').val ≠ 34 := by decide
  have h2 : ch '[' ≠ ch '{' := by decide
  have h3 : skipSpace (ch ']' :: rest) = ch ']' :: rest := skipSpace_cons _ _ (by decide)
  simp only [parseValue, h1, h2, if_false, if_true, h3]

theorem parseValue_object_empty (fuel d : Nat) (rest : List Byte) :
    parseValue (fuel + 1) (d + 1) (ch '{' :: ch '}' :: rest) = some (JValue.object [], rest) := by
  have h1 : (ch '{').val ≠ 34 := by decide
  have h3 : skipSpace (ch '}' :: rest) = ch '}' :: rest := skipSpace_cons _ _ (by decide)
  simp only [parseValue, h1, if_false, if_true, h3]

theorem parseValue_array_step (fuel d : Nat) (hd : Byte) (tl : List Byte)
    (hsp : ¬ (hd.val = 32 ∨ hd.val = 9 ∨ hd.val = 10 ∨ hd.val = 13)) (hne : hd ≠ ch ']')
    (items : List JValue) (r2 : List Byte)
    (h : parseItems fuel d (hd :: tl) = some (items, r2)) :
    parseValue (fuel + 1) (d + 1) (ch '[' :: hd :: tl) = some (JValue.array items, r2) := by
  have h1 : (ch '[').val ≠ 34 := by decide
  have h2 : ch '[' ≠ ch '{' := by decide
  have h3 : skipSpace (hd :: tl) = hd :: tl := skipSpace_cons _ _ hsp
  simp only [parseValue, h1, h2, if_false, if_true, h3, hne, h]

theorem parseValue_object_step (fuel d : Nat) (hd : Byte) (tl : List Byte)
    (hsp : ¬ (hd.val = 32 ∨ hd.val = 9 ∨ hd.val = 10 ∨ hd.val = 13)) (hne : hd ≠ ch '}')
    (ms : List (GoString × JValue)) (r2 : List Byte)
    (h : parseFields fuel d (hd :: tl) = some (ms, r2)) :
    parseValue (fuel + 1) (d + 1) (ch '{' :: hd :: tl) = some (JValue.object ms, r2) := by
  have h1 : (ch '{').val ≠ 34 := by decide
  have h3 : skipSpace (hd :: tl) = hd :: tl := skipSpace_cons _ _ hsp
  simp only [parseValue, h1, if_false, if_true, h3, hne, h]

theorem parseItems_step_last (fuel depth : Nat) (s rest : List Byte) (v : JValue)
    (h : parseValue fuel depth s = some (v, ch ']' :: rest)) :
    parseItems (fuel + 1) depth s = some ([v], rest) := by
  have h3 : skipSpace (ch ']' :: rest) = ch ']' :: rest := skipSpace_cons _ _ (by decide)
  have h4 : ch ']' ≠ ch ',' := by decide
  simp only [parseItems, h, h3, h4, if_false, if_true]

theorem parseItems_step_more (fuel depth : Nat) (s t r3 : List Byte) (v : JValue)
    (items : List JValue)
    (h : parseValue fuel depth s = some (v, ch ',' :: t))
    (h2 : parseItems fuel depth (skipSpace t) = some (items, r3)) :
    parseItems (fuel + 1) depth s = some (v :: items, r3) := by
  have h3 : skipSpace (ch ',' :: t) = ch ',' :: t := skipSpace_cons _ _ (by decide)
  simp only [parseItems, h, h3, if_true, h2]

theorem parseFields_step_last (fuel depth : Nat) (s t rest : List Byte) (k : GoString)
    (v : JValue) (hk : unquote s = some (k, ch ':' :: t))
    (h : parseValue fuel depth (skipSpace t) = some (v, ch '}' :: rest)) :
    parseFields (fuel + 1) depth s = some ([(k, v)], rest) := by
  have h3 : skipSpace (ch ':' :: t) = ch ':' :: t := skipSpace_cons _ _ (by decide)
  have h4 : skipSpace (ch '}' :: rest) = ch '}' :: rest := skipSpace_cons _ _ (by decide)
  have h5 : ch '}' ≠ ch ',' := by decide
  simp only [parseFields, hk, h3, if_true, h, h4, h5, if_false]

theorem parseFields_step_more (fuel depth : Nat) (s t u r4 : List Byte) (k : GoString)
    (v : JValue) (ms : List (GoString × JValue))
    (hk : unquote s = some (k, ch ':' :: t))
    (h : parseValue fuel depth (skipSpace t) = some (v, ch ',' :: u))
    (h2 : parseFields fuel depth (skipSpace u) = some (ms, r4)) :
    parseFields (fuel + 1) depth s = some ((k, v) :: ms, r4) := by
  have h3 : skipSpace (ch ':' :: t) = ch ':' :: t := skipSpace_cons _ _ (by decide)
  have h4 : skipSpace (ch ',' :: u) = ch ',' :: u := skipSpace_cons _ _ (by decide)
  simp only [parseFields, hk, h3, if_true, h, h4, h2]

theorem parseValue_string (fuel depth : Nat) (s : GoString) (rest : List Byte)
    (h : validUTF8 s = true) :
    parseValue (fuel + 1) depth (appendString s ++ rest) = some (JValue.str s, rest) := by
  have hu := unquote_appendString s rest h
  rw [appendString_cons, List.cons_append] at hu ⊢
  have h34 : ((34 : Byte)).val = 34 := rfl
  simp only [parseValue, h34, if_true, hu]

theorem parseValue_literals (fuel depth : Nat) (rest : List Byte) :
    parseValue (fuel + 1) depth (str "null" ++ rest) = some (JValue.null, rest) ∧
    parseValue (fuel + 1) depth (str "true" ++ rest) = some (JValue.bool true, rest) ∧
    parseValue (fuel + 1) depth (str "false" ++ rest) = some (JValue.bool false, rest) := by
  have hn : str "null" = [ch 'n', ch 'u', ch 'l', ch 'l'] := by decide
  have ht : str "true" = [ch 't', ch 'r', ch 'u', ch 'e'] := by decide
  have hf : str "false" = [ch 'f', ch 'a', ch 'l', ch 's', ch 'e'] := by decide
  have n1 : (ch 'n').val ≠ 34 := by decide
  have n2 : ch 'n' ≠ ch '{' := by decide
  have n3 : ch 'n' ≠ ch '[' := by decide
  have n4 : ch 'n' ≠ ch 't' := by decide
  have n5 : ch 'n' ≠ ch 'f' := by decide
  have t1 : (ch 't').val ≠ 34 := by decide
  have t2 : ch 't' ≠ ch '{' := by decide
  have t3 : ch 't' ≠ ch '[' := by decide
  have f1 : (ch 'f').val ≠ 34 := by decide
  have f2 : ch 'f' ≠ ch '{' := by decide
  have f3 : ch 'f' ≠ ch '[' := by decide
  have f4 : ch 'f' ≠ ch 't' := by decide
  refine ⟨?_, ?_, ?_⟩
  · simp [hn, ht, hf, parseValue, n1, n2, n3, n4, n5]
  · simp [ht, parseValue, t1, t2, t3]
  · simp [ht, hf, parseValue, f1, f2, f3, f4]

/-! ## What `json.Marshal` writes for a value is parsed back -/

theorem marshalItems_index : ∀ (xs : List JValue) (i j : Nat),
    marshalItems (i + 1) xs = marshalItems (j + 1) xs
  | [], _, _ => by simp [marshalItems]
  | x :: xs, i, j => by
    simp only [marshalItems, gt_iff_lt, Nat.zero_lt_succ, if_true]
    rw [marshalItems_index xs (i + 1) (j + 1)]

theorem marshalFields_index : ∀ (ms : List (GoString × JValue)) (i j : Nat),
    marshalFields (i + 1) ms = marshalFields (j + 1) ms
  | [], _, _ => by simp [marshalFields]
  | (k, v) :: ms, i, j => by
    simp only [marshalFields, gt_iff_lt, Nat.zero_lt_succ, if_true]
    rw [marshalFields_index ms (i + 1) (j + 1)]

theorem marshalItems_zero (x : JValue) (xs : List JValue) :
    marshalItems 0 (x :: xs) = marshalValue x ++ marshalItems 1 xs := by
  simp [marshalItems]

theorem marshalItems_one (x : JValue) (xs : List JValue) :
    marshalItems 1 (x :: xs) = ch ',' :: marshalItems 0 (x :: xs) := by
  simp only [marshalItems, gt_iff_lt, Nat.lt_irrefl, Nat.zero_lt_one, if_true, if_false,
    List.nil_append, List.singleton_append, List.cons_append, List.append_assoc]
  rw [marshalItems_index xs 1 0]

theorem marshalFields_zero (k : GoString) (v : JValue) (ms : List (GoString × JValue)) :
    marshalFields 0 ((k, v) :: ms) =
      appendString k ++ ch ':' :: (marshalValue v ++ marshalFields 1 ms) := by
  simp [marshalFields]

theorem marshalFields_one (k : GoString) (v : JValue) (ms : List (GoString × JValue)) :
    marshalFields 1 ((k, v) :: ms) = ch ',' :: marshalFields 0 ((k, v) :: ms) := by
  simp only [marshalFields, gt_iff_lt, Nat.lt_irrefl, Nat.zero_lt_one, if_true, if_false,
    List.nil_append, List.singleton_append, List.cons_append, List.append_assoc]
  rw [marshalFields_index ms 1 0]

/-- The first byte of what is written for a value without numbers opens a literal, a
string, an array or an object. -/
theorem marshalValue_head (v : JValue) (h : v.plain = true) :
    ∃ hd tl, marshalValue v = hd :: tl ∧
      (hd.val = 110 ∨ hd.val = 116 ∨ hd.val = 102 ∨ hd.val = 34 ∨ hd.val = 91 ∨ hd.val = 123) := by
  cases v with
  | null => exact ⟨ch 'n', [ch 'u', ch 'l', ch 'l'], by decide, by decide⟩
  | bool b =>
    cases b with
    | true => exact ⟨ch 't', [ch 'r', ch 'u', ch 'e'], by decide, by decide⟩
    | false => exact ⟨ch 'f', [ch 'a', ch 'l', ch 's', ch 'e'], by decide, by decide⟩
  | number lit => simp [JValue.plain] at h
  | str s =>
    refine ⟨34, appendStringLoop s.length s ++ [34], ?_, by decide⟩
    simp only [marshalValue]
    exact appendString_cons s
  | array items =>
    refine ⟨ch '[', marshalItems 0 items ++ [ch ']'], ?_, by decide⟩
    simp [marshalValue]
  | object ms =>
    refine ⟨ch '{', marshalFields 0 ms ++ [ch '}'], ?_, by decide⟩
    simp [marshalValue]

theorem skipSpace_marshalValue (v : JValue) (h : v.plain = true) (rest : List Byte) :
    skipSpace (marshalValue v ++ rest) = marshalValue v ++ rest := by
  obtain ⟨hd, tl, hv, hh⟩ := marshalValue_head v h
  rw [hv, List.cons_append]
  exact skipSpace_cons _ _ (by omega)

mutual
/-- The parser reads a value without numbers back from what `json.Marshal` wrote for it,
given fuel for its nodes and depth for its levels. -/
theorem parseValue_marshalValue : ∀ (v : JValue) (fuel depth : Nat) (rest : List Byte),
    v.plain = true → v.size ≤ fuel → v.nesting ≤ depth →
    parseValue fuel depth (marshalValue v ++ rest) = some (v, rest)
  | .null, fuel, depth, rest, _, hs, _ => by
    obtain ⟨f, rfl⟩ : ∃ f, fuel = f + 1 := ⟨fuel - 1, by simp only [JValue.size] at hs; omega⟩
    simp only [marshalValue]
    exact (parseValue_literals f depth rest).1
  | .bool true, fuel, depth, rest, _, hs, _ => by
    obtain ⟨f, rfl⟩ : ∃ f, fuel = f + 1 := ⟨fuel - 1, by simp only [JValue.size] at hs; omega⟩
    simp only [marshalValue]
    exact (parseValue_literals f depth rest).2.1
  | .bool false, fuel, depth, rest, _, hs, _ => by
    obtain ⟨f, rfl⟩ : ∃ f, fuel = f + 1 := ⟨fuel - 1, by simp only [JValue.size] at hs; omega⟩
    simp only [marshalValue]
    exact (parseValue_literals f depth rest).2.2
  | .number _, _, _, _, hp, _, _ => by simp [JValue.plain] at hp
  | .str s, fuel, depth, rest, hp, hs, _ => by
    obtain ⟨f, rfl⟩ : ∃ f, fuel = f + 1 := ⟨fuel - 1, by simp only [JValue.size] at hs; omega⟩
    simp only [JValue.plain] at hp
    simp only [marshalValue]
    exact parseValue_string f depth s rest hp
  | .array [], fuel, depth, rest, _, hs, hn => by
    obtain ⟨f, rfl⟩ : ∃ f, fuel = f + 1 := ⟨fuel - 1, by simp only [JValue.size] at hs; omega⟩
    obtain ⟨d, rfl⟩ : ∃ d, depth = d + 1 := ⟨depth - 1, by simp only [JValue.nesting] at hn; omega⟩
    simp only [marshalValue, marshalItems, List.append_nil, List.singleton_append,
      List.cons_append, List.nil_append]
    exact parseValue_array_empty f d rest
  | .array (x :: xs), fuel, depth, rest, hp, hs, hn => by
    obtain ⟨f, rfl⟩ : ∃ f, fuel = f + 1 := ⟨fuel - 1, by simp only [JValue.size] at hs; omega⟩
    obtain ⟨d, rfl⟩ : ∃ d, depth = d + 1 := ⟨depth - 1, by simp only [JValue.nesting] at hn; omega⟩
    simp only [JValue.plain] at hp
    simp only [JValue.size] at hs
    simp only [JValue.nesting] at hn
    have ih := parseItems_marshalItems (x :: xs) f d rest (by simp) hp (by omega) (by omega)
    have hpx : x.plain = true := by
      simp only [JValue.plainList, Bool.and_eq_true] at hp
      exact hp.1
    obtain ⟨hd, tl, hv, hh⟩ := marshalValue_head x hpx
    have hshape : marshalValue (JValue.array (x :: xs)) ++ rest =
        ch '[' :: hd :: (tl ++ (marshalItems 1 xs ++ ch ']' :: rest)) := by
      simp only [marshalValue, marshalItems_zero, hv, List.singleton_append, List.cons_append,
        List.append_assoc, List.nil_append]
    have hin : marshalItems 0 (x :: xs) ++ ch ']' :: rest =
        hd :: (tl ++ (marshalItems 1 xs ++ ch ']' :: rest)) := by
      simp only [marshalItems_zero, hv, List.cons_append, List.append_assoc]
    rw [hin] at ih
    rw [hshape]
    have h93 : (ch ']').val = 93 := by decide
    exact parseValue_array_step f d hd _ (by omega)
      (by intro h; have := congrArg Fin.val h; omega) _ _ ih
  | .object [], fuel, depth, rest, _, hs, hn => by
    obtain ⟨f, rfl⟩ : ∃ f, fuel = f + 1 := ⟨fuel - 1, by simp only [JValue.size] at hs; omega⟩
    obtain ⟨d, rfl⟩ : ∃ d, depth = d + 1 := ⟨depth - 1, by simp only [JValue.nesting] at hn; omega⟩
    simp only [marshalValue, marshalFields, List.append_nil, List.singleton_append,
      List.cons_append, List.nil_append]
    exact parseValue_object_empty f d rest
  | .object ((k, v) :: ms), fuel, depth, rest, hp, hs, hn => by
    obtain ⟨f, rfl⟩ : ∃ f, fuel = f + 1 := ⟨fuel - 1, by simp only [JValue.size] at hs; omega⟩
    obtain ⟨d, rfl⟩ : ∃ d, depth = d + 1 := ⟨depth - 1, by simp only [JValue.nesting] at hn; omega⟩
    simp only [JValue.plain] at hp
    simp only [JValue.size] at hs
    simp only [JValue.nesting] at hn
    have ih := parseFields_marshalFields ((k, v) :: ms) f d rest (by simp) hp (by omega)
      (by omega)
    have hin : marshalFields 0 ((k, v) :: ms) ++ ch '}' :: rest =
        34 :: (appendStringLoop k.length k ++ [34] ++ ch ':' ::
          (marshalValue v ++ marshalFields 1 ms) ++ ch '}' :: rest) := by
      simp only [marshalFields_zero, appendString_cons, List.cons_append, List.append_assoc]
    have hshape : marshalValue (JValue.object ((k, v) :: ms)) ++ rest =
        ch '{' :: 34 :: (appendStringLoop k.length k ++ [34] ++ ch ':' ::
          (marshalValue v ++ marshalFields 1 ms) ++ ch '}' :: rest) := by
      simp only [marshalValue, marshalFields_zero, appendString_cons, List.singleton_append,
        List.cons_append, List.append_assoc, List.nil_append]
    rw [hin] at ih
    rw [hshape]
    exact parseValue_object_step f d 34 _ (by decide) (by decide) _ _ ih
/-- The same for the items of a non-empty array up to the closing bracket. -/
theorem parseItems_marshalItems : ∀ (items : List JValue) (fuel depth : Nat)
    (rest : List Byte), items ≠ [] → JValue.plainList items = true →
    JValue.sizeList items ≤ fuel → JValue.nestingList items ≤ depth →
    parseItems fuel depth (marshalItems 0 items ++ ch ']' :: rest) = some (items, rest)
  | [], _, _, _, hne, _, _, _ => absurd rfl hne
  | [x], fuel, depth, rest, _, hp, hs, hn => by
    simp only [JValue.sizeList] at hs
    simp only [JValue.nestingList] at hn
    simp only [JValue.plainList, Bool.and_eq_true] at hp
    obtain ⟨f, rfl⟩ : ∃ f, fuel = f + 1 := ⟨fuel - 1, by omega⟩
    have ihx := parseValue_marshalValue x f depth (ch ']' :: rest) hp.1 (by omega) (by omega)
    simp only [marshalItems_zero, marshalItems, List.nil_append, List.append_nil,
      List.append_assoc]
    exact parseItems_step_last f depth _ rest x ihx
  | x :: y :: ys, fuel, depth, rest, _, hp, hs, hn => by
    simp only [JValue.sizeList] at hs
    simp only [JValue.nestingList] at hn
    simp only [JValue.plainList, Bool.and_eq_true] at hp
    obtain ⟨f, rfl⟩ : ∃ f, fuel = f + 1 := ⟨fuel - 1, by omega⟩
    have ihx := parseValue_marshalValue x f depth
      (ch ',' :: (marshalItems 0 (y :: ys) ++ ch ']' :: rest)) hp.1 (by omega) (by omega)
    have hpl : JValue.plainList (y :: ys) = true := by
      simp only [JValue.plainList, Bool.and_eq_true]; exact hp.2
    have ihr := parseItems_marshalItems (y :: ys) f depth rest (by simp) hpl
      (by simp only [JValue.sizeList]; omega) (by simp only [JValue.nestingList]; omega)
    have hsk : skipSpace (marshalItems 0 (y :: ys) ++ ch ']' :: rest) =
        marshalItems 0 (y :: ys) ++ ch ']' :: rest := by
      rw [marshalItems_zero, List.append_assoc]
      exact skipSpace_marshalValue y hp.2.1 _
    rw [← hsk] at ihr
    have htext : marshalItems 0 (x :: y :: ys) ++ ch ']' :: rest =
        marshalValue x ++ ch ',' :: (marshalItems 0 (y :: ys) ++ ch ']' :: rest) := by
      rw [marshalItems_zero x, marshalItems_one y ys]
      simp only [List.cons_append, List.append_assoc]
    rw [htext]
    exact parseItems_step_more f depth _ _ rest x (y :: ys) ihx ihr
/-- The same for the members of a non-empty object up to the closing brace. -/
theorem parseFields_marshalFields : ∀ (ms : List (GoString × JValue)) (fuel depth : Nat)
    (rest : List Byte), ms ≠ [] → JValue.plainMembers ms = true →
    JValue.sizeMembers ms ≤ fuel → JValue.nestingMembers ms ≤ depth →
    parseFields fuel depth (marshalFields 0 ms ++ ch '}' :: rest) = some (ms, rest)
  | [], _, _, _, hne, _, _, _ => absurd rfl hne
  | [(k, v)], fuel, depth, rest, _, hp, hs, hn => by
    simp only [JValue.sizeMembers] at hs
    simp only [JValue.nestingMembers] at hn
    simp only [JValue.plainMembers, Bool.and_eq_true] at hp
    obtain ⟨f, rfl⟩ : ∃ f, fuel = f + 1 := ⟨fuel - 1, by omega⟩
    have ihv := parseValue_marshalValue v f depth (ch '}' :: rest) hp.1.1.2 (by omega)
      (by omega)
    rw [← skipSpace_marshalValue v hp.1.1.2] at ihv
    have hk := unquote_appendString k (ch ':' :: (marshalValue v ++ ch '}' :: rest)) hp.1.1.1
    have htext : marshalFields 0 [(k, v)] ++ ch '}' :: rest =
        appendString k ++ ch ':' :: (marshalValue v ++ ch '}' :: rest) := by
      rw [marshalFields_zero]
      simp only [marshalFields, List.append_nil, List.cons_append, List.append_assoc]
    rw [htext]
    exact parseFields_step_last f depth _ _ rest k v hk ihv
  | (k, v) :: (k2, v2) :: ms, fuel, depth, rest, _, hp, hs, hn => by
    simp only [JValue.sizeMembers] at hs
    simp only [JValue.nestingMembers] at hn
    simp only [JValue.plainMembers, Bool.and_eq_true] at hp
    obtain ⟨f, rfl⟩ : ∃ f, fuel = f + 1 := ⟨fuel - 1, by omega⟩
    have ihv := parseValue_marshalValue v f depth
      (ch ',' :: (marshalFields 0 ((k2, v2) :: ms) ++ ch '}' :: rest)) hp.1.1.2 (by omega)
      (by omega)
    rw [← skipSpace_marshalValue v hp.1.1.2] at ihv
    have hpl : JValue.plainMembers ((k2, v2) :: ms) = true := by
      simp only [JValue.plainMembers, Bool.and_eq_true]; exact hp.2
    have ihr := parseFields_marshalFields ((k2, v2) :: ms) f depth rest (by simp) hpl
      (by simp only [JValue.sizeMembers]; omega) (by simp only [JValue.nestingMembers]; omega)
    have hsk : skipSpace (marshalFields 0 ((k2, v2) :: ms) ++ ch '}' :: rest) =
        marshalFields 0 ((k2, v2) :: ms) ++ ch '}' :: rest := by
      rw [marshalFields_zero, List.append_assoc]
      exact skipSpace_appendString k2 _
    rw [← hsk] at ihr
    have hk := unquote_appendString k
      (ch ':' :: (marshalValue v ++ ch ',' :: (marshalFields 0 ((k2, v2) :: ms) ++
        ch '}' :: rest))) hp.1.1.1
    have htext : marshalFields 0 ((k, v) :: (k2, v2) :: ms) ++ ch '}' :: rest =
        appendString k ++ ch ':' :: (marshalValue v ++ ch ',' ::
          (marshalFields 0 ((k2, v2) :: ms) ++ ch '}' :: rest)) := by
      rw [marshalFields_zero k v, marshalFields_one k2 v2 ms]
      simp only [List.cons_append, List.append_assoc]
    rw [htext]
    exact parseFields_step_more f depth _ _ _ rest k v ((k2, v2) :: ms) hk ihv ihr
end

/-! ## Storing a parsed value into an `interface{}` -/

theorem insertMember_last (k : GoString) (v : JValue) :
    ∀ acc : List (GoString × JValue), (∀ p ∈ acc, strLess p.1 k = true) →
      insertMember k v acc = acc ++ [(k, v)]
  | [], _ => rfl
  | (k0, v0) :: acc, h => by
    have h0 : strLess k0 k = true := h (k0, v0) (List.mem_cons_self _ _)
    have hne : k ≠ k0 := by
      intro e
      rw [e, strLess_irrefl] at h0
      exact Bool.false_ne_true h0
    have hnl : strLess k k0 = false := strLess_asymm k0 k h0
    simp only [insertMember, hne, hnl, if_false, Bool.false_eq_true, List.cons_append]
    rw [insertMember_last k v acc (fun p hp => h p (List.mem_cons_of_mem _ hp))]

mutual
/-- A value in decoded form is stored as it is. -/
theorem toGo_plain : ∀ (v : JValue), v.plain = true → v.toGo = v
  | .null, _ => by simp [JValue.toGo]
  | .bool _, _ => by simp [JValue.toGo]
  | .number _, _ => by simp [JValue.toGo]
  | .str _, _ => by simp [JValue.toGo]
  | .array items, h => by
    simp only [JValue.plain] at h
    simp only [JValue.toGo, toGoList_plain items h]
  | .object ms, h => by
    simp only [JValue.plain] at h
    simp only [JValue.toGo, toGoMembers_plain ms [] h (by simp), List.nil_append]
/-- The same for the items of an array. -/
theorem toGoList_plain : ∀ (items : List JValue), JValue.plainList items = true →
    JValue.toGoList items = items
  | [], _ => by simp [JValue.toGoList]
  | x :: xs, h => by
    simp only [JValue.plainList, Bool.and_eq_true] at h
    simp only [JValue.toGoList, toGo_plain x h.1, toGoList_plain xs h.2]
/-- Members in ascending order of key are appended to a map of smaller keys. -/
theorem toGoMembers_plain : ∀ (ms acc : List (GoString × JValue)),
    JValue.plainMembers ms = true → (∀ p ∈ acc, ∀ q ∈ ms, strLess p.1 q.1 = true) →
    JValue.toGoMembers ms acc = acc ++ ms
  | [], acc, _, _ => by simp [JValue.toGoMembers]
  | (k, v) :: ms, acc, h, hacc => by
    simp only [JValue.plainMembers, Bool.and_eq_true, List.all_eq_true] at h
    have hins : insertMember k v.toGo acc = acc ++ [(k, v)] := by
      rw [toGo_plain v h.1.1.2]
      exact insertMember_last k v acc (fun p hp => hacc p hp (k, v) (List.mem_cons_self _ _))
    simp only [JValue.toGoMembers, hins]
    rw [toGoMembers_plain ms (acc ++ [(k, v)]) h.2 ?_]
    · simp
    · intro p hp q hq
      rcases List.mem_append.mp hp with hp | hp
      · exact hacc p hp q (List.mem_cons_of_mem _ hq)
      · simp only [List.mem_singleton] at hp
        rw [hp]
        exact h.1.2 q hq
end

mutual
/-- A value without numbers passes the range check of the decoder. -/
theorem floatsInRange_plain : ∀ (v : JValue), v.plain = true → v.floatsInRange = true
  | .null, _ => by simp [JValue.floatsInRange]
  | .bool _, _ => by simp [JValue.floatsInRange]
  | .number _, h => by simp [JValue.plain] at h
  | .str _, _ => by simp [JValue.floatsInRange]
  | .array items, h => by
    simp only [JValue.plain] at h
    simp only [JValue.floatsInRange, floatsInRangeList_plain items h]
  | .object ms, h => by
    simp only [JValue.plain] at h
    simp only [JValue.floatsInRange, floatsInRangeMembers_plain ms h]
/-- The same for the items of an array. -/
theorem floatsInRangeList_plain : ∀ (items : List JValue), JValue.plainList items = true →
    JValue.floatsInRangeList items = true
  | [], _ => by simp [JValue.floatsInRangeList]
  | x :: xs, h => by
    simp only [JValue.plainList, Bool.and_eq_true] at h
    simp only [JValue.floatsInRangeList, floatsInRange_plain x h.1,
      floatsInRangeList_plain xs h.2, Bool.and_self]
/-- The same for the members of an object. -/
theorem floatsInRangeMembers_plain : ∀ (ms : List (GoString × JValue)),
    JValue.plainMembers ms = true → JValue.floatsInRangeMembers ms = true
  | [], _ => by simp [JValue.floatsInRangeMembers]
  | (k, v) :: ms, h => by
    simp only [JValue.plainMembers, Bool.and_eq_true] at h
    simp only [JValue.floatsInRangeMembers, floatsInRange_plain v h.1.1.2,
      floatsInRangeMembers_plain ms h.2, Bool.and_self]
end

theorem decodeInterface_plain (field : GoString) (v : JValue) (h : v.plain = true) :
    decodeInterface field v = Except.ok v := by
  simp only [decodeInterface, floatsInRange_plain v h, if_true, toGo_plain v h]

/-! ## The text written for a value is longer than the value has nodes -/

mutual
theorem size_lt_length : ∀ (v : JValue), v.plain = true →
    v.size + 1 ≤ (marshalValue v).length
  | .null, _ => by decide
  | .bool true, _ => by decide
  | .bool false, _ => by decide
  | .number _, h => by simp [JValue.plain] at h
  | .str s, _ => by
    simp only [marshalValue, JValue.size, appendString_cons, List.length_cons,
      List.length_append, List.length_nil]
    omega
  | .array items, h => by
    simp only [JValue.plain] at h
    have := sizeList_le_length items 0 h
    simp only [marshalValue, JValue.size, List.length_cons, List.length_append,
      List.length_nil]
    omega
  | .object ms, h => by
    simp only [JValue.plain] at h
    have := sizeMembers_le_length ms 0 h
    simp only [marshalValue, JValue.size, List.length_cons, List.length_append,
      List.length_nil]
    omega
theorem sizeList_le_length : ∀ (items : List JValue) (i : Nat),
    JValue.plainList items = true → JValue.sizeList items ≤ (marshalItems i items).length
  | [], _, _ => by simp [JValue.sizeList]
  | x :: xs, i, h => by
    simp only [JValue.plainList, Bool.and_eq_true] at h
    have h1 := size_lt_length x h.1
    have h2 := sizeList_le_length xs (i + 1) h.2
    simp only [marshalItems, JValue.sizeList, List.length_append]
    omega
theorem sizeMembers_le_length : ∀ (ms : List (GoString × JValue)) (i : Nat),
    JValue.plainMembers ms = true → JValue.sizeMembers ms ≤ (marshalFields i ms).length
  | [], _, _ => by simp [JValue.sizeMembers]
  | (k, v) :: ms, i, h => by
    simp only [JValue.plainMembers, Bool.and_eq_true] at h
    have h1 := size_lt_length v h.1.1.2
    have h2 := sizeMembers_le_length ms (i + 1) h.2
    simp only [marshalFields, JValue.sizeMembers, List.length_append]
    omega
end

/-! ## The envelope: what `json.Marshal` writes for a response and how it decodes -/

theorem marshalResponse_shape (r : Response) (rest : List Byte) :
    marshalResponse r ++ rest =
      ch '{' :: (appendString (str "retCode") ++ ch ':' :: (formatInt r.RetCode ++ ch ',' ::
        (appendString (str "retMsg") ++ ch ':' :: (appendString r.RetMsg ++ ch ',' ::
        (appendString (str "result") ++ ch ':' :: (marshalValue r.Result ++ ch ',' ::
        (appendString (str "retExtInfo") ++ ch ':' :: (marshalValue r.RetExtInfo ++ ch ',' ::
        (appendString (str "time") ++ ch ':' :: (formatInt r.Time ++ ch '}' :: rest)))))))))) := by
  have h1 : str "\"retCode\":" = appendString (str "retCode") ++ [ch ':'] := by decide
  have h2 : str ",\"retMsg\":" = ch ',' :: (appendString (str "retMsg") ++ [ch ':']) := by
    decide
  have h3 : str ",\"result\":" = ch ',' :: (appendString (str "result") ++ [ch ':']) := by
    decide
  have h4 : str ",\"retExtInfo\":" = ch ',' :: (appendString (str "retExtInfo") ++ [ch ':']) := by
    decide
  have h5 : str ",\"time\":" = ch ',' :: (appendString (str "time") ++ [ch ':']) := by decide
  simp only [marshalResponse, h1, h2, h3, h4, h5, List.append_assoc, List.cons_append,
    List.singleton_append, List.nil_append]

theorem skipSpace_formatInt (n : Int) (rest : List Byte) :
    skipSpace (formatInt n ++ rest) = formatInt n ++ rest := by
  obtain ⟨b, t, hbt, hb⟩ := formatInt_head n
  rw [hbt, List.cons_append]
  exact skipSpace_cons _ _ (by omega)

/-- The parser reads the envelope object back from what `json.Marshal` wrote for a
response, member by member. -/
theorem parseValue_marshalResponse (r : Response) (fuel : Nat) (rest : List Byte)
    (hmsg : validUTF8 r.RetMsg = true)
    (hres : r.Result.plain = true) (hext : r.RetExtInfo.plain = true)
    (hresSize : r.Result.size ≤ fuel) (hextSize : r.RetExtInfo.size ≤ fuel)
    (hresDepth : r.Result.nesting < maxNestingDepth)
    (hextDepth : r.RetExtInfo.nesting < maxNestingDepth) :
    parseValue (fuel + 7) maxNestingDepth (marshalResponse r ++ rest)
      = some (envelopeTree r, rest) := by
  have hdepth : maxNestingDepth = 9999 + 1 := rfl
  rw [hdepth] at hresDepth hextDepth ⊢
  rw [marshalResponse_shape]
  have v : ∀ s : String, validUTF8 (str s) = true → ∀ t : List Byte,
      unquote (appendString (str s) ++ t) = some (str s, t) :=
    fun s hs t => unquote_appendString (str s) t hs
  -- the member `time`
  have p5 : parseFields (fuel + 2) 9999
      (appendString (str "time") ++ ch ':' :: (formatInt r.Time ++ ch '}' :: rest))
      = some ([(str "time", JValue.number (formatInt r.Time))], rest) := by
    refine parseFields_step_last (fuel + 1) 9999 _ _ rest _ _ (v "time" (by decide) _) ?_
    rw [skipSpace_formatInt]
    exact parseValue_formatInt fuel 9999 r.Time (ch '}') rest (Or.inr (by decide))
  -- the member `retExtInfo`
  have p4 : parseFields (fuel + 3) 9999
      (appendString (str "retExtInfo") ++ ch ':' :: (marshalValue r.RetExtInfo ++ ch ',' ::
        (appendString (str "time") ++ ch ':' :: (formatInt r.Time ++ ch '}' :: rest))))
      = some ([(str "retExtInfo", r.RetExtInfo),
               (str "time", JValue.number (formatInt r.Time))], rest) := by
    refine parseFields_step_more (fuel + 2) 9999 _ _
      (appendString (str "time") ++ ch ':' :: (formatInt r.Time ++ ch '}' :: rest))
      rest _ _ _ (v "retExtInfo" (by decide) _) ?_ ?_
    · rw [skipSpace_marshalValue _ hext]
      exact parseValue_marshalValue r.RetExtInfo (fuel + 2) 9999 _ hext (by omega) (by omega)
    · rw [skipSpace_appendString]
      exact p5
  -- the member `result`
  have p3 : parseFields (fuel + 4) 9999
      (appendString (str "result") ++ ch ':' :: (marshalValue r.Result ++ ch ',' ::
        (appendString (str "retExtInfo") ++ ch ':' :: (marshalValue r.RetExtInfo ++ ch ',' ::
        (appendString (str "time") ++ ch ':' :: (formatInt r.Time ++ ch '}' :: rest))))))
      = some ([(str "result", r.Result), (str "retExtInfo", r.RetExtInfo),
               (str "time", JValue.number (formatInt r.Time))], rest) := by
    refine parseFields_step_more (fuel + 3) 9999 _ _
      (appendString (str "retExtInfo") ++ ch ':' :: (marshalValue r.RetExtInfo ++ ch ',' ::
        (appendString (str "time") ++ ch ':' :: (formatInt r.Time ++ ch '}' :: rest))))
      rest _ _ _ (v "result" (by decide) _) ?_ ?_
    · rw [skipSpace_marshalValue _ hres]
      exact parseValue_marshalValue r.Result (fuel + 3) 9999 _ hres (by omega) (by omega)
    · rw [skipSpace_appendString]
      exact p4
  -- the member `retMsg`
  have p2 : parseFields (fuel + 5) 9999
      (appendString (str "retMsg") ++ ch ':' :: (appendString r.RetMsg ++ ch ',' ::
        (appendString (str "result") ++ ch ':' :: (marshalValue r.Result ++ ch ',' ::
        (appendString (str "retExtInfo") ++ ch ':' :: (marshalValue r.RetExtInfo ++ ch ',' ::
        (appendString (str "time") ++ ch ':' :: (formatInt r.Time ++ ch '}' :: rest))))))))
      = some ([(str "retMsg", JValue.str r.RetMsg), (str "result", r.Result),
               (str "retExtInfo", r.RetExtInfo),
               (str "time", JValue.number (formatInt r.Time))], rest) := by
    refine parseFields_step_more (fuel + 4) 9999 _ _
      (appendString (str "result") ++ ch ':' :: (marshalValue r.Result ++ ch ',' ::
        (appendString (str "retExtInfo") ++ ch ':' :: (marshalValue r.RetExtInfo ++ ch ',' ::
        (appendString (str "time") ++ ch ':' :: (formatInt r.Time ++ ch '}' :: rest))))))
      rest _ _ _ (v "retMsg" (by decide) _) ?_ ?_
    · rw [skipSpace_appendString]
      exact parseValue_string (fuel + 3) 9999 r.RetMsg _ hmsg
    · rw [skipSpace_appendString]
      exact p3
  -- the member `retCode`
  have p1 : parseFields (fuel + 6) 9999
      (appendString (str "retCode") ++ ch ':' :: (formatInt r.RetCode ++ ch ',' ::
        (appendString (str "retMsg") ++ ch ':' :: (appendString r.RetMsg ++ ch ',' ::
        (appendString (str "result") ++ ch ':' :: (marshalValue r.Result ++ ch ',' ::
        (appendString (str "retExtInfo") ++ ch ':' :: (marshalValue r.RetExtInfo ++ ch ',' ::
        (appendString (str "time") ++ ch ':' :: (formatInt r.Time ++ ch '}' :: rest))))))))))
      = some ([(str "retCode", JValue.number (formatInt r.RetCode)),
               (str "retMsg", JValue.str r.RetMsg), (str "result", r.Result),
               (str "retExtInfo", r.RetExtInfo),
               (str "time", JValue.number (formatInt r.Time))], rest) := by
    refine parseFields_step_more (fuel + 5) 9999 _ _
      (appendString (str "retMsg") ++ ch ':' :: (appendString r.RetMsg ++ ch ',' ::
        (appendString (str "result") ++ ch ':' :: (marshalValue r.Result ++ ch ',' ::
        (appendString (str "retExtInfo") ++ ch ':' :: (marshalValue r.RetExtInfo ++ ch ',' ::
        (appendString (str "time") ++ ch ':' :: (formatInt r.Time ++ ch '}' :: rest))))))))
      rest _ _ _ (v "retCode" (by decide) _) ?_ ?_
    · rw [skipSpace_formatInt]
      exact parseValue_formatInt (fuel + 4) 9999 r.RetCode (ch ',') _ (Or.inl (by decide))
    · rw [skipSpace_appendString]
      exact p2
  rw [appendString_cons (str "retCode"), List.cons_append] at p1 ⊢
  exact parseValue_object_step (fuel + 6) 9999 34 _ (by decide) (by decide) _ rest p1

theorem marshalResponse_length (r : Response) :
    (marshalValue r.Result).length + (marshalValue r.RetExtInfo).length + 7
      ≤ (marshalResponse r).length := by
  have h : (str "\"retCode\":").length = 10 := by decide
  simp only [marshalResponse, List.length_append, List.length_cons, List.length_nil, h]
  omega

/-- The syntax tree of the text written for a response. -/
theorem parseJSON_marshalResponse (r : Response)
    (hmsg : validUTF8 r.RetMsg = true)
    (hres : r.Result.plain = true) (hext : r.RetExtInfo.plain = true)
    (hresDepth : r.Result.nesting < maxNestingDepth)
    (hextDepth : r.RetExtInfo.nesting < maxNestingDepth) :
    parseJSON (marshalResponse r) = some (envelopeTree r) := by
  have hlen := marshalResponse_length r
  have h1 := size_lt_length r.Result hres
  have h2 := size_lt_length r.RetExtInfo hext
  obtain ⟨f, hf⟩ : ∃ f, (marshalResponse r).length + 1 = f + 7 :=
    ⟨(marshalResponse r).length - 6, by omega⟩
  have hp := parseValue_marshalResponse r f [] hmsg hres hext (by omega) (by omega)
    hresDepth hextDepth
  rw [List.append_nil] at hp
  have hsk : skipSpace (marshalResponse r) = marshalResponse r := by
    have := marshalResponse_shape r []
    rw [List.append_nil] at this
    rw [this]
    exact skipSpace_cons _ _ (by decide)
  unfold parseJSON
  rw [hsk, hf, hp]
  rfl

/-- Decoding the syntax tree of a response gives the response. -/
theorem decodeResponse_envelopeTree (r : Response)
    (hcode : inInt64 r.RetCode = true) (htime : inInt64 r.Time = true)
    (hres : r.Result.plain = true) (hext : r.RetExtInfo.plain = true) :
    decodeResponse (envelopeTree r) = Except.ok r := by
  have f1 : fieldOf (str "retCode") = some Field.retCode := by decide
  have f2 : fieldOf (str "retMsg") = some Field.retMsg := by decide
  have f3 : fieldOf (str "result") = some Field.result := by decide
  have f4 : fieldOf (str "retExtInfo") = some Field.retExtInfo := by decide
  have f5 : fieldOf (str "time") = some Field.time := by decide
  simp only [envelopeTree, decodeResponse, decodeMembers, decodeMember, f1, f2, f3, f4, f5,
    decodeInt, decodeString, parseIntLit_formatInt _ hcode, parseIntLit_formatInt _ htime,
    decodeInterface_plain _ _ hres, decodeInterface_plain _ _ hext, zeroResponse]

/-! ## C19: the envelope round trip -/

/-- **C19** (counterexample). The response with code 0, the one-byte message `0xFF`, nil
`Result` and `RetExtInfo` and time 0 does not round-trip: `json.Marshal` writes the message
as `\ufffd`, and decoding its output gives the message U+FFFD (bytes EF BF BD), so the
decoded response differs from the one serialised. -/
theorem envelope_roundtrip_invalid_utf8 :
    brokenTextResponse.Result.plain = true ∧ brokenTextResponse.RetExtInfo.plain = true ∧
    marshalResponse brokenTextResponse =
      str "\x7b\"retCode\":0,\"retMsg\":\"\\ufffd\",\"result\":null,\"retExtInfo\":null,\"time\":0\x7d" ∧
    Unmarshal (marshalResponse brokenTextResponse) =
      Except.ok { brokenTextResponse with RetMsg := [0xEF, 0xBF, 0xBD] } ∧
    Unmarshal (marshalResponse brokenTextResponse) ≠ Except.ok brokenTextResponse := by
  decide

/-- **C19** (amended). For every response `r` whose code and time fit a 64-bit integer,
whose message is valid UTF-8, and whose `Result` and `RetExtInfo` are values in decoded
form built from null, booleans, valid UTF-8 strings, arrays and objects with valid UTF-8
keys, nested less deep than the scanner's limit: decoding the bytes `json.Marshal` writes
for `r` gives `r` with no error (also through `parseResponse`), and those bytes are a JSON
object with exactly the members `retCode`, `retMsg`, `result`, `retExtInfo`, `time`, in this
order, holding the fields of `r`. -/
theorem envelope_roundtrip (r : Response)
    (hcode : inInt64 r.RetCode = true) (htime : inInt64 r.Time = true)
    (hmsg : validUTF8 r.RetMsg = true)
    (hres : r.Result.plain = true) (hext : r.RetExtInfo.plain = true)
    (hresDepth : r.Result.nesting < maxNestingDepth)
    (hextDepth : r.RetExtInfo.nesting < maxNestingDepth) :
    Unmarshal (marshalResponse r) = Except.ok r ∧
    (∀ jsonError : JsonError → GoError,
      parseResponse jsonError (marshalResponse r) = (some r, none)) ∧
    parseJSON (marshalResponse r) =
      some (JValue.object
        [(str "retCode", JValue.number (formatInt r.RetCode)),
         (str "retMsg", JValue.str r.RetMsg),
         (str "result", r.Result),
         (str "retExtInfo", r.RetExtInfo),
         (str "time", JValue.number (formatInt r.Time))]) := by
  have hparse := parseJSON_marshalResponse r hmsg hres hext hresDepth hextDepth
  have hdec := decodeResponse_envelopeTree r hcode htime hres hext
  have hu : Unmarshal (marshalResponse r) = Except.ok r := by
    simp only [Unmarshal, hparse, hdec]
  refine ⟨hu, fun jsonError => ?_, hparse⟩
  simp only [parseResponse, hu]

/-- The envelope `{retCode:0, retMsg:"OK", result:{"foo":"bar"}, retExtInfo:{}, time:1700000000000}`
round-trips with code 0 and the original payload. -/
theorem envelope_roundtrip_witness :
    marshalResponse demoResponse =
      str "\x7b\"retCode\":0,\"retMsg\":\"OK\",\"result\":\x7b\"foo\":\"bar\"\x7d,\"retExtInfo\":\x7b\x7d,\"time\":1700000000000\x7d" ∧
    Unmarshal (marshalResponse demoResponse) = Except.ok demoResponse ∧
    demoResponse.RetCode = 0 ∧
    demoResponse.Result = JValue.object [(str "foo", JValue.str (str "bar"))] :=
  ⟨by decide,
   (envelope_roundtrip demoResponse (by decide) (by decide) (by decide) (by decide)
      (by decide) (by decide) (by decide)).1,
   rfl, rfl⟩

/-! ## Options maps are merged last -/

theorem setEntry_lookup (k v k2 : GoString) : ∀ l : List (GoString × GoString),
    (setEntry k v l).lookup k2 = if k2 = k then some v else l.lookup k2
  | [] => by
    by_cases h : k2 = k
    · simp [setEntry, List.lookup, h]
    · have hb : (k2 == k) = false := by simpa using h
      simp [setEntry, List.lookup, h, hb]
  | (k0, v0) :: rest => by
    by_cases h0 : k0 = k
    · by_cases h : k2 = k
      · simp [setEntry, List.lookup, h0, h]
      · have hb : (k2 == k) = false := by simpa using h
        simp [setEntry, List.lookup, h0, h, hb]
    · by_cases h2 : k2 = k0
      · have hne : ¬ k0 = k := h0
        simp [setEntry, List.lookup, h0, h2, hne]
      · have hb : (k2 == k0) = false := by simpa using h2
        simp only [setEntry, h0, if_false, List.lookup, hb]
        exact setEntry_lookup k v k2 rest

theorem ParamSet.get_set (p : ParamSet) (k v k2 : GoString) :
    (p.set k v).get k2 = if k2 = k then v else p.get k2 := by
  simp only [ParamSet.get, ParamSet.set, setEntry_lookup]
  by_cases h : k2 = k <;> simp [h]

theorem foldl_set_get (k : GoString) : ∀ (l : List (GoString × GoString)),
    (l.map Prod.fst).Nodup → ∀ p : ParamSet,
    (l.foldl (fun m e => m.set e.1 e.2) p).get k = (l.lookup k).getD (p.get k)
  | [], _, p => by simp [List.lookup]
  | (k0, v0) :: rest, hnd, p => by
    simp only [List.map_cons, List.nodup_cons] at hnd
    rw [List.foldl_cons, foldl_set_get k rest hnd.2, ParamSet.get_set]
    by_cases h : k = k0
    · subst h
      rw [lookup_none_of_not_mem rest k hnd.1]
      simp [List.lookup]
    · have hb : (k == k0) = false := by simpa using h
      simp only [h, if_false, List.lookup, hb]

/-- After the loop over the options every key of the options holds the options' value, and
every other key holds what it held before. -/
theorem mergeOptions_get (params options : ParamSet) (k : GoString) :
    (k ∈ options.entries.map Prod.fst →
      (mergeOptions params options).get k = options.get k) ∧
    (k ∉ options.entries.map Prod.fst →
      (mergeOptions params options).get k = params.get k) := by
  have h := foldl_set_get k options.entries options.nodup params
  constructor
  · intro hk
    have hmem := options.mem_of_key hk
    rw [mergeOptions, h, lookup_of_mem options.entries options.nodup k _ hmem]
    rfl
  · intro hk
    rw [mergeOptions, h, lookup_none_of_not_mem options.entries k hk]
    rfl

theorem mergeOptions_empty (params : ParamSet) (k : GoString) :
    (mergeOptions params emptyParams).get k = params.get k := rfl

/-- The value under a key of a map literal followed by assignments to other keys. -/
theorem required_values (category symbol side orderType orderId orderLinkId : GoString)
    (coin chain address tag amount : GoString) (qty price takeProfit stopLoss : FloatArg) :
    ((OrderService.CreateOrderParams category symbol side orderType qty price
        emptyParams).get (str "category") = category ∧
      (OrderService.CreateOrderParams category symbol side orderType qty price
        emptyParams).get (str "symbol") = symbol ∧
      (OrderService.CreateOrderParams category symbol side orderType qty price
        emptyParams).get (str "side") = side ∧
      (OrderService.CreateOrderParams category symbol side orderType qty price
        emptyParams).get (str "orderType") = orderType ∧
      (OrderService.CreateOrderParams category symbol side orderType qty price
        emptyParams).get (str "qty") = qty.text) ∧
    ((OrderService.AmendOrderParams category symbol orderId orderLinkId qty price
        emptyParams).get (str "category") = category ∧
      (OrderService.AmendOrderParams category symbol orderId orderLinkId qty price
        emptyParams).get (str "symbol") = symbol) ∧
    ((PositionService.SetTradingStopParams category symbol takeProfit stopLoss
        emptyParams).get (str "category") = category ∧
      (PositionService.SetTradingStopParams category symbol takeProfit stopLoss
        emptyParams).get (str "symbol") = symbol) ∧
    ((AssetService.WithdrawParams coin chain address tag amount emptyParams).get (str "coin")
        = coin ∧
      (AssetService.WithdrawParams coin chain address tag amount emptyParams).get (str "chain")
        = chain ∧
      (AssetService.WithdrawParams coin chain address tag amount emptyParams).get
        (str "address") = address ∧
      (AssetService.WithdrawParams coin chain address tag amount emptyParams).get
        (str "amount") = amount) := by
  have e : ∀ k, emptyParams.get k = [] := fun _ => rfl
  refine ⟨⟨?_, ?_, ?_, ?_, ?_⟩, ⟨?_, ?_⟩, ⟨?_, ?_⟩, ?_, ?_, ?_, ?_⟩
  all_goals
    simp only [OrderService.CreateOrderParams, OrderService.AmendOrderParams,
      PositionService.SetTradingStopParams, AssetService.WithdrawParams, mergeOptions_empty,
      mapLiteral, List.foldl]
    repeat' split
    all_goals simp +decide only [ParamSet.get_set, e, if_true, if_false]

/-! ## C21: required fields and the options map -/

/-- **C21** (counterexample). `OrderService.CreateOrder` called with category `linear` and
the options map `{"category": "spot"}` hands `s.client.Post` a map whose `category` is
`spot`: the explicit argument is overwritten by the options. -/
theorem CreateOrder_options_overwrite :
    str "category" ∈ (ParamSet.single (str "category") (str "spot")).entries.map Prod.fst ∧
    (OrderService.CreateOrderParams (str "linear") (str "BTCUSDT") (str "Buy") (str "Limit")
        { positive := true, text := str "1" } { positive := true, text := str "100" }
        (ParamSet.single (str "category") (str "spot"))).get (str "category") = str "spot" ∧
    (OrderService.CreateOrderParams (str "linear") (str "BTCUSDT") (str "Buy") (str "Limit")
        { positive := true, text := str "1" } { positive := true, text := str "100" }
        (ParamSet.single (str "category") (str "spot"))).get (str "category") ≠ str "linear" := by
  decide

/-- **C21** (amended). For each of the four methods that take an options map, and every
options map: a key of the options holds the options' value in the map handed to
`s.client.Post` (the options are merged last and win), and a key that is not in the options
holds what the method stores for it without options; without options the required keys
hold the caller's explicit arguments. So a required field keeps the caller's argument exactly
when the options do not name its key. -/
theorem options_merged_last (category symbol side orderType orderId orderLinkId : GoString)
    (coin chain address tag amount : GoString) (qty price takeProfit stopLoss : FloatArg)
    (options : ParamSet) (k : GoString) :
    (k ∈ options.entries.map Prod.fst →
      (OrderService.CreateOrderParams category symbol side orderType qty price options).get k
        = options.get k ∧
      (OrderService.AmendOrderParams category symbol orderId orderLinkId qty price options).get k
        = options.get k ∧
      (PositionService.SetTradingStopParams category symbol takeProfit stopLoss options).get k
        = options.get k ∧
      (AssetService.WithdrawParams coin chain address tag amount options).get k
        = options.get k) ∧
    (k ∉ options.entries.map Prod.fst →
      (OrderService.CreateOrderParams category symbol side orderType qty price options).get k
        = (OrderService.CreateOrderParams category symbol side orderType qty price
            emptyParams).get k ∧
      (OrderService.AmendOrderParams category symbol orderId orderLinkId qty price options).get k
        = (OrderService.AmendOrderParams category symbol orderId orderLinkId qty price
            emptyParams).get k ∧
      (PositionService.SetTradingStopParams category symbol takeProfit stopLoss options).get k
        = (PositionService.SetTradingStopParams category symbol takeProfit stopLoss
            emptyParams).get k ∧
      (AssetService.WithdrawParams coin chain address tag amount options).get k
        = (AssetService.WithdrawParams coin chain address tag amount emptyParams).get k) ∧
    ((OrderService.CreateOrderParams category symbol side orderType qty price
        emptyParams).get (str "category") = category ∧
      (OrderService.CreateOrderParams category symbol side orderType qty price
        emptyParams).get (str "symbol") = symbol ∧
      (OrderService.CreateOrderParams category symbol side orderType qty price
        emptyParams).get (str "side") = side ∧
      (OrderService.CreateOrderParams category symbol side orderType qty price
        emptyParams).get (str "orderType") = orderType) ∧
    ((OrderService.AmendOrderParams category symbol orderId orderLinkId qty price
        emptyParams).get (str "category") = category ∧
      (OrderService.AmendOrderParams category symbol orderId orderLinkId qty price
        emptyParams).get (str "symbol") = symbol) ∧
    ((PositionService.SetTradingStopParams category symbol takeProfit stopLoss
        emptyParams).get (str "category") = category ∧
      (PositionService.SetTradingStopParams category symbol takeProfit stopLoss
        emptyParams).get (str "symbol") = symbol) ∧
    ((AssetService.WithdrawParams coin chain address tag amount emptyParams).get (str "coin")
        = coin ∧
      (AssetService.WithdrawParams coin chain address tag amount emptyParams).get
        (str "address") = address ∧
      (AssetService.WithdrawParams coin chain address tag amount emptyParams).get
        (str "amount") = amount) := by
  have hreq := required_values category symbol side orderType orderId orderLinkId coin chain
    address tag amount qty price takeProfit stopLoss
  refine ⟨fun hk => ⟨?_, ?_, ?_, ?_⟩, fun hk => ⟨?_, ?_, ?_, ?_⟩,
    ⟨hreq.1.1, hreq.1.2.1, hreq.1.2.2.1, hreq.1.2.2.2.1⟩, hreq.2.1, hreq.2.2.1,
    ⟨hreq.2.2.2.1, hreq.2.2.2.2.2.1, hreq.2.2.2.2.2.2⟩⟩
  · exact (mergeOptions_get _ options k).1 hk
  · exact (mergeOptions_get _ options k).1 hk
  · exact (mergeOptions_get _ options k).1 hk
  · exact (mergeOptions_get _ options k).1 hk
  · exact (mergeOptions_get _ options k).2 hk
  · exact (mergeOptions_get _ options k).2 hk
  · exact (mergeOptions_get _ options k).2 hk
  · exact (mergeOptions_get _ options k).2 hk

/-- A limit order for `BTCUSDT` with the options `{"timeInForce": "GTC"}`: the key
`timeInForce` holds the options' value and `category`, which the options do not name, holds
the caller's `linear`. -/
theorem options_merged_last_witness :
    (OrderService.CreateOrderParams (str "linear") (str "BTCUSDT") (str "Buy") (str "Limit")
        { positive := true, text := str "1" } { positive := true, text := str "100" }
        (ParamSet.single (str "timeInForce") (str "GTC"))).get (str "timeInForce")
      = str "GTC" ∧
    (OrderService.CreateOrderParams (str "linear") (str "BTCUSDT") (str "Buy") (str "Limit")
        { positive := true, text := str "1" } { positive := true, text := str "100" }
        (ParamSet.single (str "timeInForce") (str "GTC"))).get (str "category")
      = str "linear" :=
  ⟨((options_merged_last (str "linear") (str "BTCUSDT") (str "Buy") (str "Limit") [] []
      [] [] [] [] [] { positive := true, text := str "1" }
      { positive := true, text := str "100" } { positive := false, text := [] }
      { positive := false, text := [] } (ParamSet.single (str "timeInForce") (str "GTC"))
      (str "timeInForce")).1 (by decide)).1,
   by decide⟩

/-! ## C22: the error a resource method returns for a failed call -/

/-- **C22** (counterexample). When `s.client.Post` fails, `OrderService.CreateOrder` returns
an error with code `ErrOrderFailed` (30001), not `ErrAPIRequestFailed` (20001), and
`OrderService.CancelOrder` one with `ErrOrderCancelFailed` (30002); `ErrOrderFailed` is the
code `FromBybitAPIError` gives the vendor code 20001, and `ErrAPIRequestFailed` itself is the
code it gives the vendor code 110001. -/
theorem CreateOrder_transport_failure_code :
    ApiMethod.CreateOrder.call demoJsonError { cancelled := false } []
        (some { text := str "dial tcp: timeout" }) =
      (none, some { Code := ErrOrderFailed, Message := str "创建订单失败",
                    Cause := some { text := str "dial tcp: timeout" } }) ∧
    ApiMethod.CancelOrder.call demoJsonError { cancelled := false } []
        (some { text := str "dial tcp: timeout" }) =
      (none, some { Code := ErrOrderCancelFailed, Message := str "取消订单失败",
                    Cause := some { text := str "dial tcp: timeout" } }) ∧
    ErrOrderFailed ≠ ErrAPIRequestFailed ∧ ErrOrderCancelFailed ≠ ErrAPIRequestFailed ∧
    (FromBybitAPIError 20001 (str "order failed")).map Error.Code = some ErrOrderFailed ∧
    (FromBybitAPIError 110001 (str "order not exists")).map Error.Code =
      some ErrAPIRequestFailed := by
  decide

/-- **C22** (amended). For every method of `internal/api`, every context and every error
`e` returned by `s.client.Get` or `s.client.Post`, the method returns a nil response and an
`*errors.Error` whose `Cause` is `e` and whose `Code` is `ErrAPIRequestFailed`, except that
`CreateOrder` gives `ErrOrderFailed` and `CancelOrder` gives `ErrOrderCancelFailed`; the code
is never `ErrAPIResponseInvalid`, the code of an undecodable body. A vendor failure is not an
error of the method at all: when the call succeeds with a body that decodes to an envelope,
whatever its `retCode`, the method returns the envelope and a nil error, so a failed call
and a vendor failure differ in the error being nil. -/
theorem transport_failure (m : ApiMethod) (jsonError : JsonError → GoError) (ctx : Context)
    (response : List Byte) (e : GoError) :
    m.call jsonError ctx response (some e) =
      (none, some { Code := m.failCode, Message := m.failMessage, Cause := some e }) ∧
    m.failCode =
      (if m = ApiMethod.CreateOrder then ErrOrderFailed
       else if m = ApiMethod.CancelOrder then ErrOrderCancelFailed
       else ErrAPIRequestFailed) ∧
    m.failCode ≠ ErrAPIResponseInvalid ∧
    (∀ r : Response, Unmarshal response = Except.ok r →
      m.call jsonError ctx response none = (some r, none) ∧
      m.call jsonError ctx response none ≠ m.call jsonError ctx response (some e)) := by
  refine ⟨rfl, ?_, ?_, ?_⟩
  · cases m <;> rfl
  · cases m <;> decide
  · intro r hr
    have h : m.call jsonError ctx response none = (some r, none) := by
      simp only [ApiMethod.call, apiMethod, hr]
    refine ⟨h, ?_⟩
    rw [h]
    intro heq
    have h1 := congrArg Prod.fst heq
    simp [ApiMethod.call, apiMethod] at h1

/-- A failed call of `GetTickers` gives `ErrAPIRequestFailed` with the cause kept, and the
failure envelope with `retCode` 10001 comes back as a response with a nil error. -/
theorem transport_failure_witness :
    ApiMethod.GetTickers.call demoJsonError { cancelled := false } failureBody
        (some { text := str "dial tcp: timeout" }) =
      (none, some { Code := ErrAPIRequestFailed, Message := str "获取行情数据失败",
                    Cause := some { text := str "dial tcp: timeout" } }) ∧
    ApiMethod.GetTickers.call demoJsonError { cancelled := false } failureBody none =
      (some failureResponse, none) :=
  ⟨(transport_failure ApiMethod.GetTickers demoJsonError { cancelled := false } failureBody
      { text := str "dial tcp: timeout" }).1,
   ((transport_failure ApiMethod.GetTickers demoJsonError { cancelled := false } failureBody
      { text := str "dial tcp: timeout" }).2.2.2 failureResponse (by decide)).1⟩

/-! ## C23: the configured base URL -/

theorem sendRequest_url (env : Env) (c : Client) (method endpoint : GoString)
    (params : ParamSet) (auth : Bool) (r : Request)
    (h : r ∈ (sendRequest env c method endpoint params auth).sent) :
    ∃ query, r.url = c.BaseURL ++ str "/v5/" ++ endpoint ++ query := by
  obtain ⟨req0, hb, rfl⟩ := (mem_sent_iff env c method endpoint params auth r).mp h
  rw [(addAuth_same env c params auth req0).1, ← apiURL_eq]
  by_cases hm : method = str "GET"
  · subst hm
    exact ⟨_, (buildRequest_get env c endpoint params req0 hb).2.2⟩
  · exact ⟨[], by rw [(buildRequest_other env c method endpoint params req0 hm hb).2.2,
      List.append_nil]⟩

/-- **C23** (what the code does). The client of the service that `main` creates has the
constant base URL `https://api.bybit.com` whatever the configuration says, so every request
it sends has a URL that starts with `https://api.bybit.com/v5/`; with a configuration whose
`baseUrl` is `https://api-testnet.bybit.com` the request of `GetTickers` still goes to
`https://api.bybit.com/v5/market/tickers?category=spot`, which does not start with the
configured base URL. -/
theorem main_ignores_configured_baseURL :
    (∀ (given : Option Int) (loaded : Option Config),
      (mainClient given loaded).BaseURL = str "https://api.bybit.com") ∧
    (∀ (given : Option Int) (loaded : Option Config) (env : Env) (method endpoint : GoString)
        (params : ParamSet) (auth : Bool),
      ((sendRequest env (mainClient given loaded) method endpoint params auth).sent.all
        (fun r => (str "https://api.bybit.com/v5/").isPrefixOf r.url)) = true) ∧
    testnetConfig.Bybit.BaseURL = str "https://api-testnet.bybit.com" ∧
    (GetTickers (fixedEnv 0 200 failureBody) (mainClient none (some testnetConfig))
        (str "spot") []).sent.map Request.url =
      [str "https://api.bybit.com/v5/market/tickers?category=spot"] ∧
    (testnetConfig.Bybit.BaseURL ++ str "/v5/").isPrefixOf
      (str "https://api.bybit.com/v5/market/tickers?category=spot") = false := by
  refine ⟨fun _ _ => rfl, ?_, by decide, by decide, by decide⟩
  intro given loaded env method endpoint params auth
  rw [List.all_eq_true]
  intro r hr
  obtain ⟨query, hq⟩ := sendRequest_url env _ method endpoint params auth r hr
  have hbase : (mainClient given loaded).BaseURL ++ str "/v5/" =
      str "https://api.bybit.com/v5/" := by
    show BaseURL ++ str "/v5/" = str "https://api.bybit.com/v5/"
    decide
  rw [hq, hbase, List.isPrefixOf_iff_prefix, List.append_assoc]
  exact List.prefix_append _ _

/-! ## C26: the fields of the client -/

theorem ClientOp.after_fields (c : Client) (op : ClientOp) :
    (op.after c).APIKey = c.APIKey ∧ (op.after c).APISecret = c.APISecret ∧
      (op.after c).BaseURL = c.BaseURL := by
  cases op <;> exact ⟨rfl, rfl, rfl⟩

theorem Client.run_fields (ops : List ClientOp) : ∀ c : Client,
    (c.run ops).APIKey = c.APIKey ∧ (c.run ops).APISecret = c.APISecret ∧
      (c.run ops).BaseURL = c.BaseURL := by
  induction ops with
  | nil => intro c; exact ⟨rfl, rfl, rfl⟩
  | cons op ops ih =>
    intro c
    have h1 := ih (op.after c)
    have h2 := ClientOp.after_fields c op
    simp only [Client.run, List.foldl_cons] at h1 ⊢
    exact ⟨h1.1.trans h2.1, h1.2.1.trans h2.2.1, h1.2.2.trans h2.2.2⟩

/-- **C26**. `NewClient(k, s)` yields a client with `APIKey = k`, `APISecret = s` and
`BaseURL = "https://api.bybit.com"`; after every sequence of operations on it (`SetDebug`,
`generateSignature`, `sendRequest` and with it every resource method) these three fields are
what they were; `SetDebug(d)` changes the field `Debug` to `d` and nothing else, and the
other operations change no field. -/
theorem client_fields_fixed (k s : GoString) (ops : List ClientOp) :
    (NewClient k s).APIKey = k ∧ (NewClient k s).APISecret = s ∧
    (NewClient k s).BaseURL = str "https://api.bybit.com" ∧
    ((NewClient k s).run ops).APIKey = k ∧ ((NewClient k s).run ops).APISecret = s ∧
    ((NewClient k s).run ops).BaseURL = str "https://api.bybit.com" ∧
    (∀ (c : Client) (d : Bool),
      SetDebug c d =
        { BaseURL := c.BaseURL, APIKey := c.APIKey, APISecret := c.APISecret, Debug := d }) ∧
    (∀ (c : Client) (op : ClientOp), (∀ d, op ≠ ClientOp.setDebug d) → op.after c = c) := by
  have h := Client.run_fields ops (NewClient k s)
  refine ⟨rfl, rfl, rfl, h.1, h.2.1, ?_, fun _ _ => rfl, ?_⟩
  · rw [h.2.2]; rfl
  · intro c op hop
    cases op with
    | setDebug d => exact absurd rfl (hop d)
    | generateSignature _ _ => rfl
    | sendRequest _ _ _ _ _ => rfl

/-- The client `NewClient("key", "secret")` after `SetDebug(true)`, a signature and a
request: key, secret and base URL are unchanged, `Debug` is set. -/
theorem client_fields_fixed_witness :
    (demoClient.run [ClientOp.setDebug true,
        ClientOp.generateSignature demoParams 1700000000000,
        ClientOp.sendRequest (fixedEnv 0 200 failureBody) (str "GET") (str "market/tickers")
          demoParams false]).APIKey = str "key" ∧
    ClientOp.after demoClient (ClientOp.generateSignature demoParams 1700000000000)
      = demoClient ∧
    ClientOp.after demoClient (ClientOp.setDebug true) =
      { BaseURL := str "https://api.bybit.com", APIKey := str "key",
        APISecret := str "secret", Debug := true } :=
  ⟨(client_fields_fixed (str "key") (str "secret") _).2.2.2.1,
   (client_fields_fixed (str "key") (str "secret") []).2.2.2.2.2.2.2 demoClient _
      (fun d h => by cases h),
   by decide⟩

/-! ## C30: the port `main` listens on -/

/-- **C30**. The port `main` listens on is the value of the `-port` flag whenever that
value is not 0, and the port of the configuration (the loaded one, or the default one when
loading failed) when the value is 0, and only then can the two differ; as the flag's default
is 50051, the port is 50051 for every configuration whenever `-port` is not given. The rest
of the configuration is not touched. -/
theorem listen_port (given : Option Int) (loaded : Option Config) :
    (portFlag given ≠ 0 → (mainConfig given loaded).Server.Port = portFlag given) ∧
    (portFlag given = 0 →
      (mainConfig given loaded).Server.Port = (loaded.getD DefaultConfig).Server.Port) ∧
    ((mainConfig given loaded).Server.Port ≠ portFlag given → portFlag given = 0) ∧
    portFlag none = 50051 ∧
    (mainConfig none loaded).Server.Port = 50051 ∧
    listenAddress none loaded = str ":50051" ∧
    (mainConfig given loaded).Bybit = (loaded.getD DefaultConfig).Bybit := by
  have h1 : portFlag given ≠ 0 → (mainConfig given loaded).Server.Port = portFlag given := by
    intro h
    simp only [mainConfig, h, ne_eq, not_false_eq_true, if_true]
  have h2 : portFlag given = 0 →
      (mainConfig given loaded).Server.Port = (loaded.getD DefaultConfig).Server.Port := by
    intro h
    cases loaded <;> simp only [mainConfig, h, ne_eq, not_true_eq_false, if_false] <;> rfl
  have h3 : (mainConfig none loaded).Server.Port = 50051 := by
    simp only [mainConfig, portFlag, Option.getD_none]
    rfl
  refine ⟨h1, h2, ?_, rfl, h3, ?_, ?_⟩
  · intro hne
    by_contra h0
    exact hne (h1 h0)
  · simp only [listenAddress, h3]
    decide
  · by_cases h : portFlag given = 0
    · cases loaded <;> simp only [mainConfig, h, ne_eq, not_true_eq_false, if_false] <;> rfl
    · cases loaded <;> simp only [mainConfig, h, ne_eq, not_false_eq_true, if_true] <;> rfl

/-- A configuration file with port 8080: without `-port` the server listens on 50051, with
`-port 0` on 8080, with `-port 9000` on 9000. -/
theorem listen_port_witness :
    (mainConfig none
      (some { DefaultConfig with Server := { Host := str "0.0.0.0", Port := 8080 } })).Server.Port
        = 50051 ∧
    (mainConfig (some 0)
      (some { DefaultConfig with Server := { Host := str "0.0.0.0", Port := 8080 } })).Server.Port
        = 8080 ∧
    (mainConfig (some 9000)
      (some { DefaultConfig with Server := { Host := str "0.0.0.0", Port := 8080 } })).Server.Port
        = 9000 :=
  ⟨(listen_port none _).2.2.2.2.1,
   (listen_port (some 0) _).2.1 (by decide),
   (listen_port (some 9000) _).1 (by decide)⟩

/-! ## C24: the context of a call -/

/-- **C24** (counterexample). With a context that is already cancelled and a transport that
answers 200 with the envelope `failureBody`, `bybitService.GetKline` and
`MarketService.GetKline` return the transport's response, decoded, and a nil error: the call
does not fail. -/
theorem cancelled_context_returns_response :
    bybitService.GetKline demoJsonError (fixedEnv 0 200 failureBody) demoClient
        { cancelled := true } (str "spot") (str "BTCUSDT") (str "1") 10 =
      (some failureResponse, none) ∧
    ApiMethod.GetKline.call demoJsonError { cancelled := true } failureBody none =
      (some failureResponse, none) := by
  decide

/-- **C24** (amended). The outcome of a resource method does not depend on the context it is
given: `bybitService.GetKline` returns with any context what it returns with any other, and
so does every method of `internal/api`; with a context already cancelled, a transport that
answers 200 with a body that decodes to `r` makes `bybitService.GetKline` send its one
request and return `r` with a nil error, and a transport that fails with `e` makes it return
`e`. -/
theorem context_ignored (jsonError : JsonError → GoError) (env : Env) (c : Client)
    (ctx1 ctx2 : Context) (category symbol interval : GoString) (limit : Int) :
    bybitService.GetKline jsonError env c ctx1 category symbol interval limit =
      bybitService.GetKline jsonError env c ctx2 category symbol interval limit ∧
    (∀ (m : ApiMethod) (response : List Byte) (err : Option GoError),
      m.call jsonError ctx1 response err = m.call jsonError ctx2 response err) ∧
    (∀ (req : Request) (body : List Byte) (r : Response),
      (GetKline env c category symbol interval limit).sent = [req] →
      env.roundTrip req = TransportResult.response 200 body →
      Unmarshal body = Except.ok r →
      bybitService.GetKline jsonError env c { cancelled := true } category symbol interval
        limit = (some r, none)) ∧
    (∀ (req : Request) (e : GoError),
      (GetKline env c category symbol interval limit).sent = [req] →
      env.roundTrip req = TransportResult.failed e →
      bybitService.GetKline jsonError env c { cancelled := true } category symbol interval
        limit = (none, some e)) := by
  refine ⟨rfl, fun _ _ _ => rfl, ?_, ?_⟩
  · intro req body r hsent hresp hr
    have h := sendRequest_response env c (str "GET") (str "market/kline")
      (GetKlineParams category symbol interval limit) false req 200 body hsent hresp
    simp only [ne_eq, not_true_eq_false, if_false] at h
    simp only [bybitService.GetKline, BybitMcp.GetKline, h, serviceMethod, Option.getD_some,
      parseResponse, hr]
  · intro req e hsent hresp
    have hs := hsent
    simp only [BybitMcp.GetKline] at hs
    rw [sendRequest_sent] at hs
    simp only [bybitService.GetKline, BybitMcp.GetKline, sendRequest, serviceMethod]
    cases hb : buildRequest env c (str "GET") (str "market/kline")
        (GetKlineParams category symbol interval limit) with
    | error e2 => rw [hb] at hs; simp at hs
    | ok req0 =>
      rw [hb] at hs
      simp only [List.cons.injEq, and_true] at hs
      simp only [hs, hresp]

set_option maxRecDepth 100000 in
/-- With a cancelled context and a transport that answers 200 with `failureBody`,
`bybitService.GetKline` returns the decoded envelope. -/
theorem context_ignored_witness :
    bybitService.GetKline demoJsonError (fixedEnv 0 200 failureBody) demoClient
        { cancelled := true } (str "spot") (str "BTCUSDT") (str "1") 10 =
      (some failureResponse, none) :=
  (context_ignored demoJsonError (fixedEnv 0 200 failureBody) demoClient { cancelled := true }
      { cancelled := false } (str "spot") (str "BTCUSDT") (str "1") 10).2.2.1
    { method := str "GET",
      url := str "https://api.bybit.com/v5/market/kline?category=spot&interval=1&limit=10&symbol=BTCUSDT",
      body := none, header := [] }
    failureBody failureResponse (by decide) (by decide) (by decide)

/-! ## C25: one round trip per call -/

/-- **C25**. Every call of `sendRequest` hands at most one request to `HTTPClient.Do`:
exactly one, the request built and signed, when building the request succeeds, and none when
it fails, in which case the error of `http.NewRequest` is returned; the requests handed over
are the same whatever the transport returns (a network error, an unreadable body, a status
other than 200, or a response), so nothing is sent again. -/
theorem sendRequest_once (env : Env) (c : Client) (method endpoint : GoString)
    (params : ParamSet) (auth : Bool) :
    (sendRequest env c method endpoint params auth).sent.length ≤ 1 ∧
    (∀ req0, buildRequest env c method endpoint params = Except.ok req0 →
      (sendRequest env c method endpoint params auth).sent = [addAuth env c params auth req0]) ∧
    (∀ e, buildRequest env c method endpoint params = Except.error e →
      sendRequest env c method endpoint params auth = { sent := [], body := none, err := some e }) ∧
    (∀ transport : Request → TransportResult,
      (sendRequest { env with roundTrip := transport } c method endpoint params auth).sent =
        (sendRequest env c method endpoint params auth).sent) := by
  have hs := sendRequest_sent env c method endpoint params auth
  refine ⟨?_, ?_, ?_, ?_⟩
  · rw [hs]
    cases buildRequest env c method endpoint params <;> simp
  · intro req0 hb
    rw [hs, hb]
  · intro e hb
    simp only [sendRequest, hb]
  · intro transport
    rw [hs, sendRequest_sent]
    rfl

set_option maxRecDepth 100000 in
/-- A transport that fails: `GET market/tickers` is handed to it once, and the call returns
its error. -/
theorem sendRequest_once_witness :
    (sendRequest
      { now := 0, newRequestErr := fun _ _ => none,
        roundTrip := fun _ => TransportResult.failed { text := str "timeout" } }
      demoClient (str "GET") (str "market/tickers") demoParams false).sent =
      [{ method := str "GET",
         url := str "https://api.bybit.com/v5/market/tickers?category=spot&symbol=BTCUSDT",
         body := none, header := [] }] :=
  (sendRequest_once
      { now := 0, newRequestErr := fun _ _ => none,
        roundTrip := fun _ => TransportResult.failed { text := str "timeout" } }
      demoClient (str "GET") (str "market/tickers") demoParams false).2.1
    { method := str "GET",
      url := str "https://api.bybit.com/v5/market/tickers?category=spot&symbol=BTCUSDT",
      body := none, header := [] }
    (by decide)

/-! ## C28: the signed string does not separate its parts -/

/-- **C28**. The string signed by `generateSignature` is the concatenation of its parts
without separators, so different inputs give the same signature: for every client and
timestamp the maps `{"a": "bc"}` and `{"ab": "c"}` are signed alike, and for every secret and
every map, timestamp 1 with API key `2x` is signed like timestamp 12 with API key `x`. -/
theorem generateSignature_not_injective :
    (ParamSet.single (str "a") (str "bc")).entries ≠
      (ParamSet.single (str "ab") (str "c")).entries ∧
    (∀ (c : Client) (timestamp : Int),
      generateSignature c (ParamSet.single (str "a") (str "bc")) timestamp =
        generateSignature c (ParamSet.single (str "ab") (str "c")) timestamp) ∧
    (∀ (secret : GoString) (params : ParamSet),
      generateSignature (NewClient (str "2x") secret) params 1 =
        generateSignature (NewClient (str "x") secret) params 12) := by
  refine ⟨by decide, ?_, ?_⟩
  · intro c timestamp
    have h : signingString c (ParamSet.single (str "a") (str "bc")) timestamp =
        signingString c (ParamSet.single (str "ab") (str "c")) timestamp := by
      rw [signingString_eq, signingString_eq]
      have h1 : (sortStrings ((ParamSet.single (str "a") (str "bc")).entries.map Prod.fst)).flatMap
          (fun k => k ++ (ParamSet.single (str "a") (str "bc")).get k) = str "abc" := by decide
      have h2 : (sortStrings ((ParamSet.single (str "ab") (str "c")).entries.map Prod.fst)).flatMap
          (fun k => k ++ (ParamSet.single (str "ab") (str "c")).get k) = str "abc" := by decide
      rw [h1, h2]
    simp only [generateSignature, h]
  · intro secret params
    have h : signingString (NewClient (str "2x") secret) params 1 =
        signingString (NewClient (str "x") secret) params 12 := by
      rw [signingString_eq, signingString_eq]
      have h1 : formatInt 1 ++ (NewClient (str "2x") secret).APIKey = str "12x" := by
        show formatInt 1 ++ str "2x" = str "12x"
        decide
      have h2 : formatInt 12 ++ (NewClient (str "x") secret).APIKey = str "12x" := by
        show formatInt 12 ++ str "x" = str "12x"
        decide
      rw [h1, h2]
    simp only [generateSignature, h]
    rfl

/-! ## Numbers are written in the shortest form of their `float64` -/

set_option maxRecDepth 100000 in
/-- The encoder on number literals: the shortest decimal of the nearest `float64`, in plain
notation from `1e-6` up to `1e21` and with an exponent outside. -/
theorem marshalNumber_examples :
    marshalNumber (str "1.50") = str "1.5" ∧
    marshalNumber (str "1E2") = str "100" ∧
    marshalNumber (str "12345678901234567890") = str "12345678901234567000" ∧
    marshalNumber (str "0.1") = str "0.1" ∧
    marshalNumber (str "-0.0") = str "-0" ∧
    marshalNumber (str "1e21") = str "1e+21" ∧
    marshalNumber (str "100000000000000000000") = str "100000000000000000000" ∧
    marshalNumber (str "0.0000001") = str "1e-7" ∧
    marshalNumber (str "0.000001") = str "0.000001" ∧
    marshalNumber (str "9007199254740993") = str "9007199254740992" := by
  refine ⟨?_, ?_, ?_, ?_, ?_, ?_, ?_, ?_, ?_, ?_⟩ <;> decide

/-! ## C29: `toMCPResponse` -/

theorem int32_of_inRange (x : Int) (h1 : -(2 ^ 31 : Int) ≤ x) (h2 : x < (2 ^ 31 : Int)) :
    int32 x = x := by
  have e31 : (2 : Int) ^ 31 = 2147483648 := by norm_num
  have e32 : (2 : Int) ^ 32 = 4294967296 := by norm_num
  rw [e31] at h1 h2
  simp only [int32, e31, e32]
  omega

/-- **C29**. `toMCPResponse` returns no Go error and echoes the request id in whatever it
returns: with a non-nil `err` the result has `RequestId = requestID`, `Code = 13`
(`codes.Internal`) and `Message = err.Error()`; with a nil `err` and a response `r` the
result has `RequestId = requestID`, `Code = int32(r.RetCode)`, which is `r.RetCode` when that
is in the `int32` range, `Message = r.RetMsg` and `Data` the JSON serialization of `r`. So
the vendor's code is passed on as it is, and a response with `RetCode` 13 has the `Code` of an
internal failure. (With both `resp` and `err` nil the method panics.) -/
theorem toMCPResponse_spec (requestID : GoString) :
    (∀ (resp : Option Response) (e : GoError),
      toMCPResponse requestID resp (some e) =
        some ({ RequestId := requestID, Code := 13, Message := e.text, Data := [] }, none)) ∧
    (∀ r : Response,
      toMCPResponse requestID (some r) none =
        some ({ RequestId := requestID, Code := int32 r.RetCode, Message := r.RetMsg,
                Data := marshalResponse r }, none)) ∧
    (∀ r : Response, -(2 ^ 31 : Int) ≤ r.RetCode → r.RetCode < (2 ^ 31 : Int) →
      toMCPResponse requestID (some r) none =
        some ({ RequestId := requestID, Code := r.RetCode, Message := r.RetMsg,
                Data := marshalResponse r }, none)) ∧
    (∀ (resp : Option Response) (err : Option GoError) (out : MCPResponse × Option GoError),
      toMCPResponse requestID resp err = some out →
        out.2 = none ∧ out.1.RequestId = requestID) ∧
    (∀ (r : Response) (resp : Option Response) (e : GoError), r.RetCode = 13 →
      (toMCPResponse requestID (some r) none).map (fun out => out.1.Code) =
        (toMCPResponse requestID resp (some e)).map (fun out => out.1.Code)) ∧
    toMCPResponse requestID none none = none := by
  have hi : int32 codesInternal = 13 := by decide
  have h1 : ∀ (resp : Option Response) (e : GoError),
      toMCPResponse requestID resp (some e) =
        some ({ RequestId := requestID, Code := 13, Message := e.text, Data := [] }, none) := by
    intro resp e
    simp only [toMCPResponse, hi]
  have h2 : ∀ r : Response,
      toMCPResponse requestID (some r) none =
        some ({ RequestId := requestID, Code := int32 r.RetCode, Message := r.RetMsg,
                Data := marshalResponse r }, none) := by
    intro r
    simp only [toMCPResponse, marshalResponsePtr]
  refine ⟨h1, h2, ?_, ?_, ?_, rfl⟩
  · intro r hlo hhi
    rw [h2, int32_of_inRange r.RetCode hlo hhi]
  · intro resp err out hout
    cases err with
    | some e =>
      rw [h1] at hout
      cases hout
      exact ⟨rfl, rfl⟩
    | none =>
      cases resp with
      | none => simp [toMCPResponse, marshalResponsePtr] at hout
      | some r =>
        rw [h2] at hout
        cases hout
        exact ⟨rfl, rfl⟩
  · intro r resp e h13
    rw [h1, h2, h13]
    rfl

set_option maxRecDepth 100000 in
/-- The failure envelope with `retCode` 10001 is handed on with `Code` 10001 and the request
id of the call; a response whose result holds the numbers `1.50` and `1E2` is handed on with
the data `json.Marshal` writes for it, the numbers as `1.5` and `100`. -/
theorem toMCPResponse_spec_witness :
    toMCPResponse (str "req-1") (some failureResponse) none =
      some ({ RequestId := str "req-1", Code := 10001, Message := str "params error",
              Data := marshalResponse failureResponse }, none) ∧
    toMCPResponse (str "req-2") (some numericResponse) none =
      some ({ RequestId := str "req-2", Code := 0, Message := str "OK",
              Data := str "\x7b\"retCode\":0,\"retMsg\":\"OK\",\"result\":\x7b\"price\":1.5,\"qty\":100\x7d,\"retExtInfo\":null,\"time\":0\x7d" },
            none) :=
  ⟨(toMCPResponse_spec (str "req-1")).2.2.1 failureResponse (by decide) (by decide),
   ((toMCPResponse_spec (str "req-2")).2.2.1 numericResponse (by decide) (by decide)).trans
      (by decide)⟩

/-! ## C27: calls in flight at the same time -/

theorem sendRequest_finish (env : Env) (c : Client) (method endpoint : GoString)
    (params : ParamSet) (auth : Bool) :
    sendRequest env c method endpoint params auth =
      match buildRequest env c method endpoint params with
      | Except.error e => { sent := [], body := none, err := some e }
      | Except.ok req0 => finishRequest env (addAuth env c params auth req0) := by
  unfold sendRequest finishRequest
  cases buildRequest env c method endpoint params with
  | error e => rfl
  | ok req0 => rfl

theorem runAlone_done (env : Env) (c : Client) (clock : Nat → Int) (call : Call)
    (o : Outcome) : ∀ times : List Nat,
    runAlone env c clock call times (CallState.done o) = CallState.done o
  | [] => rfl
  | _ :: times => by
    simp only [runAlone, List.foldl_cons, stepCall]
    exact runAlone_done env c clock call o times

theorem stepCall_two (env : Env) (c : Client) (now1 now2 : Int) (call : Call) :
    stepCall env c now2 call (stepCall env c now1 call CallState.pending) =
      CallState.done (sendRequest { env with now := now1 } c call.method call.endpoint
        call.params call.auth) := by
  rw [sendRequest_finish]
  have hb : buildRequest { env with now := now1 } c call.method call.endpoint call.params =
      buildRequest env c call.method call.endpoint call.params := rfl
  have h1 : stepCall env c now1 call CallState.pending =
      match buildRequest env c call.method call.endpoint call.params with
      | Except.error e => CallState.done { sent := [], body := none, err := some e }
      | Except.ok req0 =>
        CallState.built (addAuth { env with now := now1 } c call.params call.auth req0) := rfl
  rw [hb, h1]
  cases buildRequest env c call.method call.endpoint call.params with
  | error e => rfl
  | ok req0 => rfl

/-- A call that has taken two steps has returned what `sendRequest` returns for its
arguments, the clock read at its first step. -/
theorem runAlone_two (env : Env) (c : Client) (clock : Nat → Int) (call : Call)
    (t1 t2 : Nat) (rest : List Nat) :
    runAlone env c clock call (t1 :: t2 :: rest) CallState.pending =
      CallState.done (sendRequest { env with now := clock t1 } c call.method call.endpoint
        call.params call.auth) := by
  have h : runAlone env c clock call (t1 :: t2 :: rest) CallState.pending =
      runAlone env c clock call rest
        (stepCall env c (clock t2) call (stepCall env c (clock t1) call CallState.pending)) :=
    rfl
  rw [h, stepCall_two]
  exact runAlone_done env c clock call _ rest

/-- The state of a call after a schedule is what the call reaches on its own, taking its
steps at the ticks the schedule gives it. -/
theorem runSchedule_local (env : Env) (c : Client) (clock : Nat → Int) {n : Nat}
    (calls : Fin n → Call) (i : Fin n) : ∀ (sched : List (Fin n)) (t : Nat)
    (st : Fin n → CallState),
    runSchedule env c clock calls sched t st i =
      runAlone env c clock (calls i) (stepTimes i sched t) (st i)
  | [], _, _ => rfl
  | j :: rest, t, st => by
    simp only [runSchedule, stepTimes]
    rw [runSchedule_local env c clock calls i rest (t + 1)]
    by_cases h : j = i
    · subst h
      simp only [Function.update_same, if_true, runAlone, List.foldl_cons]
    · simp only [Function.update_noteq (Ne.symm h), h, if_false]

/-- **C27**. For every `n` and every `n` calls of `sendRequest` in flight against one shared
client and transport, interleaved in any order: the state of each call is what the call
reaches on its own at the ticks it is given; once a call has taken its two steps it has
returned what `sendRequest` returns for its own arguments (the transport's answer to its own
request), the clock read at its first step; and its result is the same whatever the
arguments of the other calls are. -/
theorem concurrent_calls (env : Env) (c : Client) (clock : Nat → Int) {n : Nat}
    (calls : Fin n → Call) (sched : List (Fin n)) (i : Fin n) :
    runSchedule env c clock calls sched 0 (fun _ => CallState.pending) i =
      runAlone env c clock (calls i) (stepTimes i sched 0) CallState.pending ∧
    (∀ (t1 t2 : Nat) (rest : List Nat), stepTimes i sched 0 = t1 :: t2 :: rest →
      runSchedule env c clock calls sched 0 (fun _ => CallState.pending) i =
        CallState.done (sendRequest { env with now := clock t1 } c (calls i).method
          (calls i).endpoint (calls i).params (calls i).auth)) ∧
    (∀ others : Fin n → Call, others i = calls i →
      runSchedule env c clock others sched 0 (fun _ => CallState.pending) i =
        runSchedule env c clock calls sched 0 (fun _ => CallState.pending) i) := by
  have h := runSchedule_local env c clock calls i sched 0 (fun _ => CallState.pending)
  refine ⟨h, ?_, ?_⟩
  · intro t1 t2 rest ht
    rw [h, ht]
    exact runAlone_two env c clock (calls i) t1 t2 rest
  · intro others ho
    rw [h, runSchedule_local env c clock others i sched 0 (fun _ => CallState.pending), ho]

/-- Two calls of `GET market/tickers`, one for `spot` and one for `linear`, against a
transport that answers with the URL it was asked for, interleaved as first, second, second,
first: each call returns the URL of its own request. -/
theorem concurrent_calls_witness :
    runSchedule echoEnv demoClient (fun t => 1700000000000 + t) demoCalls [0, 1, 1, 0] 0
        (fun _ => CallState.pending) 0 =
      CallState.done
        { sent := [{ method := str "GET",
                     url := str "https://api.bybit.com/v5/market/tickers?category=spot",
                     body := none, header := [] }],
          body := some (str "https://api.bybit.com/v5/market/tickers?category=spot"),
          err := none } ∧
    runSchedule echoEnv demoClient (fun t => 1700000000000 + t) demoCalls [0, 1, 1, 0] 0
        (fun _ => CallState.pending) 1 =
      CallState.done
        { sent := [{ method := str "GET",
                     url := str "https://api.bybit.com/v5/market/tickers?category=linear",
                     body := none, header := [] }],
          body := some (str "https://api.bybit.com/v5/market/tickers?category=linear"),
          err := none } :=
  ⟨((concurrent_calls echoEnv demoClient (fun t => 1700000000000 + t) demoCalls [0, 1, 1, 0]
      0).2.1 0 3 [] (by decide)).trans (by decide),
   ((concurrent_calls echoEnv demoClient (fun t => 1700000000000 + t) demoCalls [0, 1, 1, 0]
      1).2.1 1 2 [] (by decide)).trans (by decide)⟩

end BybitMcp
